import Mathlib

/-! # AirDC++ web client: bundle queue and list view controller

A shallow embedding of

* `BundleQueue.cpp` (namespace `dcpp`): the bundle registry and the auto-search scheduler;
* `api/common/ListViewController.h` (namespace `webserver`): the task merge, the tick
  (`runTasks`) and the window computation of a list view.

Conventions of the embedding.

* A `BundlePtr` is a handle; the bundle objects live in a heap `BundlePtr → Bundle` that is part
  of the state, so that two handles are equal exactly when they point to the same bundle.
* A `dcassert` that fails, and an operation the C++ standard leaves undefined (erasing the end
  iterator, taking the front of an empty deque), make the operation return `none`.
* What the code reads from its environment (the clock behind `checkRecent`, the predicate
  `allowAutoSearch`, the random draw, the path helpers of `AirUtil` and `Util`) is a parameter.
-/

namespace webserver

/-! ## ListViewController: data model -/

/-- Items of a view (the template parameter `T`): handles ordered by `<`, as they key
`std::set<T>` and `std::map<T, MergeTask>`. -/
abbrev Item := Nat

/-- Property identifiers collected in a `PropertyIdSet`. -/
abbrev PropertyIdSet := Finset Int

/-- The task kinds, `enum Tasks`, declared "in merging order (lower ones replace other)". -/
inductive Tasks
  | UPDATE_ITEM
  | ADD_ITEM
  | REMOVE_ITEM
  deriving DecidableEq, Repr

/-- Numeric value of a task kind: `UPDATE_ITEM = 0`, `ADD_ITEM`, `REMOVE_ITEM`. -/
def Tasks.val : Tasks → Int
  | .UPDATE_ITEM => 0
  | .ADD_ITEM => 1
  | .REMOVE_ITEM => 2

/-- The struct `ItemTasks::MergeTask`. -/
structure MergeTask where
  type : Tasks
  updatedProperties : PropertyIdSet
  deriving DecidableEq

/-- The method `MergeTask::merge`: ignore the incoming task when the own type is smaller, union
the property sets when the types agree, replace the task otherwise. -/
def MergeTask.merge (self aTask : MergeTask) : MergeTask :=
  if self.type.val < aTask.type.val then
    self
  else if self.type.val = aTask.type.val then
    { self with updatedProperties := self.updatedProperties ∪ aTask.updatedProperties }
  else
    { type := aTask.type, updatedProperties := aTask.updatedProperties }

/-- The map `ItemTasks::TaskMap` (`std::map<T, MergeTask>`): an association list kept in
increasing key order, one entry per key. -/
abbrev TaskMap := List (Item × MergeTask)

/-- Lookup `tasks.find(aItem)`. -/
def TaskMap.find (m : TaskMap) (aItem : Item) : Option MergeTask :=
  m.lookup aItem

/-- Insertion `tasks.emplace(aItem, aData)`: inserts in key order, and leaves an existing entry
alone. -/
def TaskMap.emplace : TaskMap → Item → MergeTask → TaskMap
  | [], aItem, aData => [(aItem, aData)]
  | (k, t) :: rest, aItem, aData =>
    if aItem < k then (aItem, aData) :: (k, t) :: rest
    else if aItem = k then (k, t) :: rest
    else (k, t) :: TaskMap.emplace rest aItem aData

/-- The method `ItemTasks::add`: merge into the pending task of the item, or insert. -/
def ItemTasks.add (tasks : TaskMap) (aItem : Item) (aData : MergeTask) : TaskMap :=
  match TaskMap.find tasks aItem with
  | some _ => tasks.map (fun e => if e.1 = aItem then (e.1, e.2.merge aData) else e)
  | none => TaskMap.emplace tasks aItem aData

/-- The class `ViewTasks`: the merged tasks and the accumulated updated properties. -/
structure ViewTasks where
  updatedProperties : PropertyIdSet
  tasks : TaskMap

/-- The method `ViewTasks::addItem`. -/
def ViewTasks.addItem (self : ViewTasks) (aItem : Item) : ViewTasks :=
  { self with tasks := ItemTasks.add self.tasks aItem ⟨Tasks.ADD_ITEM, ∅⟩ }

/-- The method `ViewTasks::removeItem`. -/
def ViewTasks.removeItem (self : ViewTasks) (aItem : Item) : ViewTasks :=
  { self with tasks := ItemTasks.add self.tasks aItem ⟨Tasks.REMOVE_ITEM, ∅⟩ }

/-- The method `ViewTasks::updateItem`. -/
def ViewTasks.updateItem (self : ViewTasks) (aItem : Item) (aUpdatedProperties : PropertyIdSet) :
    ViewTasks :=
  { updatedProperties := self.updatedProperties ∪ aUpdatedProperties
    tasks := ItemTasks.add self.tasks aItem ⟨Tasks.UPDATE_ITEM, aUpdatedProperties⟩ }

/-- The method `ViewTasks::clear`. -/
def ViewTasks.clear : ViewTasks :=
  { updatedProperties := ∅, tasks := [] }

/-- Sort methods of a property. -/
inductive SortMethod
  | SORT_NUMERIC
  | SORT_TEXT
  | SORT_CUSTOM
  deriving DecidableEq, Repr

/-- The item handler `PropertyItemHandler<T>` (declared outside the files at hand) together with
the helpers `Util::stricmp` and `findPropertyByName`: taken as parameters. Numbers are `double`
in the source and exact integers here. -/
structure PropertyItemHandler where
  sortMethod : Int → SortMethod
  numberF : Item → Int → Int
  stringF : Item → Int → String
  customSorterF : Item → Item → Int → Int
  stricmp : String → String → Int
  findPropertyByName : String → Int

/-- Three-way comparison `compare(v1, v2)` used for `SORT_NUMERIC`. -/
def compare3 (v1 v2 : Int) : Int :=
  if v1 < v2 then -1 else if v1 = v2 then 0 else 1

/-- The static method `ListViewController::itemSort`. -/
def itemSort (aItemHandler : PropertyItemHandler) (aSortProperty aSortAscending : Int)
    (t1 t2 : Item) : Bool :=
  let res : Int :=
    match aItemHandler.sortMethod aSortProperty with
    | .SORT_NUMERIC =>
      compare3 (aItemHandler.numberF t1 aSortProperty) (aItemHandler.numberF t2 aSortProperty)
    | .SORT_TEXT =>
      aItemHandler.stricmp (aItemHandler.stringF t1 aSortProperty)
        (aItemHandler.stringF t2 aSortProperty)
    | .SORT_CUSTOM => aItemHandler.customSorterF t1 t2 aSortProperty
  if aSortAscending = 1 then decide (res < 0) else decide (res > 0)

/-- A filter `PropertyFilter` (declared outside the files at hand), as far as the view uses it:
its token, whether it is empty, and whether it matches an item (the matcher of
`PropertyFilter::Matcher::match` applied through the item handler). -/
structure PropertyFilter where
  id : Nat
  empty : Bool
  matcher : Item → Bool

/-- The four values of `IntCollector::ValueMap`. -/
structure Values where
  sortProperty : Int
  sortAscending : Int
  rangeStart : Int
  maxCount : Int
  deriving DecidableEq, Repr

/-- The class `IntCollector`. -/
structure IntCollector where
  changed : Bool
  values : Values
  deriving DecidableEq, Repr

/-- The method `IntCollector::reset`: every value is `-1`. -/
def IntCollector.resetValues : Values :=
  { sortProperty := -1, sortAscending := -1, rangeStart := -1, maxCount := -1 }

/-- How one position of the window is serialised in the payload. -/
inductive ItemPayload
  | full
  | updated (props : PropertyIdSet)
  | position
  deriving DecidableEq

/-- The JSON payload of one tick, field by field; `none` is an absent field. -/
structure Payload where
  items : Option (List (Item × ItemPayload))
  range_offset : Option Int
  range_start : Option Int
  matching_items : Option Int
  total_items : Option Int
  deriving DecidableEq

/-- The empty payload (`json j;`, a null value). -/
def Payload.null : Payload :=
  { items := none, range_offset := none, range_start := none, matching_items := none,
    total_items := none }

/-- State of a `ListViewController`. The set `allItems` is a strictly increasing list, the map
`prevValues` reads `0` for a key that was never written (`operator[]`), and `sent` collects the
payloads passed to `sendJson`, oldest first. -/
structure ListViewController where
  filters : List PropertyFilter
  currentViewItems : List Item
  matchingItems : List Item
  allItems : List Item
  active : Bool
  timerRunning : Bool
  tasks : ViewTasks
  itemListChanged : Bool
  currentValues : IntCollector
  prevMatchingItemCount : Int
  prevTotalItemCount : Int
  prevValues : Values
  sent : List Payload

/-- A freshly constructed controller. -/
def ListViewController.init : ListViewController :=
  { filters := [], currentViewItems := [], matchingItems := [], allItems := [],
    active := false, timerRunning := false, tasks := ViewTasks.clear,
    itemListChanged := false,
    currentValues := { changed := true, values := IntCollector.resetValues },
    prevMatchingItemCount := -1, prevTotalItemCount := -1,
    prevValues := { sortProperty := 0, sortAscending := 0, rangeStart := 0, maxCount := 0 },
    sent := [] }

/-- Insertion into the `std::set` of all items. -/
def setInsert : List Item → Item → List Item
  | [], a => [a]
  | b :: rest, a =>
    if a < b then a :: b :: rest
    else if a = b then b :: rest
    else b :: setInsert rest a

/-! ## ListViewController: filters -/

/-- The method `getFilterMatchers`: the filters that are not empty. -/
def getFilterMatchers (v : ListViewController) : List PropertyFilter :=
  v.filters.filter (fun f => !f.empty)

/-- The method `matchesFilter`: the conjunction of the given matchers. -/
def matchesFilter (aItem : Item) (aMatchers : List PropertyFilter) : Bool :=
  aMatchers.all (fun f => f.matcher aItem)

/-- The method `onFilterUpdated`. -/
def onFilterUpdated (v : ListViewController) : ListViewController :=
  let matchers := getFilterMatchers v
  let itemsNew := v.allItems.filter (fun i => matchesFilter i matchers)
  { v with
    matchingItems := itemsNew
    itemListChanged := true
    currentValues :=
      { changed := true, values := { v.currentValues.values with rangeStart := 0 } } }

/-- The method `addFilter`; the token of the new filter is chosen by its constructor. -/
def addFilter (v : ListViewController) (aId : Nat) : ListViewController :=
  { v with filters := v.filters ++ [{ id := aId, empty := true, matcher := fun _ => true }] }

/-- The method `setFilterProperties` on the filter with token `aId`: `prepare` stores the new
pattern (here: emptiness and matcher), then `onFilterUpdated` runs. -/
def setFilterProperties (v : ListViewController) (aId : Nat) (aEmpty : Bool)
    (aMatcher : Item → Bool) : ListViewController :=
  onFilterUpdated
    { v with
      filters := v.filters.map (fun f =>
        if f.id = aId then { id := f.id, empty := aEmpty, matcher := aMatcher } else f) }

/-- The handler `handlePostFilter`; `aBody` is the request body, `none` when it is null. -/
def handlePostFilter (v : ListViewController) (aId : Nat)
    (aBody : Option (Bool × (Item → Bool))) : ListViewController :=
  let v1 := addFilter v aId
  match aBody with
  | some (e, m) => setFilterProperties v1 aId e m
  | none => v1

/-- The method `removeFilter`. -/
def removeFilter (v : ListViewController) (aToken : Nat) : Bool × ListViewController :=
  match v.filters.find? (fun f => f.id == aToken) with
  | none => (false, v)
  | some _ =>
    (true, onFilterUpdated { v with filters := v.filters.eraseP (fun f => f.id == aToken) })

/-! ## ListViewController: settings and activation -/

/-- The body of `POST <view>/settings`; `none` is an absent field. -/
structure SettingsBody where
  range_start : Option Int
  max_count : Option Int
  sort_property : Option String
  sort_ascending : Option Bool
  paused : Option Bool

/-- The method `parseProperties`, statement by statement. The result is the message of the
`std::invalid_argument` that was thrown, if any, together with the state of the view at the
moment the method is left. The values parsed so far are collected in the local map
`updatedValues` (here: the stored values overwritten with the parsed ones, `none` while the map
is empty); the view is written only by the last two statements. -/
def parsePropertiesRun (H : PropertyItemHandler) (v : ListViewController) (j : SettingsBody) :
    Option String × ListViewController :=
  let vals0 : Option Values := none
  let cur := v.currentValues.values
  match (match j.range_start with
    | some start =>
      if start < 0 then Except.error "Negative range start not allowed"
      else Except.ok (some { cur with rangeStart := start })
    | none => Except.ok vals0) with
  | .error e => (some e, v)
  | .ok u1 =>
    let u2 : Option Values :=
      match j.max_count with
      | some e => some { (u1.getD cur) with maxCount := e }
      | none => u1
    match (match j.sort_property with
      | some name =>
        let prop := H.findPropertyByName name
        if prop = -1 then Except.error "Invalid sort property"
        else Except.ok (some { (u2.getD cur) with sortProperty := prop })
      | none => Except.ok u2) with
    | .error e => (some e, v)
    | .ok u3 =>
      let u4 : Option Values :=
        match j.sort_ascending with
        | some a => some { (u3.getD cur) with sortAscending := if a then 1 else 0 }
        | none => u3
      let v1 : ListViewController :=
        match j.paused with
        | some p =>
          if p && v.timerRunning then { v with timerRunning := false }
          else if !p && !v.timerRunning then { v with timerRunning := true }
          else v
        | none => v
      match u4 with
      | some vals => (none, { v1 with currentValues := { changed := true, values := vals } })
      | none => (none, v1)

/-- The method `parseProperties` as a partial function of the state: `Except.error` is the
thrown `std::invalid_argument`. -/
def parseProperties (H : PropertyItemHandler) (v : ListViewController) (j : SettingsBody) :
    Except String ListViewController :=
  match parsePropertiesRun H v j with
  | (some e, _) => .error e
  | (none, v1) => .ok v1

/-- The method `updateList`; `aItems` is what `itemListF()` returns. -/
def updateList (v : ListViewController) (aItems : List Item) : ListViewController :=
  { v with
    matchingItems := aItems
    allItems := aItems.foldl setInsert v.allItems
    itemListChanged := true }

/-- The handler `handlePostSettings`. -/
def handlePostSettings (H : PropertyItemHandler) (v : ListViewController) (j : SettingsBody)
    (aItems : List Item) : Except String ListViewController :=
  match parseProperties H v j with
  | .error e => .error e
  | .ok v1 =>
    if !v1.active then
      .ok { updateList { v1 with active := true } aItems with timerRunning := true }
    else .ok v1

/-- The method `onItemAdded`. -/
def onItemAdded (v : ListViewController) (aItem : Item) : ListViewController :=
  if !v.active then v else { v with tasks := v.tasks.addItem aItem }

/-- The method `onItemRemoved`. -/
def onItemRemoved (v : ListViewController) (aItem : Item) : ListViewController :=
  if !v.active then v else { v with tasks := v.tasks.removeItem aItem }

/-- The method `onItemUpdated`. -/
def onItemUpdated (v : ListViewController) (aItem : Item) (aUpdatedProperties : PropertyIdSet) :
    ListViewController :=
  if !v.active then v else { v with tasks := v.tasks.updateItem aItem aUpdatedProperties }

/-! ## ListViewController: the tick -/

/-- The loop of `std::lower_bound` over positions `first .. first + len` of `l`, where `comp x`
stands for `comp(x, value)`. The first argument bounds the number of iterations; `len` shrinks
in every iteration, so `len` itself is enough. -/
def lowerBoundAux (comp : Item → Bool) (l : List Item) : Nat → Nat → Nat → Nat
  | 0, first, _ => first
  | fuel + 1, first, len =>
    if len = 0 then first
    else
      let half := len / 2
      let middle := first + half
      if comp (l.getD middle 0) then lowerBoundAux comp l fuel (middle + 1) (len - half - 1)
      else lowerBoundAux comp l fuel first half

/-- The position returned by `std::lower_bound(begin, end, aItem, itemSort)`. -/
def lowerBound (H : PropertyItemHandler) (aSortProperty aSortAscending : Int)
    (l : List Item) (aItem : Item) : Nat :=
  lowerBoundAux (fun x => itemSort H aSortProperty aSortAscending x aItem) l l.length 0 l.length

/-- The method `handleAddItem`; the second component is `rangeStart_`. -/
def handleAddItem (H : PropertyItemHandler) (v : ListViewController) (aItem : Item)
    (aSortProperty aSortAscending : Int) (rangeStart : Int) : ListViewController × Int :=
  let passes := matchesFilter aItem (getFilterMatchers v)
  let v1 := { v with allItems := setInsert v.allItems aItem }
  if passes then
    let pos := lowerBound H aSortProperty aSortAscending v1.matchingItems aItem
    let v2 :=
      { v1 with matchingItems := v1.matchingItems.take pos ++ aItem :: v1.matchingItems.drop pos }
    if (pos : Int) < rangeStart then (v2, rangeStart + 1) else (v2, rangeStart)
  else (v1, rangeStart)

/-- The method `handleRemoveItem`. When the item is not in `matchingItems`, `findItem` returns
the end iterator and erasing it is undefined: the result is `none`. -/
def handleRemoveItem (v : ListViewController) (aItem : Item) (rangeStart : Int) :
    Option (ListViewController × Int) :=
  let pos := v.matchingItems.indexOf aItem
  if pos = v.matchingItems.length then none
  else
    let v1 :=
      { v with
        matchingItems := v.matchingItems.eraseIdx pos
        allItems := v.allItems.erase aItem }
    if rangeStart > 0 ∧ (pos : Int) > rangeStart then some (v1, rangeStart - 1)
    else some (v1, rangeStart)

/-- The method `handleUpdateItem`; the Boolean is its return value. -/
def handleUpdateItem (H : PropertyItemHandler) (v : ListViewController) (aItem : Item)
    (aSortProperty aSortAscending : Int) (rangeStart : Int) :
    Option (Bool × ListViewController × Int) :=
  let inList := decide (aItem ∈ v.matchingItems)
  let matchers := getFilterMatchers v
  if !matchesFilter aItem matchers then
    if inList then
      (handleRemoveItem v aItem rangeStart).map (fun r => (false, r))
    else some (false, v, rangeStart)
  else if !inList then
    some (false, handleAddItem H v aItem aSortProperty aSortAscending rangeStart)
  else some (true, v, rangeStart)

/-- The map `ItemPropertyIdMap` of the items that were updated in place. -/
abbrev ItemPropertyIdMap := List (Item × PropertyIdSet)

/-- The method `handleTasks`: the tasks are handled in key order. -/
def handleTasks (H : PropertyItemHandler) (aSortProperty aSortAscending : Int) :
    TaskMap → ListViewController → Int → ItemPropertyIdMap →
    Option (ItemPropertyIdMap × ListViewController × Int)
  | [], v, rangeStart, updatedItems => some (updatedItems, v, rangeStart)
  | (item, task) :: rest, v, rangeStart, updatedItems =>
    match task.type with
    | .ADD_ITEM =>
      let r := handleAddItem H v item aSortProperty aSortAscending rangeStart
      handleTasks H aSortProperty aSortAscending rest r.1 r.2 updatedItems
    | .REMOVE_ITEM =>
      match handleRemoveItem v item rangeStart with
      | none => none
      | some r => handleTasks H aSortProperty aSortAscending rest r.1 r.2 updatedItems
    | .UPDATE_ITEM =>
      match handleUpdateItem H v item aSortProperty aSortAscending rangeStart with
      | none => none
      | some (true, v1, rs1) =>
        handleTasks H aSortProperty aSortAscending rest v1 rs1
          (updatedItems ++ [(item, task.updatedProperties)])
      | some (false, v1, rs1) =>
        handleTasks H aSortProperty aSortAscending rest v1 rs1 updatedItems

/-- The method `updateViewItems`; the last component of the result is `newStart_`. The caller
guarantees `0 ≤ newStart`. -/
def updateViewItems (v : ListViewController) (aUpdatedItems : ItemPropertyIdMap) (json : Payload)
    (newStart aMaxCount : Int) : ListViewController × Payload × Int :=
  let newStart1 : Int := if newStart ≥ (v.allItems.length : Int) then 0 else newStart
  let count : Int := min ((v.matchingItems.length : Int) - newStart1) aMaxCount
  if count < 0 then (v, json, newStart1)
  else
    let viewItemsNew := (v.matchingItems.drop newStart1.toNat).take count.toNat
    let oldViewItems := v.currentViewItems
    let items : List (Item × ItemPayload) :=
      viewItemsNew.map (fun item =>
        if item ∉ oldViewItems then (item, ItemPayload.full)
        else
          match aUpdatedItems.lookup item with
          | some props => (item, ItemPayload.updated props)
          | none => (item, ItemPayload.position))
    ({ v with currentViewItems := viewItemsNew }, { json with items := some items }, newStart1)

/-- The method `maybeSort`. The order in which `std::sort` leaves equivalent items is not
specified; the model sorts by insertion, which keeps their order. -/
def maybeSort (H : PropertyItemHandler) (v : ListViewController)
    (aUpdatedProperties : PropertyIdSet) (aSortProperty aSortAscending : Int) :
    ListViewController :=
  let needSort : Bool :=
    decide (aSortProperty ∈ aUpdatedProperties) ||
    decide (v.prevValues.sortAscending ≠ aSortAscending) ||
    decide (v.prevValues.sortProperty ≠ aSortProperty) ||
    v.itemListChanged
  let v1 := { v with itemListChanged := false }
  if needSort then
    { v1 with
      matchingItems :=
        v1.matchingItems.insertionSort
          (fun a b => itemSort H aSortProperty aSortAscending b a = false) }
  else v1

/-- The method `appendItemCounts`. -/
def appendItemCounts (v : ListViewController) (json : Payload) : ListViewController × Payload :=
  let matchingItemCount : Int := v.matchingItems.length
  let totalItemCount : Int := v.allItems.length
  let r1 : ListViewController × Payload :=
    if matchingItemCount ≠ v.prevMatchingItemCount then
      ({ v with prevMatchingItemCount := matchingItemCount },
        { json with matching_items := some matchingItemCount })
    else (v, json)
  if totalItemCount ≠ r1.1.prevTotalItemCount then
    ({ r1.1 with prevTotalItemCount := totalItemCount },
      { r1.2 with total_items := some totalItemCount })
  else r1

/-- The method `sendJson`: a null payload is not sent. -/
def sendJson (v : ListViewController) (j : Payload) : ListViewController :=
  if j = Payload.null then v else { v with sent := v.sent ++ [j] }

/-- The body of `runTasks` up to and including `appendItemCounts`. The payload is `none` on the
two early returns (nothing to update, or no sort property yet). The result is `none` when a
removal is undefined. -/
def runTasksBody (H : PropertyItemHandler) (v : ListViewController) :
    Option (ListViewController × Option Payload) :=
  let currentTasks := v.tasks.tasks
  let updatedProperties := v.tasks.updatedProperties
  let v0 := { v with tasks := ViewTasks.clear }
  if currentTasks.isEmpty && !v0.currentValues.changed && !v0.itemListChanged then some (v0, none)
  else
    let updateValues := v0.currentValues.values
    let v1 := { v0 with currentValues := { v0.currentValues with changed := false } }
    let sortAscending := updateValues.sortAscending
    let sortProperty := updateValues.sortProperty
    if sortProperty < 0 then some (v1, none)
    else
      let v2 := maybeSort H v1 updatedProperties sortProperty sortAscending
      match handleTasks H sortProperty sortAscending currentTasks v2 updateValues.rangeStart [] with
      | none => none
      | some (updatedItems, v3, newStart) =>
        let r : ListViewController × Payload :=
          if newStart ≥ 0 then
            let u := updateViewItems v3 updatedItems Payload.null newStart updateValues.maxCount
            let startOffset := u.2.2 - updateValues.rangeStart
            let j1 : Payload :=
              if startOffset ≠ 0 then { u.2.1 with range_offset := some startOffset } else u.2.1
            (u.1, { j1 with range_start := some u.2.2 })
          else (v3, Payload.null)
        let v4 := { r.1 with prevValues := updateValues }
        let c := appendItemCounts v4 r.2
        some (c.1, some c.2)

/-- The method `runTasks`, one tick of the view: the body, then the closing `dcassert` and
`sendJson`. The result is `none` when a removal is undefined or when the `dcassert` fails. -/
def runTasks (H : PropertyItemHandler) (v : ListViewController) : Option ListViewController :=
  match runTasksBody H v with
  | none => none
  | some (c, none) => some c
  | some (c, some j) =>
    if (c.matchingItems.length ≠ 0 ∧ c.allItems.length ≠ 0) ∨ c.currentViewItems = []
    then some (sendJson c j)
    else none

/-! ## ListViewController: small concrete inputs -/

/-- An item handler with one numeric property, `id` (property `0`), whose value on an item is
the item itself. -/
def exampleHandler : PropertyItemHandler :=
  { sortMethod := fun _ => SortMethod.SORT_NUMERIC
    numberF := fun t _ => (t : Int)
    stringF := fun _ _ => ""
    customSorterF := fun _ _ _ => 0
    stricmp := fun _ _ => 0
    findPropertyByName := fun name => if name = "id" then 0 else -1 }

/-- A settings body that sorts by `id`, ascending, with the given window. -/
def exampleSettings (aRangeStart aMaxCount : Int) : SettingsBody :=
  { range_start := some aRangeStart, max_count := some aMaxCount, sort_property := some "id",
    sort_ascending := some true, paused := none }

/-- A view on which a filter that passes the items up to `aBound` is posted first, and which is
then activated by posting settings while `itemListF()` returns `aItems`. -/
def exampleActivated (aBound : Nat) (aRangeStart aMaxCount : Int) (aItems : List Item) :
    Option ListViewController :=
  let v1 := handlePostFilter ListViewController.init 7 (some (false, fun i => decide (i ≤ aBound)))
  match handlePostSettings exampleHandler v1 (exampleSettings aRangeStart aMaxCount) aItems with
  | .ok v2 => some v2
  | .error _ => none

/-- The items of `allItems` that pass the filters of the view, in the order of `allItems`. -/
def filteredItems (v : ListViewController) : List Item :=
  v.allItems.filter (fun i => matchesFilter i (getFilterMatchers v))

/-- Scenario for the projection law: the filter passes only item `1`, the view is activated on
the items `1` and `2`, and one tick runs. -/
def exampleFilterFirst : Option ListViewController :=
  (exampleActivated 1 0 10 [1, 2]).bind (runTasks exampleHandler)

/-- Scenario for the window, first tick: the filter passes the items up to `3`, the view is
activated on the items `1`, `2`, `3` with the window starting at `2`, and one tick runs. -/
def exampleWindowTick1 : Option ListViewController :=
  (exampleActivated 3 2 5 [1, 2, 3]).bind (runTasks exampleHandler)

/-- Scenario for the window, the events after the first tick: the items `4`, `5`, `6` (which do
not pass the filter) are added and the items `2` and `3` are removed. -/
def exampleWindowEvents (v : ListViewController) : ListViewController :=
  onItemRemoved (onItemRemoved (onItemAdded (onItemAdded (onItemAdded v 4) 5) 6) 2) 3

/-- Scenario for the window, second tick. -/
def exampleWindowTick2 : Option ListViewController :=
  (exampleWindowTick1.map exampleWindowEvents).bind (runTasks exampleHandler)

/-- Scenario for the window in which also item `1` is removed before the second tick: the state
before that tick. -/
def exampleWindowEmptied : Option ListViewController :=
  exampleWindowTick1.map (fun v => onItemRemoved (exampleWindowEvents v) 1)

end webserver

namespace dcpp

/-! ## BundleQueue: data model -/

/-- Modelled from the spec: the priority `Bundle::PAUSED` of the enum `Bundle::Priority`, which
is declared in `Bundle.h`. The spec orders the priorities PAUSED, LOWEST, LOW, NORMAL, HIGH,
HIGHEST with the sentinel LAST, and the code takes `LOW = 2` (`dist(gen) + 2`). -/
def PAUSED : Nat := 0

/-- Modelled from the spec: the priority `Bundle::LOWEST`. -/
def LOWEST : Nat := 1

/-- Modelled from the spec: the priority `Bundle::LOW`, the first one that is scheduled. -/
def LOW : Nat := 2

/-- Modelled from the spec: the priority `Bundle::NORMAL`. -/
def NORMAL : Nat := 3

/-- Modelled from the spec: the priority `Bundle::HIGH`. -/
def HIGH : Nat := 4

/-- Modelled from the spec: the priority `Bundle::HIGHEST`. -/
def HIGHEST : Nat := 5

/-- Modelled from the spec: the sentinel `Bundle::LAST`. -/
def LAST : Nat := 6

/-- A handle to a bundle (`BundlePtr`). -/
abbrev BundlePtr := Nat

/-- A handle to a queue item (`QueueItemPtr`). -/
abbrev QueueItemPtr := Nat

/-- The fields of a `Bundle` that the bundle queue reads or writes. `flagNew` is `FLAG_NEW`,
`recent` is what `isRecent()` returns, `bundleDirs` are the keys of `getBundleDirs()`. -/
structure Bundle where
  token : String
  target : String
  fileBundle : Bool
  priority : Nat
  flagNew : Bool
  recent : Bool
  downloadedBytes : Nat
  bundleDirs : List String
  queueItems : List QueueItemPtr
  finishedFiles : List QueueItemPtr
  deriving DecidableEq, Repr

/-- Modelled from the spec: the multimap `Bundle::BundleDirMap` (declared in `Bundle.h`), from
the last segment of a path to the pair (full path, bundle). Entries are kept in a list; the
entries of `equal_range(k)` are those with key `k`, in list order. -/
abbrev BundleDirMap := List (String × (String × BundlePtr))

/-- State of a `BundleQueue`, together with the heap of the bundles its handles point to.
`bundles` is the token map (one entry per token) and `prioSearchQueue p` is the queue of
priority `p`. -/
structure BundleQueue where
  heap : BundlePtr → Bundle
  bundles : List (String × BundlePtr)
  bundleDirs : BundleDirMap
  prioSearchQueue : Nat → List BundlePtr
  recentSearchQueue : List BundlePtr
  nextSearch : Nat
  nextRecentSearch : Nat

/-- The constructor `BundleQueue::BundleQueue`, over a given heap of bundles. -/
def BundleQueue.empty (heap : BundlePtr → Bundle) : BundleQueue :=
  { heap := heap, bundles := [], bundleDirs := [], prioSearchQueue := fun _ => [],
    recentSearchQueue := [], nextSearch := 0, nextRecentSearch := 0 }

/-- The path helpers `Util::getLastDir`, `AirUtil::isSub` and `AirUtil::isParentOrExact`, which
are defined outside the files at hand: taken as parameters. By the interface description,
`isSub a b` says that `a` is strictly inside `b`, and `isParentOrExact a b` says that `a` is `b`
or that `b` is strictly inside `a`. -/
structure PathUtil where
  getLastDir : String → String
  isSub : String → String → Bool
  isParentOrExact : String → String → Bool

/-- What one scheduler pick reads from its environment: `allowAutoSearch b` is the value of
`b->allowAutoSearch()`, `checkRecent b` is the value that `b->checkRecent()` computes from the
clock (and stores as the recent flag), and `draw` is the index `dist(gen)` sampled by the
discrete distribution. -/
structure SearchEnv where
  allowAutoSearch : BundlePtr → Bool
  checkRecent : BundlePtr → Bool
  draw : Nat

/-! ## BundleQueue: search scheduler -/

/-- The method `BundleQueue::addSearchPrio`. A failing `dcassert` (the bundle is already in the
queue it is pushed to) gives `none`. -/
def addSearchPrio (s : BundleQueue) (aBundle : BundlePtr) : Option BundleQueue :=
  let prio := (s.heap aBundle).priority
  if prio < LOW then some s
  else if (s.heap aBundle).recent then
    if aBundle ∈ s.recentSearchQueue then none
    else some { s with recentSearchQueue := s.recentSearchQueue ++ [aBundle] }
  else
    if aBundle ∈ s.prioSearchQueue prio then none
    else
      some { s with
        prioSearchQueue :=
          Function.update s.prioSearchQueue prio (s.prioSearchQueue prio ++ [aBundle]) }

/-- The method `BundleQueue::removeSearchPrio`: erases the first occurrence, if any. -/
def removeSearchPrio (s : BundleQueue) (aBundle : BundlePtr) : BundleQueue :=
  let prio := (s.heap aBundle).priority
  if prio < LOW then s
  else if (s.heap aBundle).recent then
    { s with recentSearchQueue := s.recentSearchQueue.erase aBundle }
  else
    { s with
      prioSearchQueue :=
        Function.update s.prioSearchQueue prio ((s.prioSearchQueue prio).erase aBundle) }

/-- The method `BundleQueue::getPrioSum`: the weight vector written to `probabilities`, and the
number of searchable bundles in the priority queues. -/
def getPrioSum (env : SearchEnv) (s : BundleQueue) : List Nat × Nat :=
  let bands := List.range' LOW (LAST - LOW)
  let counts := bands.map (fun p => (s.prioSearchQueue p).countP env.allowAutoSearch)
  ((List.zip bands counts).map (fun pc => (pc.1 - 1) * pc.2), counts.sum)

/-- The method `BundleQueue::findAutoSearch`. A failing `dcassert(!sbq.empty())` gives `none`. -/
def findAutoSearch (env : SearchEnv) (s : BundleQueue) : Option (Option BundlePtr × BundleQueue) :=
  let prioBundles := (getPrioSum env s).2
  if prioBundles = 0 then some (none, s)
  else
    let band := env.draw + 2
    let sbq := s.prioSearchQueue band
    if sbq = [] then none
    else
      match sbq.find? env.allowAutoSearch with
      | some b =>
        some (some b,
          { s with
            prioSearchQueue :=
              Function.update s.prioSearchQueue band (sbq.eraseP env.allowAutoSearch ++ [b]) })
      | none => some (none, s)

/-- The effect of `b->checkRecent()` on the heap: the recent flag is recomputed. -/
def checkRecent (env : SearchEnv) (s : BundleQueue) (b : BundlePtr) : BundleQueue :=
  { s with heap := Function.update s.heap b { s.heap b with recent := env.checkRecent b } }

/-- The loop `for (;;)` of `BundleQueue::findRecent`, entered with the given `count`. The first
argument bounds the number of iterations. The result is `none` when the front of an empty queue
is taken, when the `dcassert` of `addSearchPrio` fails, or when the bound is used up. -/
def findRecentLoop (env : SearchEnv) :
    Nat → Nat → BundleQueue → Option (Option BundlePtr × BundleQueue)
  | 0, _, _ => none
  | fuel + 1, count, s =>
    match s.recentSearchQueue with
    | [] => none
    | b :: rest =>
      let s1 := checkRecent env { s with recentSearchQueue := rest } b
      let next : Option BundleQueue :=
        if env.checkRecent b then some { s1 with recentSearchQueue := rest ++ [b] }
        else addSearchPrio s1 b
      match next with
      | none => none
      | some s2 =>
        if env.allowAutoSearch b then some (some b, s2)
        else if count ≥ s2.recentSearchQueue.length then some (none, s2)
        else findRecentLoop env fuel (count + 1) s2

/-- The method `BundleQueue::findRecent`. The loop is given one iteration more than the queue
has bundles. -/
def findRecent (env : SearchEnv) (s : BundleQueue) : Option (Option BundlePtr × BundleQueue) :=
  if s.recentSearchQueue.length = 0 then some (none, s)
  else findRecentLoop env (s.recentSearchQueue.length + 1) 0 s

/-- The method `BundleQueue::findSearchBundle`. -/
def findSearchBundle (env : SearchEnv) (s : BundleQueue) (aTick : Nat) (force : Bool) :
    Option (Option BundlePtr × BundleQueue) :=
  let first : Option (Option BundlePtr × BundleQueue) :=
    if aTick ≥ s.nextSearch ∨ force = true then findAutoSearch env s else some (none, s)
  match first with
  | none => none
  | some (some b, s1) => some (some b, s1)
  | some (none, s1) =>
    if aTick ≥ s1.nextRecentSearch ∨ force = true then findRecent env s1 else some (none, s1)

/-! ## BundleQueue: registry -/

/-- The method `BundleQueue::findBundle`. -/
def findBundle (s : BundleQueue) (bundleToken : String) : Option BundlePtr :=
  s.bundles.lookup bundleToken

/-- The assignment `bundles[token] = aBundle`: rebinds an existing token, or adds an entry. -/
def mapAssign : List (String × BundlePtr) → String → BundlePtr → List (String × BundlePtr)
  | [], token, aBundle => [(token, aBundle)]
  | (k, b) :: rest, token, aBundle =>
    if k = token then (k, aBundle) :: rest else (k, b) :: mapAssign rest token aBundle

/-- The call `bundles.erase(token)`. -/
def mapErase (m : List (String × BundlePtr)) (token : String) : List (String × BundlePtr) :=
  m.filter (fun e => e.1 ≠ token)

/-- The test of `BundleQueue::findLocalDir`: the entry is in `equal_range(getLastDir(aPath))` and
its full path is `aPath`. -/
def isLocalDir (U : PathUtil) (aPath : String) (e : String × (String × BundlePtr)) : Bool :=
  e.1 == U.getLastDir aPath && e.2.1 == aPath

/-- The method `BundleQueue::findLocalDir`: the first matching entry, `none` for `end()`. -/
def findLocalDir (U : PathUtil) (s : BundleQueue) (aPath : String) :
    Option (String × (String × BundlePtr)) :=
  s.bundleDirs.find? (isLocalDir U aPath)

/-- The method `BundleQueue::addDirectory`. -/
def addDirectory (U : PathUtil) (s : BundleQueue) (aPath : String) (aBundle : BundlePtr) :
    BundleQueue :=
  { s with bundleDirs := s.bundleDirs ++ [(U.getLastDir aPath, (aPath, aBundle))] }

/-- The method `BundleQueue::removeDirectory`: erases the entry found by `findLocalDir`. -/
def removeDirectory (U : PathUtil) (s : BundleQueue) (aPath : String) : BundleQueue :=
  { s with bundleDirs := s.bundleDirs.eraseP (isLocalDir U aPath) }

/-- The first two statements of `addBundle`: `unsetFlag(Bundle::FLAG_NEW)` and
`setDownloadedBytes(0)` on the bundle. -/
def unsetNew (s : BundleQueue) (aBundle : BundlePtr) : BundleQueue :=
  { s with
    heap :=
      Function.update s.heap aBundle
        { s.heap aBundle with flagNew := false, downloadedBytes := 0 } }

/-- The method `BundleQueue::addBundle`. -/
def addBundle (U : PathUtil) (s : BundleQueue) (aBundle : BundlePtr) : Option BundleQueue :=
  match addSearchPrio (unsetNew s aBundle) aBundle with
  | none => none
  | some s1 =>
    let b := s1.heap aBundle
    let s2 := { s1 with bundles := mapAssign s1.bundles b.token aBundle }
    if !b.fileBundle then
      if (findLocalDir U s2 b.target).isNone then some (addDirectory U s2 b.target aBundle)
      else some s2
    else some s2

/-- The method `BundleQueue::removeBundle`. A failing `dcassert` (the bundle still has finished
or queued items) gives `none`; deleting the bundle file leaves the state alone. -/
def removeBundle (U : PathUtil) (s : BundleQueue) (aBundle : BundlePtr) : Option BundleQueue :=
  let b := s.heap aBundle
  if b.flagNew then some s
  else
    let s1 := b.bundleDirs.foldl (removeDirectory U) s
    if b.finishedFiles ≠ [] ∨ b.queueItems ≠ [] then none
    else
      let s2 := removeSearchPrio s1 aBundle
      some { s2 with bundles := mapErase s2.bundles b.token }

/-- The method `BundleQueue::moveBundle`. -/
def moveBundle (U : PathUtil) (s : BundleQueue) (aBundle : BundlePtr) (newTarget : String) :
    BundleQueue :=
  let s1 := removeDirectory U s (s.heap aBundle).target
  let s2 : BundleQueue :=
    { s1 with
      heap := Function.update s1.heap aBundle { s1.heap aBundle with target := newTarget } }
  addDirectory U s2 newTarget aBundle

/-- The test in the loop of `BundleQueue::getMergeBundle`. -/
def isMergeCandidate (U : PathUtil) (s : BundleQueue) (aTarget : String)
    (e : String × BundlePtr) : Bool :=
  let compareBundle := s.heap e.2
  !compareBundle.fileBundle &&
    (U.isSub aTarget compareBundle.target || U.isParentOrExact aTarget compareBundle.target)

/-- The method `BundleQueue::getMergeBundle`: the first candidate in the iteration order of the
token map. -/
def getMergeBundle (U : PathUtil) (s : BundleQueue) (aTarget : String) : Option BundlePtr :=
  (s.bundles.find? (isMergeCandidate U s aTarget)).map (fun e => e.2)

/-! ## BundleQueue: sequences of calls -/

/-- One call on a bundle queue. -/
inductive Op
  | addBundle (aBundle : BundlePtr)
  | removeBundle (aBundle : BundlePtr)
  | addSearchPrio (aBundle : BundlePtr)
  | removeSearchPrio (aBundle : BundlePtr)
  | findSearchBundle (env : SearchEnv) (aTick : Nat) (force : Bool)
  | moveBundle (aBundle : BundlePtr) (newTarget : String)

/-- The state after one call; `none` when the call does not complete. -/
def step (U : PathUtil) (s : BundleQueue) : Op → Option BundleQueue
  | .addBundle b => addBundle U s b
  | .removeBundle b => removeBundle U s b
  | .addSearchPrio b => addSearchPrio s b
  | .removeSearchPrio b => some (removeSearchPrio s b)
  | .findSearchBundle env aTick force => (findSearchBundle env s aTick force).map (fun r => r.2)
  | .moveBundle b newTarget => some (moveBundle U s b newTarget)

/-- The state after a sequence of calls, first call first. -/
def run (U : PathUtil) : List Op → BundleQueue → Option BundleQueue
  | [], s => some s
  | op :: ops, s =>
    match step U s op with
    | none => none
    | some s1 => run U ops s1

/-- Number of times `b` occurs in the recent queue and in the priority queues `0 .. n - 1`
together. With `n = LAST` these are all the search queues. -/
def occurrences (s : BundleQueue) (n : Nat) (b : BundlePtr) : Nat :=
  s.recentSearchQueue.count b + ((List.range n).map (fun p => (s.prioSearchQueue p).count b)).sum

/-! ## BundleQueue: small concrete inputs -/

/-- Two directory bundles: handle `0` with token `A` below `/a/b/`, not recent, and every other
handle with token `B` below `/c/`, recent; both of priority `NORMAL` and new. -/
def exampleHeap : BundlePtr → Bundle := fun p =>
  { token := if p = 0 then "A" else "B"
    target := if p = 0 then "/a/b/" else "/c/"
    fileBundle := false
    priority := NORMAL
    flagNew := true
    recent := if p = 0 then false else true
    downloadedBytes := 7
    bundleDirs := []
    queueItems := []
    finishedFiles := [] }

/-- Path helpers for the examples: every path is its own last segment, and two paths are related
only when they are equal. -/
def exampleUtil : PathUtil :=
  { getLastDir := fun p => p
    isSub := fun _ _ => false
    isParentOrExact := fun a b => a == b }

/-- An environment in which every bundle is searchable, no bundle is recent any more, and the
draw selects the band of priority `NORMAL`. -/
def exampleEnv : SearchEnv :=
  { allowAutoSearch := fun _ => true, checkRecent := fun _ => false, draw := 1 }

/-- A sequence of calls: add both bundles, pick twice, remove the first bundle. -/
def exampleOps : List Op :=
  [Op.addBundle 0, Op.addBundle 1, Op.findSearchBundle exampleEnv 0 true,
    Op.findSearchBundle exampleEnv 0 true, Op.removeBundle 0]

/-- The state after `exampleOps`, or the empty state should the sequence not complete. -/
def exampleFinal : BundleQueue :=
  (run exampleUtil exampleOps (BundleQueue.empty exampleHeap)).getD
    (BundleQueue.empty exampleHeap)

/-- The state after adding both bundles, or the empty state should the calls not complete. -/
def exampleAdded : BundleQueue :=
  (run exampleUtil [Op.addBundle 0, Op.addBundle 1] (BundleQueue.empty exampleHeap)).getD
    (BundleQueue.empty exampleHeap)

/-- The scheduler invariant: a bundle in the queue of priority `p` has priority `p`, at least
`LOW`, and is not recent; a bundle in the recent queue has a priority of at least `LOW` and is
recent; no queue holds a bundle twice. -/
structure SchedInv (s : BundleQueue) : Prop where
  prio_mem : ∀ p b, b ∈ s.prioSearchQueue p →
    (s.heap b).priority = p ∧ LOW ≤ p ∧ (s.heap b).recent = false
  recent_mem : ∀ b, b ∈ s.recentSearchQueue →
    LOW ≤ (s.heap b).priority ∧ (s.heap b).recent = true
  prio_nodup : ∀ p, (s.prioSearchQueue p).Nodup
  recent_nodup : s.recentSearchQueue.Nodup

end dcpp

namespace webserver

/-! ## ListViewController: reset -/

/-- The HTTP status codes the handlers return (`websocketpp::http::status_code`). -/
inductive StatusCode
  | ok
  | no_content
  | bad_request
  deriving DecidableEq, Repr

/-- Numeric value of a status code. -/
def StatusCode.code : StatusCode → Nat
  | .ok => 200
  | .no_content => 204
  | .bad_request => 400

/-- The method `clear`. -/
def clear (v : ListViewController) : ListViewController :=
  { v with
    tasks := ViewTasks.clear
    currentViewItems := []
    matchingItems := []
    allItems := []
    prevTotalItemCount := -1
    prevMatchingItemCount := -1
    filters := [] }

/-- The method `stop`: `setActive(false)`, `timer->stop(false)`, `clear()` and
`currentValues.reset()`, which leaves the changed flag alone. -/
def stop (v : ListViewController) : ListViewController :=
  let v1 := clear { v with active := false, timerRunning := false }
  { v1 with currentValues := { v1.currentValues with values := IntCollector.resetValues } }

/-- The handler `handleReset`: the returned status, the error string set on the request (if
any), and the new state. On an inactive view the error string is set; the statement
`websocketpp::http::status_code::bad_request;` that follows is an expression without effect, so
control continues with `stop()` and the final `return`. -/
def handleReset (v : ListViewController) : StatusCode × Option String × ListViewController :=
  let errorStr : Option String := if !v.active then some "The view isn't active" else none
  (StatusCode.no_content, errorStr, stop v)

end webserver

namespace dcpp

/-! ## BundleQueue: search times -/

/-- Largest value of an `int` (32 bits). -/
def INT_MAX : Int := 2147483647

/-- Result of an `int` operation whose exact value is `x`: signed overflow is undefined. -/
def int32 (x : Int) : Option Int :=
  if -INT_MAX - 1 ≤ x ∧ x ≤ INT_MAX then some x else none

/-- Number of values of a `uint64_t`, the type of the ticks and of the due timestamps
`nextSearch` and `nextRecentSearch` (they are compared with the `uint64_t aTick` and passed to
`min` together with `GET_TICK() + ...`). -/
def UINT64_SIZE : Nat := 18446744073709551616

/-- The sum `GET_TICK() + ms` of a `uint64_t` and an `int`: the `int` is converted to
`uint64_t` and the sum wraps. -/
def tickPlus (tick : Nat) (ms : Int) : Nat :=
  (((tick : Int) + ms) % (UINT64_SIZE : Int)).toNat

/-- Conversion of a `uint64_t` to the return type `int64_t` (two's complement). -/
def toInt64 (x : Nat) : Int :=
  if x % UINT64_SIZE < UINT64_SIZE / 2 then ((x % UINT64_SIZE : Nat) : Int)
  else ((x % UINT64_SIZE : Nat) : Int) - (UINT64_SIZE : Int)

/-- The value of `minInterval` in `recalculateSearchTimes`, in minutes; `searchTime` is
`SETTING(SEARCH_TIME)`. The counts are taken to fit an `int`. -/
def minInterval (env : SearchEnv) (searchTime : Int) (s : BundleQueue) : Int :=
  let prioBundles : Int := ((getPrioSum env s).2 : Int)
  if prioBundles > 0 then max (60 / prioBundles) searchTime else searchTime

/-- The `int` expression `minInterval * 60 * 1000`; `none` when one of the two products
overflows. -/
def searchIntervalMs (env : SearchEnv) (searchTime : Int) (s : BundleQueue) : Option Int :=
  match int32 (minInterval env searchTime s * 60) with
  | none => none
  | some a => int32 (a * 1000)

/-- The method `BundleQueue::getRecentIntervalMs`. -/
def getRecentIntervalMs (env : SearchEnv) (s : BundleQueue) : Int :=
  let recentBundles := s.recentSearchQueue.countP env.allowAutoSearch
  if recentBundles = 1 then 15 * 60 * 1000
  else if recentBundles = 2 then 8 * 60 * 1000
  else 5 * 60 * 1000

/-- The method `BundleQueue::recalculateSearchTimes`: the returned `int64_t` and the new state.
`searchTime` is `SETTING(SEARCH_TIME)` and `tick` is `GET_TICK()`. The result is `none` when
the `int` product `minInterval * 60 * 1000` overflows. -/
def recalculateSearchTimes (env : SearchEnv) (searchTime : Int) (tick : Nat) (s : BundleQueue)
    (aRecent isPrioChange : Bool) : Option (Int × BundleQueue) :=
  if !aRecent then
    match searchIntervalMs env searchTime s with
    | none => none
    | some ms =>
      let due := tickPlus tick ms
      let next := if s.nextSearch > 0 ∧ isPrioChange = true then min s.nextSearch due else due
      some (toInt64 next, { s with nextSearch := next })
  else
    let due := tickPlus tick (getRecentIntervalMs env s)
    let next :=
      if s.nextRecentSearch > 0 ∧ isPrioChange = true then min s.nextRecentSearch due else due
    some (toInt64 next, { s with nextRecentSearch := next })

/-- The due timestamp that `recalculateSearchTimes(aRecent, ...)` is about. -/
def dueOf (s : BundleQueue) (aRecent : Bool) : Nat :=
  if aRecent then s.nextRecentSearch else s.nextSearch

/-- The state after the single bundle `0` of `exampleHeap` (priority `NORMAL`, not recent) was
added to the empty queue, or the empty state should the call not complete. -/
def exampleOne : BundleQueue :=
  (run exampleUtil [Op.addBundle 0] (BundleQueue.empty exampleHeap)).getD
    (BundleQueue.empty exampleHeap)

end dcpp

namespace dcpp

/-! ## BundleQueue: counting the iterations of findRecent -/

/-- How a run of the loop of `findRecent` ends: it returns (with the result, the state and the
number of iterations, that is, of pops of the queue front), it stops in an iteration because an
operation has no defined result there, or it is still running when the budget of iterations is
used up. -/
inductive RecentOutcome
  | returned (b : Option BundlePtr) (s : BundleQueue) (iterations : Nat)
  | aborted (iterations : Nat)
  | unfinished

/-- The result of a run, as `findRecentLoop` reports it. -/
def RecentOutcome.result : RecentOutcome → Option (Option BundlePtr × BundleQueue)
  | .returned b s _ => some (b, s)
  | .aborted _ => none
  | .unfinished => none

/-- The number of iterations of a run that ended. -/
def RecentOutcome.iterations : RecentOutcome → Option Nat
  | .returned _ _ k => some k
  | .aborted k => some k
  | .unfinished => none

/-- The run ended, after at most `bound` iterations. -/
def RecentOutcome.within (o : RecentOutcome) (bound : Nat) : Prop :=
  match o.iterations with
  | some k => k ≤ bound
  | none => False

/-- The loop of `findRecent` as in `findRecentLoop`, counting its iterations: `done` iterations
were made before. -/
def findRecentIter (env : SearchEnv) : Nat → Nat → Nat → BundleQueue → RecentOutcome
  | 0, _, _, _ => .unfinished
  | fuel + 1, count, done, s =>
    match s.recentSearchQueue with
    | [] => .aborted done
    | b :: rest =>
      let s1 := checkRecent env { s with recentSearchQueue := rest } b
      let next : Option BundleQueue :=
        if env.checkRecent b then some { s1 with recentSearchQueue := rest ++ [b] }
        else addSearchPrio s1 b
      match next with
      | none => .aborted (done + 1)
      | some s2 =>
        if env.allowAutoSearch b then .returned (some b) s2 (done + 1)
        else if count ≥ s2.recentSearchQueue.length then .returned none s2 (done + 1)
        else findRecentIter env fuel (count + 1) (done + 1) s2

/-- The method `BundleQueue::findRecent` as in `findRecent`, counting the iterations of its
loop. -/
def findRecentOutcome (env : SearchEnv) (s : BundleQueue) : RecentOutcome :=
  if s.recentSearchQueue.length = 0 then .returned none s 0
  else findRecentIter env (s.recentSearchQueue.length + 1) 0 0 s

/-- An environment in which no bundle is searchable and every bundle stays recent. -/
def exampleEnvIdle : SearchEnv :=
  { allowAutoSearch := fun _ => false, checkRecent := fun _ => true, draw := 0 }

/-- The state after the recent bundle `1` of `exampleHeap` was added to the empty queue, or the
empty state should the call not complete. -/
def exampleRecentOne : BundleQueue :=
  (run exampleUtil [Op.addBundle 1] (BundleQueue.empty exampleHeap)).getD
    (BundleQueue.empty exampleHeap)

end dcpp

namespace dcpp

/-! ## Paths, as the interface description words them -/

/-- The pieces of a path between its separators `sep`, empty pieces included. -/
def splitOnChar (sep : Char) : List Char → List (List Char)
  | [] => [[]]
  | c :: cs =>
    if c = sep then [] :: splitOnChar sep cs
    else
      match splitOnChar sep cs with
      | [] => [[c]]
      | piece :: pieces => (c :: piece) :: pieces

/-- The pieces of a path between its separators `/`, empty pieces included. -/
def splitPath (p : List Char) : List (List Char) :=
  splitOnChar '/' p

/-- The segments of a path: its non-empty pieces. -/
def pathSegments (p : String) : List (List Char) :=
  (splitPath p.toList).filter (fun piece => !piece.isEmpty)

/-- Modelled from the spec: `AirUtil::isSub(a, b)`, "a is strictly inside b": the segments of
`b` are the first segments of `a`, and `a` has more. -/
def isSubSpec (a b : String) : Bool :=
  (pathSegments b).isPrefixOf (pathSegments a) &&
    decide ((pathSegments b).length < (pathSegments a).length)

/-- Modelled from the spec: `AirUtil::isParentOrExact(a, b)`, "a is b or b is strictly inside
a": the segments of `a` are the first segments of `b`. -/
def isParentOrExactSpec (a b : String) : Bool :=
  (pathSegments a).isPrefixOf (pathSegments b)

/-- Modelled from the spec: `Util::getLastDir(p)`, the last segment of `p`. -/
def getLastDirSpec (p : String) : String :=
  String.mk ((pathSegments p).getLastD [])

/-- The path helpers as the interface description words them. -/
def specPathUtil : PathUtil :=
  { getLastDir := getLastDirSpec, isSub := isSubSpec, isParentOrExact := isParentOrExactSpec }

/-- Two directory bundles for scenario S1: handle `0` with token `A` and target `/a/b`, every
other handle with token `B` and target `/a/b/c/d`; both of priority `NORMAL`, not recent. -/
def exampleHeapS1 : BundlePtr → Bundle := fun p =>
  { token := if p = 0 then "A" else "B"
    target := if p = 0 then "/a/b" else "/a/b/c/d"
    fileBundle := false
    priority := NORMAL
    flagNew := true
    recent := false
    downloadedBytes := 0
    bundleDirs := []
    queueItems := []
    finishedFiles := [] }

/-- Scenario S1 with the bundle below `/a/b/c/d` added first, or the empty state should the
calls not complete. -/
def exampleS1Reversed : BundleQueue :=
  (run specPathUtil [Op.addBundle 1, Op.addBundle 0] (BundleQueue.empty exampleHeapS1)).getD
    (BundleQueue.empty exampleHeapS1)

/-- Scenario S1 with the bundle below `/a/b` added first. -/
def exampleS1 : BundleQueue :=
  (run specPathUtil [Op.addBundle 0, Op.addBundle 1] (BundleQueue.empty exampleHeapS1)).getD
    (BundleQueue.empty exampleHeapS1)

end dcpp

namespace dcpp

/-! ## BundleQueue: getInfo -/

/-- What `getInfo` reads besides the registry: `isFinished b` is the value of
`b->isFinished()` and `itemTarget qi` is the value of `qi->getTarget()` of a queue item. -/
structure InfoEnv where
  isFinished : BundlePtr → Bool
  itemTarget : QueueItemPtr → String

/-- The first loop of `BundleQueue::getInfo` over the rest of the token map: the bundle list,
the count of file bundles, the last value of `tmpBundle` and the flag `subFolder`. -/
def getInfoLoop (U : PathUtil) (I : InfoEnv) (s : BundleQueue) (aSource : String) :
    List (String × BundlePtr) → List BundlePtr → Int → Option BundlePtr →
    List BundlePtr × Int × Option BundlePtr × Bool
  | [], retBundles, fileBundles, tmpBundle => (retBundles, fileBundles, tmpBundle, false)
  | (_, b) :: rest, retBundles, fileBundles, _ =>
    if I.isFinished b then getInfoLoop U I s aSource rest retBundles fileBundles (some b)
    else if U.isParentOrExact aSource (s.heap b).target then
      getInfoLoop U I s aSource rest (retBundles ++ [b])
        (if (s.heap b).fileBundle then fileBundles + 1 else fileBundles) (some b)
    else if !(s.heap b).fileBundle && U.isSub aSource (s.heap b).target then
      (retBundles ++ [b], fileBundles, some b, true)
    else getInfoLoop U I s aSource rest retBundles fileBundles (some b)

/-- The method `BundleQueue::getInfo`: the values of `retBundles`, `finishedFiles` and
`fileBundles` after the call, from their values before it. -/
def getInfo (U : PathUtil) (I : InfoEnv) (s : BundleQueue) (aSource : String)
    (retBundles : List BundlePtr) (finishedFiles fileBundles : Int) :
    List BundlePtr × Int × Int :=
  let r := getInfoLoop U I s aSource s.bundles retBundles fileBundles none
  let finished : Int :=
    if r.2.2.2 then
      match r.2.2.1 with
      | some tmpBundle =>
        finishedFiles +
          ((s.heap tmpBundle).finishedFiles.countP
            (fun qi => U.isSub (I.itemTarget qi) aSource) : Nat)
      | none => finishedFiles
    else finishedFiles + ((r.1.map (fun b => (s.heap b).finishedFiles.length)).sum : Nat)
  (r.1, finished, r.2.1)

/-- A bundle that `getInfo` takes as a parent-or-exact match: not finished, and its target is
the source or lies inside it. -/
def isParentMatch (U : PathUtil) (I : InfoEnv) (s : BundleQueue) (aSource : String)
    (e : String × BundlePtr) : Bool :=
  !I.isFinished e.2 && U.isParentOrExact aSource (s.heap e.2).target

/-- A bundle at which `getInfo` stops: a directory bundle, not finished, whose target strictly
contains the source (and is no parent-or-exact match). -/
def isSubFolderMatch (U : PathUtil) (I : InfoEnv) (s : BundleQueue) (aSource : String)
    (e : String × BundlePtr) : Bool :=
  !I.isFinished e.2 && !U.isParentOrExact aSource (s.heap e.2).target &&
    !(s.heap e.2).fileBundle && U.isSub aSource (s.heap e.2).target

/-- The parent-or-exact matches that the iteration meets before the first bundle at which
`getInfo` stops (all of them when there is none). -/
def parentMatchesBeforeStop (U : PathUtil) (I : InfoEnv) (s : BundleQueue) (aSource : String)
    (l : List (String × BundlePtr)) : List (String × BundlePtr) :=
  (l.takeWhile (fun e => !isSubFolderMatch U I s aSource e)).filter (isParentMatch U I s aSource)

/-- No bundle counts as finished; the targets of queue items are not used. -/
def exampleInfoEnv : InfoEnv :=
  { isFinished := fun _ => false, itemTarget := fun _ => "" }

/-- Two directory bundles: handle `0` with token `A` and target `/a/b/c`, every other handle
with token `B` and target `/a`. -/
def exampleHeapInfo : BundlePtr → Bundle := fun p =>
  { token := if p = 0 then "A" else "B"
    target := if p = 0 then "/a/b/c" else "/a"
    fileBundle := false
    priority := NORMAL
    flagNew := true
    recent := false
    downloadedBytes := 0
    bundleDirs := []
    queueItems := []
    finishedFiles := [] }

/-- Both bundles of `exampleHeapInfo` registered, `/a/b/c` first. -/
def exampleInfo : BundleQueue :=
  (run specPathUtil [Op.addBundle 0, Op.addBundle 1] (BundleQueue.empty exampleHeapInfo)).getD
    (BundleQueue.empty exampleHeapInfo)

/-- Both bundles of `exampleHeapInfo` registered, `/a` first. -/
def exampleInfoReversed : BundleQueue :=
  (run specPathUtil [Op.addBundle 1, Op.addBundle 0] (BundleQueue.empty exampleHeapInfo)).getD
    (BundleQueue.empty exampleHeapInfo)

end dcpp

namespace dcpp

/-! ## BundleQueue: findRemoteDir -/

/-- What `findRemoteDir` uses from outside the files at hand: the macro `PATH_SEPARATOR`, the
test `boost::regex_match(x, AirUtil::subDirRegPlain)` and the comparison `stricmp`. -/
structure RemoteDirUtil where
  PATH_SEPARATOR : Char
  subDirRegPlain : String → Bool
  stricmp : String → String → Int

/-- The value `string::npos`. -/
def NPOS : Nat := 18446744073709551615

/-- Difference `a - b` of two `size_t`, which wraps. -/
def subSize (a b : Nat) : Nat :=
  (a % UINT64_SIZE + UINT64_SIZE - b % UINT64_SIZE) % UINT64_SIZE

/-- The cast `(int)x` of a `size_t`: the low 32 bits in two's complement. -/
def sizeToInt (x : Nat) : Int :=
  if x % 4294967296 < 2147483648 then ((x % 4294967296 : Nat) : Int)
  else ((x % 4294967296 : Nat) : Int) - 4294967296

/-- The call `s.rfind(c)`: the last position that holds `c`, `none` for `npos`. -/
def rfindChar (c : Char) : List Char → Option Nat
  | [] => none
  | x :: xs =>
    match rfindChar c xs with
    | some i => some (i + 1)
    | none => if x = c then some 0 else none

/-- The call `s.find_last_of(c, i)` for a single character: the last position at or before `i`
that holds `c`. -/
def findLastOf (c : Char) (l : List Char) (i : Nat) : Option Nat :=
  rfindChar c (l.take (i + 1))

/-- The call `s.substr(pos, n)`; `none` is the exception `std::out_of_range`. -/
def substr (l : List Char) (pos n : Nat) : Option (List Char) :=
  if pos > l.length then none else some ((l.drop pos).take n)

/-- The first statements of `findRemoteDir` after the length test: the last directory of
`aDir` (one trailing separator erased, then the part after the last separator) and the position
`pos` of that separator, `none` for `npos`. -/
def remoteLastDir (R : RemoteDirUtil) (aDir : List Char) : List Char × Option Nat :=
  let remoteDir :=
    if aDir[aDir.length - 1]? = some R.PATH_SEPARATOR then aDir.take (aDir.length - 1) else aDir
  match rfindChar R.PATH_SEPARATOR remoteDir with
  | some pos => (remoteDir.drop (pos + 1), some pos)
  | none => (remoteDir, none)

/-- The inner loop `for(;;)` of `findRemoteDir` for one candidate `curDir`, entered with the
given `i`: whether `found` is set. The first argument bounds the number of iterations. The
result is `none` when `substr` throws or when the bound is used up. -/
def remoteDirWalk (R : RemoteDirUtil) (remoteDir curDir : List Char) : Nat → Nat → Option Bool
  | 0, _ => none
  | fuel + 1, i =>
    match findLastOf '\\' remoteDir i with
    | none => some false
    | some j =>
      let offset := subSize curDir.length (subSize remoteDir.length j)
      if sizeToInt offset < 0 then some false
      else
        match substr remoteDir (j + 1) (subSize i j),
          substr curDir ((offset + 1) % UINT64_SIZE) (subSize i j) with
        | some a, some b =>
          if R.stricmp (String.mk a) (String.mk b) = 0 then
            if !R.subDirRegPlain (String.mk a) then some true
            else remoteDirWalk R remoteDir curDir fuel (subSize j 1)
          else some false
        | _, _ => none

/-- The loop of `findRemoteDir` over the candidates when the last directory looks like a
sub-directory. The walk visits at most `length + 2` different values of `i`, so a walk that
needs more iterations never ends. -/
def findRemoteSubDir (R : RemoteDirUtil) (aDir : List Char) (pos : Nat) :
    List (String × (String × BundlePtr)) → Option (Option (String × BundlePtr))
  | [] => some none
  | e :: rest =>
    let remoteDir := R.PATH_SEPARATOR :: aDir
    match remoteDirWalk R remoteDir e.2.1.toList (remoteDir.length + 3) pos with
    | none => none
    | some true => some (some e.2)
    | some false => findRemoteSubDir R aDir pos rest

/-- The method `BundleQueue::findRemoteDir`. The inner `none` is the pair of the empty string
and `nullptr`; the outer `none` is a call that throws or does not end. Strings are sequences of
characters, so lengths and positions are those of the code for ASCII text. -/
def findRemoteDir (R : RemoteDirUtil) (s : BundleQueue) (aDir : String) :
    Option (Option (String × BundlePtr)) :=
  if aDir.length < 3 then some none
  else
    let last := remoteLastDir R aDir.toList
    let directories := s.bundleDirs.filter (fun e => e.1 == String.mk last.1)
    match directories with
    | [] => some none
    | first :: _ =>
      match last.2 with
      | some pos =>
        if R.subDirRegPlain (String.mk last.1) then findRemoteSubDir R aDir.toList pos directories
        else some (some first.2)
      | none => some (some first.2)

/-- The path without one trailing separator. -/
def stripTrailingSeparator (sep : Char) (p : List Char) : List Char :=
  if p.getLast? = some sep then p.dropLast else p

/-- The last segment of a path: one trailing separator stripped, then the last of the pieces
between separators. -/
def lastSegment (sep : Char) (p : List Char) : List Char :=
  ((splitOnChar sep (stripTrailingSeparator sep p)).getLast?).getD []

/-- Helpers for the examples: separator `/`, and the names `CD1`, `CD2` count as
sub-directories. -/
def exampleRemoteUtil : RemoteDirUtil :=
  { PATH_SEPARATOR := '/'
    subDirRegPlain := fun x => x == "CD1" || x == "CD2"
    stricmp := fun a b => if a = b then 0 else 1 }

end dcpp

namespace dcpp

/-! ## BundleQueue: items and the path index -/

/-- What the item operations use from `Bundle` and `QueueItem`, which are defined outside the
files at hand: the methods `Bundle::addQueue`, `Bundle::removeQueue`, `Bundle::addFinishedItem`
(called with `false` as its second argument) and `Bundle::removeFinishedItem`, each giving the
value it returns and the bundle afterwards, and the accessors `getFilePath` and `getBundle` of
an item. -/
structure BundleItems where
  addQueue : Bundle → QueueItemPtr → Bool × Bundle
  removeQueue : Bundle → QueueItemPtr → Bool → Bool × Bundle
  addFinishedItem : Bundle → QueueItemPtr → Bool × Bundle
  removeFinishedItem : Bundle → QueueItemPtr → Bool × Bundle
  getFilePath : QueueItemPtr → String
  getBundle : QueueItemPtr → BundlePtr

/-- The method `BundleQueue::addBundleItem`. -/
def addBundleItem (U : PathUtil) (B : BundleItems) (s : BundleQueue) (qi : QueueItemPtr)
    (aBundle : BundlePtr) : BundleQueue :=
  let r := B.addQueue (s.heap aBundle) qi
  let s1 : BundleQueue := { s with heap := Function.update s.heap aBundle r.2 }
  if r.1 && !(s1.heap aBundle).fileBundle then addDirectory U s1 (B.getFilePath qi) aBundle
  else s1

/-- The method `BundleQueue::removeBundleItem`. -/
def removeBundleItem (U : PathUtil) (B : BundleItems) (s : BundleQueue) (qi : QueueItemPtr)
    (finished : Bool) : BundleQueue :=
  let r := B.removeQueue (s.heap (B.getBundle qi)) qi finished
  let s1 : BundleQueue := { s with heap := Function.update s.heap (B.getBundle qi) r.2 }
  if r.1 && !finished && !(s1.heap (B.getBundle qi)).fileBundle then
    removeDirectory U s1 (B.getFilePath qi)
  else s1

/-- The method `BundleQueue::addFinishedItem`. -/
def addFinishedItem (U : PathUtil) (B : BundleItems) (s : BundleQueue) (qi : QueueItemPtr)
    (aBundle : BundlePtr) : BundleQueue :=
  let r := B.addFinishedItem (s.heap aBundle) qi
  let s1 : BundleQueue := { s with heap := Function.update s.heap aBundle r.2 }
  if r.1 && !(s1.heap aBundle).fileBundle then addDirectory U s1 (B.getFilePath qi) aBundle
  else s1

/-- The method `BundleQueue::removeFinishedItem`. -/
def removeFinishedItem (U : PathUtil) (B : BundleItems) (s : BundleQueue) (qi : QueueItemPtr) :
    BundleQueue :=
  let r := B.removeFinishedItem (s.heap (B.getBundle qi)) qi
  let s1 : BundleQueue := { s with heap := Function.update s.heap (B.getBundle qi) r.2 }
  if r.1 && !(s1.heap (B.getBundle qi)).fileBundle then removeDirectory U s1 (B.getFilePath qi)
  else s1

/-- The pairs (full path, bundle) that the path index holds, in its order. -/
def indexEntries (s : BundleQueue) : List (String × BundlePtr) :=
  s.bundleDirs.map (fun e => e.2)

/-- The pairs that the consistency rule of the interface description asks for: over the
registered bundles, the root target of the bundle, and for a directory bundle the containing
directory of each queued or finished item. `fileRoots` says whether the root of a file bundle
is counted. -/
def expectedEntries (filePath : QueueItemPtr → String) (fileRoots : Bool) (s : BundleQueue) :
    List (String × BundlePtr) :=
  s.bundles.flatMap (fun e =>
    (if fileRoots || !(s.heap e.2).fileBundle then [((s.heap e.2).target, e.2)] else []) ++
      (if (s.heap e.2).fileBundle then []
        else ((s.heap e.2).queueItems ++ (s.heap e.2).finishedFiles).map
          (fun qi => (filePath qi, e.2))))

/-- The index entry for the root of a registered bundle. -/
def rootEntry (U : PathUtil) (heap : BundlePtr → Bundle) (e : String × BundlePtr) :
    String × (String × BundlePtr) :=
  (U.getLastDir (heap e.2).target, ((heap e.2).target, e.2))

/-- One root entry for each registered bundle, in the order of the token map. -/
def rootEntries (U : PathUtil) (s : BundleQueue) : BundleDirMap :=
  s.bundles.map (rootEntry U s.heap)

/-- No registered bundle has the token of `b`. -/
def tokenUnused (s : BundleQueue) (b : BundlePtr) : Bool :=
  s.bundles.all (fun e => e.1 != (s.heap b).token)

/-- The bundle `b` is registered under its token. -/
def isRegistered (s : BundleQueue) (b : BundlePtr) : Bool :=
  s.bundles.any (fun e => e.1 == (s.heap b).token && e.2 == b)

/-- No entry of the path index has the full path `p`. -/
def pathUnused (s : BundleQueue) (p : String) : Bool :=
  s.bundleDirs.all (fun e => e.2.1 != p)

/-- The calls for which the path index is kept consistent: `addBundle` of a directory bundle
whose token and target are not in use, `moveBundle` of a registered bundle to a path that is not
in use, and `removeBundle` of a registered bundle without items whose own directory list
(`getBundleDirs()`) holds exactly its target. -/
def admissible (s : BundleQueue) : Op → Bool
  | .addBundle b =>
    !(s.heap b).fileBundle && tokenUnused s b && pathUnused s (s.heap b).target
  | .moveBundle b newTarget => isRegistered s b && pathUnused s newTarget
  | .removeBundle b =>
    isRegistered s b && (s.heap b).bundleDirs == [(s.heap b).target] &&
      (s.heap b).queueItems == [] && (s.heap b).finishedFiles == []
  | _ => false

/-- Every call of the sequence is admissible in the state it is made in. -/
def disciplined (U : PathUtil) : List Op → BundleQueue → Bool
  | [], _ => true
  | op :: ops, s =>
    admissible s op &&
      match step U s op with
      | none => true
      | some s1 => disciplined U ops s1

/-- The invariant behind the consistency of the path index: the scheduler invariant; a queued
bundle is registered; the token map binds each token once, to a directory bundle with that
token; the path index holds exactly the root entries of the registered bundles, and no full
path twice. -/
structure IndexInv (U : PathUtil) (s : BundleQueue) : Prop where
  sched : SchedInv s
  queued : ∀ b, (b ∈ s.recentSearchQueue ∨ ∃ p, b ∈ s.prioSearchQueue p) →
    ((s.heap b).token, b) ∈ s.bundles
  keys : ∀ e ∈ s.bundles, (s.heap e.2).token = e.1 ∧ (s.heap e.2).fileBundle = false
  keys_nodup : (s.bundles.map Prod.fst).Nodup
  mem_iff : ∀ e, e ∈ s.bundleDirs ↔ e ∈ rootEntries U s
  paths_nodup : (s.bundleDirs.map (fun e => e.2.1)).Nodup

/-- Bundles for the examples of the path index: handles `0` and `1` are directory bundles with
tokens `A` and `B` and the same target `/x/`, handle `2` is a file bundle `/f.bin` with token
`F`, and every other handle is a directory bundle `/y/` with token `C` that lists its target as
its only directory. None has items. -/
def exampleHeapIndex : BundlePtr → Bundle := fun p =>
  { token := if p = 0 then "A" else if p = 1 then "B" else if p = 2 then "F" else "C"
    target := if p = 0 then "/x/" else if p = 1 then "/x/" else if p = 2 then "/f.bin" else "/y/"
    fileBundle := if p = 2 then true else false
    priority := NORMAL
    flagNew := true
    recent := false
    downloadedBytes := 0
    bundleDirs := if p = 0 then [] else if p = 1 then [] else if p = 2 then [] else ["/y/"]
    queueItems := []
    finishedFiles := [] }

/-- A sequence of admissible calls on the example bundles: add `0` and `3`, move `0` to `/z/`,
remove `3`. -/
def exampleIndexOps : List Op :=
  [Op.addBundle 0, Op.addBundle 3, Op.moveBundle 0 "/z/", Op.removeBundle 3]

end dcpp

namespace dcpp

/-- Item methods for the examples: every call reports a change and leaves the bundle as it
is; every item lies in `/x/sub/` and belongs to bundle `0`. -/
def exampleItems : BundleItems :=
  { addQueue := fun b _ => (true, b)
    removeQueue := fun b _ _ => (true, b)
    addFinishedItem := fun b _ => (true, b)
    removeFinishedItem := fun b _ => (true, b)
    getFilePath := fun _ => "/x/sub/"
    getBundle := fun _ => 0 }

end dcpp

namespace dcpp

/-! ## BundleQueue: the loop of getPrioSum and the bands -/

/-- The loop `do ... while (p < Bundle::LAST)` of `BundleQueue::getPrioSum`, entered with the
given `p`, `probabilities` and `prioBundles`. The first argument bounds the number of
iterations; the result is `none` when the bound is used up. -/
def getPrioSumLoop (env : SearchEnv) (s : BundleQueue) :
    Nat → Nat → List Nat → Nat → Option (List Nat × Nat)
  | 0, _, _, _ => none
  | fuel + 1, p, probabilities, prioBundles =>
    let dequeBundles := (s.prioSearchQueue p).countP env.allowAutoSearch
    let probabilities1 := probabilities ++ [(p - 1) * dequeBundles]
    let prioBundles1 := prioBundles + dequeBundles
    if p + 1 < LAST then getPrioSumLoop env s fuel (p + 1) probabilities1 prioBundles1
    else some (probabilities1, prioBundles1)

/-- The method `BundleQueue::getPrioSum` with its loop: `probabilities` is cleared, `p` starts
at `Bundle::LOW`. The loop is given `LAST - LOW` iterations. -/
def getPrioSumDo (env : SearchEnv) (s : BundleQueue) : Option (List Nat × Nat) :=
  getPrioSumLoop env s (LAST - LOW) LOW [] 0

/-- Three directory bundles, not recent: handle `0` of priority `LOW`, handle `1` of priority
`HIGH`, every other handle of priority `HIGHEST`. -/
def exampleHeapBands : BundlePtr → Bundle := fun p =>
  { token := if p = 0 then "A" else if p = 1 then "B" else "C"
    target := if p = 0 then "/a/" else if p = 1 then "/b/" else "/c/"
    fileBundle := false
    priority := if p = 0 then LOW else if p = 1 then HIGH else HIGHEST
    flagNew := true
    recent := false
    downloadedBytes := 0
    bundleDirs := []
    queueItems := []
    finishedFiles := [] }

/-- Scenario S2: the three bundles of `exampleHeapBands` added to the empty queue, or the empty
state should the calls not complete. -/
def exampleBands : BundleQueue :=
  (run exampleUtil [Op.addBundle 0, Op.addBundle 1, Op.addBundle 2]
    (BundleQueue.empty exampleHeapBands)).getD (BundleQueue.empty exampleHeapBands)

/-- An environment in which every bundle is searchable and the draw is `d`. -/
def exampleEnvDraw (d : Nat) : SearchEnv :=
  { allowAutoSearch := fun _ => true, checkRecent := fun _ => false, draw := d }

end dcpp

namespace dcpp

/-! ## BundleQueue: the run of findRecent, step by step -/

/-- Why a run of the loop of `findRecent` stops without returning: the front of an empty queue
is taken, the `dcassert` of `addSearchPrio` fails, or the budget of iterations is used up. -/
inductive RecentStop
  | emptyFront
  | assertFailed
  | budget
  deriving DecidableEq, Repr

/-- The loop of `findRecent` as in `findRecentLoop`, telling apart the ways in which it stops
and listing the bundles it pops, in order. -/
def findRecentTrace (env : SearchEnv) :
    Nat → Nat → BundleQueue → Except RecentStop (Option BundlePtr × BundleQueue × List BundlePtr)
  | 0, _, _ => .error .budget
  | fuel + 1, count, s =>
    match s.recentSearchQueue with
    | [] => .error .emptyFront
    | b :: rest =>
      let s1 := checkRecent env { s with recentSearchQueue := rest } b
      let next : Option BundleQueue :=
        if env.checkRecent b then some { s1 with recentSearchQueue := rest ++ [b] }
        else addSearchPrio s1 b
      match next with
      | none => .error .assertFailed
      | some s2 =>
        if env.allowAutoSearch b then .ok (some b, s2, [b])
        else if count ≥ s2.recentSearchQueue.length then .ok (none, s2, [b])
        else
          match findRecentTrace env fuel (count + 1) s2 with
          | .error e => .error e
          | .ok r => .ok (r.1, r.2.1, b :: r.2.2)

/-- The method `BundleQueue::findRecent` as in `findRecent`, with the run of its loop. -/
def findRecentRun (env : SearchEnv) (s : BundleQueue) :
    Except RecentStop (Option BundlePtr × BundleQueue × List BundlePtr) :=
  if s.recentSearchQueue.length = 0 then .ok (none, s, [])
  else findRecentTrace env (s.recentSearchQueue.length + 1) 0 s

/-- The result of a run as `findRecent` reports it: `none` when the run stopped. -/
def recentResult :
    Except RecentStop (Option BundlePtr × BundleQueue × List BundlePtr) →
    Option (Option BundlePtr × BundleQueue)
  | .error _ => none
  | .ok r => some (r.1, r.2.1)

/-- Three recent directory bundles of priority `NORMAL` with the handles `0` (A), `1` (B) and
any other (C). -/
def exampleHeapS4 : BundlePtr → Bundle := fun p =>
  { token := if p = 0 then "A" else if p = 1 then "B" else "C"
    target := if p = 0 then "/a/" else if p = 1 then "/b/" else "/c/"
    fileBundle := false
    priority := NORMAL
    flagNew := true
    recent := true
    downloadedBytes := 0
    bundleDirs := []
    queueItems := []
    finishedFiles := [] }

/-- Scenario S4: the recent queue is `[0, 1, 2]`, or the empty state should the calls not
complete. -/
def exampleS4 : BundleQueue :=
  (run exampleUtil [Op.addBundle 0, Op.addBundle 1, Op.addBundle 2]
    (BundleQueue.empty exampleHeapS4)).getD (BundleQueue.empty exampleHeapS4)

/-- Scenario S4 as worded: every bundle is searchable, and bundle `1` is no longer recent. -/
def exampleEnvS4 : SearchEnv :=
  { allowAutoSearch := fun _ => true, checkRecent := fun b => b != 1, draw := 0 }

/-- Scenario S4 with bundle `0` not searchable. -/
def exampleEnvS4Skip : SearchEnv :=
  { allowAutoSearch := fun b => b != 0, checkRecent := fun b => b != 1, draw := 0 }

end dcpp

namespace dcpp

/-! ## BundleQueue: scenario S6 -/

/-- Helpers for scenario S6 with the separator `sep`: the names `CD1` and `CD2` count as
sub-directories, and names are compared without regard to case. -/
def caseRemoteUtil (sep : Char) : RemoteDirUtil :=
  { PATH_SEPARATOR := sep
    subDirRegPlain := fun x => x == "CD1" || x == "CD2"
    stricmp := fun a b =>
      if a.toList.map Char.toLower = b.toList.map Char.toLower then 0 else 1 }

/-- A registry whose path index holds the one entry `(path, 0)` under the key `key`. -/
def exampleRemoteIndex (key path : String) : BundleQueue :=
  { BundleQueue.empty exampleHeap with bundleDirs := [(key, (path, 0))] }

end dcpp

namespace webserver

/-! ## ListViewController: a view with three items -/

/-- A view whose two collections hold the items `1`, `2`, `3`. -/
def exampleViewItems : ListViewController :=
  { ListViewController.init with matchingItems := [1, 2, 3], allItems := [1, 2, 3] }

end webserver

namespace webserver

/-- A view whose two collections hold the items `1`, `3`, `5`. -/
def exampleViewGap : ListViewController :=
  { ListViewController.init with matchingItems := [1, 3, 5], allItems := [1, 3, 5] }

end webserver

namespace webserver

/-! ## ListViewController: scenarios with hidden items and with unset sort settings -/

/-- The state before the third tick of this scenario: a filter that passes only item `1` is
posted, the view is activated on the items `1` and `2`, and a tick runs; item `3`, which fails
the filter, is added, and a tick runs; then item `3` is removed. -/
def exampleHiddenRemove : Option ListViewController :=
  (((exampleActivated 1 0 10 [1, 2]).bind (runTasks exampleHandler)).map
    (fun v => onItemAdded v 3)).bind (runTasks exampleHandler) |>.map
      (fun v => onItemRemoved v 3)

/-- The state before the second tick of this scenario: a filter that passes the items up to `5`
is posted, the view is activated on the items `1` and `2`, and a tick runs; the filter is then
changed to pass only item `1`, and item `2` is removed. -/
def exampleFilterNarrowed : Option ListViewController :=
  ((exampleActivated 5 0 10 [1, 2]).bind (runTasks exampleHandler)).map
    (fun v => onItemRemoved (setFilterProperties v 7 false (fun i => decide (i ≤ 1))) 2)

/-- A settings body with a window and without sort settings. -/
def exampleSettingsNoSort : SettingsBody :=
  { range_start := some 0, max_count := some 10, sort_property := none, sort_ascending := none,
    paused := none }

/-- The state before the first tick of this scenario: the view is activated on the items `1`
and `2` by settings without a sort property; then item `3` is added and item `1` is removed. -/
def exampleUnsorted : Option ListViewController :=
  match handlePostSettings exampleHandler ListViewController.init exampleSettingsNoSort [1, 2] with
  | .ok v => some (onItemRemoved (onItemAdded v 3) 1)
  | .error _ => none

/-- The scenario of `exampleUnsorted` continued: a tick runs, then settings that sort by `id`
are posted, and a second tick runs. -/
def exampleUnsortedLater : Option ListViewController :=
  (exampleUnsorted.bind (runTasks exampleHandler)).bind (fun v =>
    match handlePostSettings exampleHandler v (exampleSettings 0 10) [2, 3] with
    | .ok v1 => runTasks exampleHandler v1
    | .error _ => none)

end webserver

namespace dcpp

/-! ## BundleQueue: the calls with the assertions compiled out -/

/-- The condition that the `dcassert` of `addSearchPrio` checks before its `push_back`: the
bundle is not yet in the queue it is pushed to. A call that returns before the push (priority
below `LOW`) checks nothing. -/
def pushAsserted (s : BundleQueue) (aBundle : BundlePtr) : Bool :=
  let prio := (s.heap aBundle).priority
  if prio < LOW then true
  else if (s.heap aBundle).recent then decide (aBundle ∉ s.recentSearchQueue)
  else decide (aBundle ∉ s.prioSearchQueue prio)

/-- The method `BundleQueue::addSearchPrio` in a build in which `dcassert` is compiled out: the
bundle is pushed whether or not the queue holds it already. -/
def addSearchPrioRelease (s : BundleQueue) (aBundle : BundlePtr) : BundleQueue :=
  let prio := (s.heap aBundle).priority
  if prio < LOW then s
  else if (s.heap aBundle).recent then
    { s with recentSearchQueue := s.recentSearchQueue ++ [aBundle] }
  else
    { s with
      prioSearchQueue :=
        Function.update s.prioSearchQueue prio (s.prioSearchQueue prio ++ [aBundle]) }

/-- The method `BundleQueue::addBundle` in a build in which `dcassert` is compiled out. -/
def addBundleRelease (U : PathUtil) (s : BundleQueue) (aBundle : BundlePtr) : BundleQueue :=
  let s1 := addSearchPrioRelease (unsetNew s aBundle) aBundle
  let b := s1.heap aBundle
  let s2 := { s1 with bundles := mapAssign s1.bundles b.token aBundle }
  if !b.fileBundle then
    if (findLocalDir U s2 b.target).isNone then addDirectory U s2 b.target aBundle
    else s2
  else s2

/-- The method `BundleQueue::removeBundle` in a build in which `dcassert` is compiled out: the
item lists of the bundle are not looked at. -/
def removeBundleRelease (U : PathUtil) (s : BundleQueue) (aBundle : BundlePtr) : BundleQueue :=
  let b := s.heap aBundle
  if b.flagNew then s
  else
    let s1 := b.bundleDirs.foldl (removeDirectory U) s
    let s2 := removeSearchPrio s1 aBundle
    { s2 with bundles := mapErase s2.bundles b.token }

/-- The method `BundleQueue::findAutoSearch` in a build in which `dcassert` is compiled out: in
an empty band `find_if` finds nothing and the method returns no bundle. -/
def findAutoSearchRelease (env : SearchEnv) (s : BundleQueue) : Option BundlePtr × BundleQueue :=
  let prioBundles := (getPrioSum env s).2
  if prioBundles = 0 then (none, s)
  else
    let band := env.draw + 2
    let sbq := s.prioSearchQueue band
    match sbq.find? env.allowAutoSearch with
    | some b =>
      (some b,
        { s with
          prioSearchQueue :=
            Function.update s.prioSearchQueue band (sbq.eraseP env.allowAutoSearch ++ [b]) })
    | none => (none, s)

/-- The loop `for (;;)` of `BundleQueue::findRecent` in a build in which `dcassert` is compiled
out, entered with the given `count`. The first argument bounds the number of iterations. The
result is `none` when the front of an empty queue is taken or when the bound is used up. -/
def findRecentLoopRelease (env : SearchEnv) :
    Nat → Nat → BundleQueue → Option (Option BundlePtr × BundleQueue)
  | 0, _, _ => none
  | fuel + 1, count, s =>
    match s.recentSearchQueue with
    | [] => none
    | b :: rest =>
      let s1 := checkRecent env { s with recentSearchQueue := rest } b
      let s2 : BundleQueue :=
        if env.checkRecent b then { s1 with recentSearchQueue := rest ++ [b] }
        else addSearchPrioRelease s1 b
      if env.allowAutoSearch b then some (some b, s2)
      else if count ≥ s2.recentSearchQueue.length then some (none, s2)
      else findRecentLoopRelease env fuel (count + 1) s2

/-- The method `BundleQueue::findRecent` in a build in which `dcassert` is compiled out. The
loop is given one iteration more than the queue has bundles. -/
def findRecentRelease (env : SearchEnv) (s : BundleQueue) :
    Option (Option BundlePtr × BundleQueue) :=
  if s.recentSearchQueue.length = 0 then some (none, s)
  else findRecentLoopRelease env (s.recentSearchQueue.length + 1) 0 s

/-- The method `BundleQueue::findSearchBundle` in a build in which `dcassert` is compiled
out. -/
def findSearchBundleRelease (env : SearchEnv) (s : BundleQueue) (aTick : Nat) (force : Bool) :
    Option (Option BundlePtr × BundleQueue) :=
  let first : Option BundlePtr × BundleQueue :=
    if aTick ≥ s.nextSearch ∨ force = true then findAutoSearchRelease env s else (none, s)
  match first with
  | (some b, s1) => some (some b, s1)
  | (none, s1) =>
    if aTick ≥ s1.nextRecentSearch ∨ force = true then findRecentRelease env s1
    else some (none, s1)

/-- The state after one call in a build in which `dcassert` is compiled out; `none` when the
call does not complete. -/
def stepRelease (U : PathUtil) (s : BundleQueue) : Op → Option BundleQueue
  | .addBundle b => some (addBundleRelease U s b)
  | .removeBundle b => some (removeBundleRelease U s b)
  | .addSearchPrio b => some (addSearchPrioRelease s b)
  | .removeSearchPrio b => some (removeSearchPrio s b)
  | .findSearchBundle env aTick force =>
    (findSearchBundleRelease env s aTick force).map (fun r => r.2)
  | .moveBundle b newTarget => some (moveBundle U s b newTarget)

/-- The state after a sequence of calls in a build in which `dcassert` is compiled out, first
call first. -/
def runRelease (U : PathUtil) : List Op → BundleQueue → Option BundleQueue
  | [], s => some s
  | op :: ops, s =>
    match stepRelease U s op with
    | none => none
    | some s1 => runRelease U ops s1

/-- Whether the call `op`, made in state `s`, meets the condition that `addSearchPrio` asserts
for the bundle the call is made for. Calls other than `addBundle` and `addSearchPrio` push no
bundle of the caller. -/
def opAsserted (s : BundleQueue) : Op → Bool
  | .addBundle b => pushAsserted s b
  | .addSearchPrio b => pushAsserted s b
  | _ => true

/-- Whether every `addBundle` and `addSearchPrio` call of the sequence, made from state `s` on,
meets the condition that `addSearchPrio` asserts: no call is made for a bundle that is already
in the queue it is pushed to. -/
def assertsHold (U : PathUtil) : List Op → BundleQueue → Bool
  | [], _ => true
  | op :: ops, s =>
    opAsserted s op &&
      match stepRelease U s op with
      | none => true
      | some s1 => assertsHold U ops s1

/-- The state after the first example bundle is added twice in a build in which `dcassert` is
compiled out, or the empty state should the calls not complete. -/
def exampleTwice : BundleQueue :=
  (runRelease exampleUtil [Op.addBundle 0, Op.addBundle 0] (BundleQueue.empty exampleHeap)).getD
    (BundleQueue.empty exampleHeap)

end dcpp

namespace dcpp

/-- Every bundle in a priority search queue or in the recent search queue has a priority of at
least `LOW`. -/
def QueuedLow (s : BundleQueue) : Prop :=
  (∀ p b, b ∈ s.prioSearchQueue p → LOW ≤ (s.heap b).priority) ∧
    ∀ b, b ∈ s.recentSearchQueue → LOW ≤ (s.heap b).priority

end dcpp

/-! # Theorems -/

namespace dcpp

/-! ## Lists -/

theorem eraseP_eq_erase_of_find (p : BundlePtr → Bool) (l : List BundlePtr) (b : BundlePtr)
    (h : l.find? p = some b) : l.eraseP p = l.erase b := by
  induction l with
  | nil => simp at h
  | cons a t ih =>
    by_cases hp : p a
    · simp [List.find?_cons, hp] at h
      subst h
      simp [List.eraseP_cons, hp]
    · simp [List.find?_cons, hp] at h
      have hne : a ≠ b := by
        intro hab
        have hb := List.find?_some h
        rw [hab] at hp
        exact hp hb
      simp [List.eraseP_cons, hp, List.erase_cons, hne, ih h]

theorem rotate_perm (p : BundlePtr → Bool) (l : List BundlePtr) (b : BundlePtr)
    (h : l.find? p = some b) : (l.eraseP p ++ [b]).Perm l := by
  rw [eraseP_eq_erase_of_find p l b h]
  exact (List.perm_append_singleton b (l.erase b)).trans
    (List.perm_cons_erase (List.mem_of_find?_eq_some h)).symm

/-! ## The scheduler invariant is kept by every call -/

theorem SchedInv.empty (heap : BundlePtr → Bundle) : SchedInv (BundleQueue.empty heap) := by
  constructor <;> simp [BundleQueue.empty]

theorem SchedInv.congr {s t : BundleQueue} (h : SchedInv s)
    (hp : ∀ x, (t.heap x).priority = (s.heap x).priority)
    (hr : ∀ x, (t.heap x).recent = (s.heap x).recent)
    (hq : t.prioSearchQueue = s.prioSearchQueue)
    (hrq : t.recentSearchQueue = s.recentSearchQueue) : SchedInv t := by
  constructor
  · intro p b hb
    rw [hq] at hb
    rw [hp, hr]
    exact h.prio_mem p b hb
  · intro b hb
    rw [hrq] at hb
    rw [hp, hr]
    exact h.recent_mem b hb
  · intro p
    rw [hq]
    exact h.prio_nodup p
  · rw [hrq]
    exact h.recent_nodup

theorem addSearchPrio_heap {s t : BundleQueue} {b : BundlePtr} (h : addSearchPrio s b = some t) :
    t.heap = s.heap ∧ t.bundles = s.bundles ∧ t.bundleDirs = s.bundleDirs := by
  unfold addSearchPrio at h
  simp only at h
  split_ifs at h <;> simp at h <;> subst h <;> simp

theorem addSearchPrio_inv {s t : BundleQueue} {b : BundlePtr} (hs : SchedInv s)
    (h : addSearchPrio s b = some t) : SchedInv t := by
  unfold addSearchPrio at h
  simp only at h
  split_ifs at h with h1 h2 h3 h4
  · simp at h
    subst h
    exact hs
  · simp at h
    subst h
    constructor
    · exact hs.prio_mem
    · intro x hx
      simp only [List.mem_append, List.mem_singleton] at hx
      rcases hx with hx | hx
      · exact hs.recent_mem x hx
      · subst hx
        exact ⟨Nat.le_of_not_lt h1, h2⟩
    · exact hs.prio_nodup
    · simp only
      rw [List.nodup_append]
      refine ⟨hs.recent_nodup, List.nodup_singleton _, ?_⟩
      intro x hx hx2
      simp only [List.mem_singleton] at hx2
      subst hx2
      exact h3 hx
  · simp at h
    subst h
    constructor
    · intro p x hx
      simp only at hx
      by_cases hp : p = (s.heap b).priority
      · subst hp
        rw [Function.update_same] at hx
        simp only [List.mem_append, List.mem_singleton] at hx
        rcases hx with hx | hx
        · exact hs.prio_mem _ x hx
        · subst hx
          exact ⟨rfl, Nat.le_of_not_lt h1, by simpa using h2⟩
      · rw [Function.update_noteq hp] at hx
        exact hs.prio_mem p x hx
    · exact hs.recent_mem
    · intro p
      simp only
      by_cases hp : p = (s.heap b).priority
      · subst hp
        rw [Function.update_same, List.nodup_append]
        refine ⟨hs.prio_nodup _, List.nodup_singleton _, ?_⟩
        intro x hx hx2
        simp only [List.mem_singleton] at hx2
        subst hx2
        exact h4 hx
      · rw [Function.update_noteq hp]
        exact hs.prio_nodup p
    · exact hs.recent_nodup

theorem removeSearchPrio_inv {s : BundleQueue} (b : BundlePtr) (hs : SchedInv s) :
    SchedInv (removeSearchPrio s b) := by
  unfold removeSearchPrio
  simp only
  split_ifs with h1 h2
  · exact hs
  · constructor
    · exact hs.prio_mem
    · intro x hx
      exact hs.recent_mem x (List.mem_of_mem_erase hx)
    · exact hs.prio_nodup
    · exact hs.recent_nodup.erase b
  · constructor
    · intro p x hx
      simp only at hx
      by_cases hp : p = (s.heap b).priority
      · subst hp
        rw [Function.update_same] at hx
        exact hs.prio_mem _ x (List.mem_of_mem_erase hx)
      · rw [Function.update_noteq hp] at hx
        exact hs.prio_mem p x hx
    · exact hs.recent_mem
    · intro p
      simp only
      by_cases hp : p = (s.heap b).priority
      · subst hp
        rw [Function.update_same]
        exact (hs.prio_nodup _).erase b
      · rw [Function.update_noteq hp]
        exact hs.prio_nodup p
    · exact hs.recent_nodup

theorem findAutoSearch_spec {env : SearchEnv} {s t : BundleQueue} {r : Option BundlePtr}
    (hs : SchedInv s) (h : findAutoSearch env s = some (r, t)) :
    SchedInv t ∧ t.heap = s.heap ∧ t.recentSearchQueue = s.recentSearchQueue ∧
      ∀ b, r = some b → env.allowAutoSearch b = true ∧ b ∈ s.prioSearchQueue (env.draw + 2) := by
  unfold findAutoSearch at h
  simp only at h
  split_ifs at h with h1 h2
  · simp at h
    obtain ⟨rfl, rfl⟩ := h
    exact ⟨hs, rfl, rfl, by simp⟩
  · cases hf : (s.prioSearchQueue (env.draw + 2)).find? env.allowAutoSearch with
    | none =>
      rw [hf] at h
      simp at h
      obtain ⟨rfl, rfl⟩ := h
      exact ⟨hs, rfl, rfl, by simp⟩
    | some b =>
      rw [hf] at h
      simp at h
      obtain ⟨rfl, rfl⟩ := h
      have hperm := rotate_perm env.allowAutoSearch _ b hf
      refine ⟨?_, rfl, rfl, ?_⟩
      · constructor
        · intro p x hx
          simp only at hx
          by_cases hp : p = env.draw + 2
          · subst hp
            rw [Function.update_same] at hx
            exact hs.prio_mem _ x (hperm.mem_iff.mp hx)
          · rw [Function.update_noteq hp] at hx
            exact hs.prio_mem p x hx
        · exact hs.recent_mem
        · intro p
          simp only
          by_cases hp : p = env.draw + 2
          · subst hp
            rw [Function.update_same]
            exact hperm.nodup_iff.mpr (hs.prio_nodup _)
          · rw [Function.update_noteq hp]
            exact hs.prio_nodup p
        · exact hs.recent_nodup
      · intro x hx
        simp at hx
        subst hx
        exact ⟨List.find?_some hf, List.mem_of_find?_eq_some hf⟩

theorem findAutoSearch_eq_none {env : SearchEnv} {s : BundleQueue}
    (h : findAutoSearch env s = none) :
    (getPrioSum env s).2 ≠ 0 ∧ s.prioSearchQueue (env.draw + 2) = [] := by
  unfold findAutoSearch at h
  simp only at h
  split_ifs at h with h1 h2
  · exact ⟨h1, h2⟩
  · cases hf : (s.prioSearchQueue (env.draw + 2)).find? env.allowAutoSearch with
    | none => rw [hf] at h; simp at h
    | some b => rw [hf] at h; simp at h

/-- Facts about the state in which the front bundle of the recent queue has been popped and its
recent flag recomputed. -/
theorem SchedInv.pop (env : SearchEnv) {s : BundleQueue} {b : BundlePtr} {rest : List BundlePtr}
    (hs : SchedInv s) (hq : s.recentSearchQueue = b :: rest) :
    SchedInv (checkRecent env { s with recentSearchQueue := rest } b) ∧ b ∉ rest ∧
      (∀ p, b ∉ s.prioSearchQueue p) ∧ LOW ≤ (s.heap b).priority := by
  have hnd := hs.recent_nodup
  rw [hq] at hnd
  have hb : b ∈ s.recentSearchQueue := by rw [hq]; exact List.mem_cons_self _ _
  have hbr := hs.recent_mem b hb
  have hnotin : b ∉ rest := (List.nodup_cons.mp hnd).1
  have hprio : ∀ p, b ∉ s.prioSearchQueue p := by
    intro p hp
    have := (hs.prio_mem p b hp).2.2
    rw [hbr.2] at this
    exact Bool.noConfusion this
  refine ⟨?_, hnotin, hprio, hbr.1⟩
  constructor
  · intro p x hx
    have hxb : x ≠ b := fun e => hprio p (e ▸ hx)
    simp only [checkRecent, Function.update_noteq hxb]
    exact hs.prio_mem p x hx
  · intro x hx
    simp only [checkRecent] at hx
    have hxb : x ≠ b := fun e => hnotin (e ▸ hx)
    simp only [checkRecent, Function.update_noteq hxb]
    exact hs.recent_mem x (by rw [hq]; exact List.mem_cons_of_mem _ hx)
  · exact hs.prio_nodup
  · exact (List.nodup_cons.mp hnd).2

theorem checkRecent_priority (env : SearchEnv) (s : BundleQueue) (b x : BundlePtr) :
    ((checkRecent env s b).heap x).priority = (s.heap x).priority := by
  unfold checkRecent
  by_cases hxb : x = b
  · subst hxb
    simp
  · simp [Function.update_noteq hxb]

/-- One iteration of the loop of `findRecent`: the state after the popped bundle has been pushed
back or moved to its priority queue. -/
theorem findRecent_requeue (env : SearchEnv) {s : BundleQueue} {b : BundlePtr}
    {rest : List BundlePtr} (hs : SchedInv s) (hq : s.recentSearchQueue = b :: rest) :
    ∃ s2, (if env.checkRecent b then
          some { checkRecent env { s with recentSearchQueue := rest } b with
            recentSearchQueue := rest ++ [b] }
        else addSearchPrio (checkRecent env { s with recentSearchQueue := rest } b) b) = some s2 ∧
      SchedInv s2 ∧ (∀ x, (s2.heap x).priority = (s.heap x).priority) ∧
      s2.recentSearchQueue.length ≤ s.recentSearchQueue.length := by
  obtain ⟨h1, hnotin, hprio, hlow⟩ := SchedInv.pop env hs hq
  by_cases hc : env.checkRecent b = true
  · refine ⟨_, by rw [if_pos hc], ?_, ?_, ?_⟩
    · constructor
      · exact h1.prio_mem
      · intro x hx
        simp only [List.mem_append, List.mem_singleton] at hx
        rcases hx with hx | hx
        · exact h1.recent_mem x hx
        · subst hx
          simp only [checkRecent, Function.update_same]
          exact ⟨hlow, hc⟩
      · exact h1.prio_nodup
      · simp only
        rw [List.nodup_append]
        refine ⟨h1.recent_nodup, List.nodup_singleton _, ?_⟩
        intro x hx hx2
        simp only [List.mem_singleton] at hx2
        subst hx2
        exact hnotin hx
    · intro x
      exact checkRecent_priority env _ b x
    · simp [hq]
  · have hc2 : env.checkRecent b = false := by simpa using hc
    have hadd : ∃ s2, addSearchPrio (checkRecent env { s with recentSearchQueue := rest } b) b
        = some s2 ∧ s2.recentSearchQueue = rest := by
      unfold addSearchPrio
      simp only [checkRecent, Function.update_same]
      rw [if_neg (Nat.not_lt.mpr hlow)]
      simp only [hc2, Bool.false_eq_true, if_false]
      rw [if_neg (hprio _)]
      exact ⟨_, rfl, rfl⟩
    obtain ⟨s2, h2, h3⟩ := hadd
    refine ⟨s2, by rw [if_neg hc]; exact h2, addSearchPrio_inv h1 h2, ?_, ?_⟩
    · intro x
      rw [(addSearchPrio_heap h2).1]
      exact checkRecent_priority env _ b x
    · rw [h3, hq]
      simp

theorem findRecentLoop_spec (env : SearchEnv) (fuel : Nat) :
    ∀ (count : Nat) (s t : BundleQueue) (r : Option BundlePtr), SchedInv s →
      findRecentLoop env fuel count s = some (r, t) →
      SchedInv t ∧ (∀ x, (t.heap x).priority = (s.heap x).priority) ∧
        ∀ b, r = some b → env.allowAutoSearch b = true ∧ LOW ≤ (s.heap b).priority := by
  induction fuel with
  | zero =>
    intro count s t r _ h
    simp [findRecentLoop] at h
  | succ n ih =>
    intro count s t r hs h
    unfold findRecentLoop at h
    cases hq : s.recentSearchQueue with
    | nil => rw [hq] at h; simp at h
    | cons b rest =>
      rw [hq] at h
      simp only at h
      obtain ⟨s2, e2, hs2, hp2, _⟩ := findRecent_requeue env hs hq
      rw [e2] at h
      simp only at h
      have hlow := (SchedInv.pop env hs hq).2.2.2
      split_ifs at h with ha hc
      · simp at h
        obtain ⟨rfl, rfl⟩ := h
        refine ⟨hs2, hp2, ?_⟩
        intro x hx
        simp at hx
        subst hx
        exact ⟨ha, hlow⟩
      · simp at h
        obtain ⟨rfl, rfl⟩ := h
        exact ⟨hs2, hp2, by simp⟩
      · obtain ⟨i1, i2, i3⟩ := ih (count + 1) s2 t r hs2 h
        refine ⟨i1, fun x => (i2 x).trans (hp2 x), ?_⟩
        intro x hx
        have := i3 x hx
        rw [hp2 x] at this
        exact this

theorem findRecentLoop_isSome (env : SearchEnv) (fuel : Nat) :
    ∀ (count : Nat) (s : BundleQueue), SchedInv s → s.recentSearchQueue ≠ [] →
      count ≤ s.recentSearchQueue.length → s.recentSearchQueue.length + 1 ≤ fuel + count →
      ∃ r, findRecentLoop env fuel count s = some r := by
  induction fuel with
  | zero =>
    intro count s _ _ h1 h2
    omega
  | succ n ih =>
    intro count s hs hne h1 h2
    unfold findRecentLoop
    cases hq : s.recentSearchQueue with
    | nil => exact absurd hq hne
    | cons b rest =>
      simp only
      obtain ⟨s2, e2, hs2, _, hlen⟩ := findRecent_requeue env hs hq
      rw [e2]
      simp only
      split_ifs with ha hc
      · exact ⟨_, rfl⟩
      · exact ⟨_, rfl⟩
      · have hc2 : count < s2.recentSearchQueue.length := Nat.lt_of_not_le hc
        apply ih (count + 1) s2 hs2
        · intro e
          rw [e] at hc2
          simp at hc2
        · omega
        · omega

theorem findRecent_spec {env : SearchEnv} {s t : BundleQueue} {r : Option BundlePtr}
    (hs : SchedInv s) (h : findRecent env s = some (r, t)) :
    SchedInv t ∧ (∀ x, (t.heap x).priority = (s.heap x).priority) ∧
      ∀ b, r = some b → env.allowAutoSearch b = true ∧ LOW ≤ (s.heap b).priority := by
  unfold findRecent at h
  split_ifs at h with h0
  · simp at h
    obtain ⟨rfl, rfl⟩ := h
    exact ⟨hs, fun _ => rfl, by simp⟩
  · exact findRecentLoop_spec env _ 0 s t r hs h

theorem findRecent_isSome (env : SearchEnv) {s : BundleQueue} (hs : SchedInv s) :
    ∃ r, findRecent env s = some r := by
  unfold findRecent
  split_ifs with h0
  · exact ⟨_, rfl⟩
  · apply findRecentLoop_isSome env _ 0 s hs
    · intro e
      rw [e] at h0
      simp at h0
    · omega
    · omega

theorem findSearchBundle_spec {env : SearchEnv} {s t : BundleQueue} {r : Option BundlePtr}
    {aTick : Nat} {force : Bool} (hs : SchedInv s)
    (h : findSearchBundle env s aTick force = some (r, t)) :
    SchedInv t ∧ (∀ x, (t.heap x).priority = (s.heap x).priority) ∧
      ∀ b, r = some b → env.allowAutoSearch b = true ∧ LOW ≤ (s.heap b).priority := by
  unfold findSearchBundle at h
  simp only at h
  have key : ∀ (first : Option (Option BundlePtr × BundleQueue)),
      (first = findAutoSearch env s ∨ first = some (none, s)) →
      (match first with
        | none => none
        | some (some b, s1) => some (some b, s1)
        | some (none, s1) =>
          if aTick ≥ s1.nextRecentSearch ∨ force = true then findRecent env s1
          else some (none, s1)) = some (r, t) →
      SchedInv t ∧ (∀ x, (t.heap x).priority = (s.heap x).priority) ∧
        ∀ b, r = some b → env.allowAutoSearch b = true ∧ LOW ≤ (s.heap b).priority := by
    intro first hfirst hm
    have hfs : ∀ r1 s1, first = some (r1, s1) →
        SchedInv s1 ∧ s1.heap = s.heap ∧
          ∀ b, r1 = some b → env.allowAutoSearch b = true ∧ LOW ≤ (s.heap b).priority := by
      intro r1 s1 e
      rcases hfirst with hf | hf
      · rw [hf] at e
        obtain ⟨a1, a2, _, a4⟩ := findAutoSearch_spec hs e
        refine ⟨a1, a2, ?_⟩
        intro b hb
        obtain ⟨c1, c2⟩ := a4 b hb
        exact ⟨c1, by
          have := hs.prio_mem _ b c2
          rw [this.1]
          exact this.2.1⟩
      · rw [hf] at e
        simp at e
        obtain ⟨rfl, rfl⟩ := e
        exact ⟨hs, rfl, by simp⟩
    match first, hm, hfs with
    | none, hm, _ => simp at hm
    | some (some b, s1), hm, hfs =>
      simp at hm
      obtain ⟨rfl, rfl⟩ := hm
      obtain ⟨a1, a2, a3⟩ := hfs (some b) s1 rfl
      exact ⟨a1, fun x => by rw [a2], a3⟩
    | some (none, s1), hm, hfs =>
      obtain ⟨a1, a2, _⟩ := hfs none s1 rfl
      simp only at hm
      split_ifs at hm with hc
      · obtain ⟨b1, b2, b3⟩ := findRecent_spec a1 hm
        refine ⟨b1, fun x => by rw [b2 x, a2], ?_⟩
        intro b hb
        have := b3 b hb
        rw [a2] at this
        exact this
      · simp at hm
        obtain ⟨rfl, rfl⟩ := hm
        exact ⟨a1, fun x => by rw [a2], by simp⟩
  split_ifs at h with hc
  · exact key _ (Or.inl rfl) h
  · exact key _ (Or.inr rfl) h

theorem findSearchBundle_eq_none {env : SearchEnv} {s : BundleQueue} {aTick : Nat} {force : Bool}
    (hs : SchedInv s) (h : findSearchBundle env s aTick force = none) :
    (getPrioSum env s).2 ≠ 0 ∧ s.prioSearchQueue (env.draw + 2) = [] := by
  unfold findSearchBundle at h
  simp only at h
  have key : ∀ (first : Option (Option BundlePtr × BundleQueue)),
      (first = findAutoSearch env s ∨ first = some (none, s)) →
      (match first with
        | none => none
        | some (some b, s1) => some (some b, s1)
        | some (none, s1) =>
          if aTick ≥ s1.nextRecentSearch ∨ force = true then findRecent env s1
          else some (none, s1)) = none →
      (getPrioSum env s).2 ≠ 0 ∧ s.prioSearchQueue (env.draw + 2) = [] := by
    intro first hfirst hm
    match first, hm, hfirst with
    | none, _, hfirst =>
      rcases hfirst with hf | hf
      · exact findAutoSearch_eq_none hf.symm
      · simp at hf
    | some (some b, s1), hm, _ => simp at hm
    | some (none, s1), hm, hfirst =>
      have a1 : SchedInv s1 := by
        rcases hfirst with hf | hf
        · exact (findAutoSearch_spec hs hf.symm).1
        · simp at hf
          rw [hf]
          exact hs
      simp only at hm
      split_ifs at hm with hc
      · obtain ⟨r, hr⟩ := findRecent_isSome env a1
        rw [hr] at hm
        simp at hm
  split_ifs at h with hc
  · exact key _ (Or.inl rfl) h
  · exact key _ (Or.inr rfl) h

theorem removeDirectory_foldl (U : PathUtil) (dirs : List String) :
    ∀ s : BundleQueue, (dirs.foldl (removeDirectory U) s).heap = s.heap ∧
      (dirs.foldl (removeDirectory U) s).prioSearchQueue = s.prioSearchQueue ∧
      (dirs.foldl (removeDirectory U) s).recentSearchQueue = s.recentSearchQueue ∧
      (dirs.foldl (removeDirectory U) s).bundles = s.bundles := by
  induction dirs with
  | nil => intro s; simp
  | cons d ds ih =>
    intro s
    simp only [List.foldl_cons]
    obtain ⟨a, b, c, d⟩ := ih (removeDirectory U s d)
    exact ⟨a, b, c, d⟩

theorem addBundle_inv {U : PathUtil} {s t : BundleQueue} {b : BundlePtr} (hs : SchedInv s)
    (h : addBundle U s b = some t) : SchedInv t := by
  unfold addBundle at h
  have h0 : SchedInv (unsetNew s b) := by
    apply hs.congr
    · intro x
      by_cases hx : x = b
      · subst hx; simp [unsetNew]
      · simp [unsetNew, Function.update_noteq hx]
    · intro x
      by_cases hx : x = b
      · subst hx; simp [unsetNew]
      · simp [unsetNew, Function.update_noteq hx]
    · rfl
    · rfl
  cases ha : addSearchPrio (unsetNew s b) b with
  | none => rw [ha] at h; simp at h
  | some s1 =>
    rw [ha] at h
    simp only at h
    have h1 := addSearchPrio_inv h0 ha
    split_ifs at h <;> simp at h <;> subst h <;>
      exact h1.congr (fun _ => rfl) (fun _ => rfl) rfl rfl

theorem removeBundle_inv {U : PathUtil} {s t : BundleQueue} {b : BundlePtr} (hs : SchedInv s)
    (h : removeBundle U s b = some t) : SchedInv t := by
  unfold removeBundle at h
  simp only at h
  split_ifs at h with h1 h2
  · simp at h
    subst h
    exact hs
  · simp at h
    subst h
    obtain ⟨a1, a2, a3, _⟩ := removeDirectory_foldl U (s.heap b).bundleDirs s
    have hs1 : SchedInv ((s.heap b).bundleDirs.foldl (removeDirectory U) s) :=
      hs.congr (fun x => by rw [a1]) (fun x => by rw [a1]) a2 a3
    exact (removeSearchPrio_inv b hs1).congr (fun _ => rfl) (fun _ => rfl) rfl rfl

theorem moveBundle_inv (U : PathUtil) {s : BundleQueue} (b : BundlePtr) (newTarget : String)
    (hs : SchedInv s) : SchedInv (moveBundle U s b newTarget) := by
  apply hs.congr
  · intro x
    by_cases hx : x = b
    · subst hx; simp [moveBundle, addDirectory, removeDirectory]
    · simp [moveBundle, addDirectory, removeDirectory, Function.update_noteq hx]
  · intro x
    by_cases hx : x = b
    · subst hx; simp [moveBundle, addDirectory, removeDirectory]
    · simp [moveBundle, addDirectory, removeDirectory, Function.update_noteq hx]
  · rfl
  · rfl

theorem step_inv {U : PathUtil} {s t : BundleQueue} {op : Op} (hs : SchedInv s)
    (h : step U s op = some t) : SchedInv t := by
  cases op with
  | addBundle b => exact addBundle_inv hs h
  | removeBundle b => exact removeBundle_inv hs h
  | addSearchPrio b => exact addSearchPrio_inv hs h
  | removeSearchPrio b =>
    simp [step] at h
    subst h
    exact removeSearchPrio_inv b hs
  | findSearchBundle env aTick force =>
    simp only [step] at h
    cases hf : findSearchBundle env s aTick force with
    | none => rw [hf] at h; simp at h
    | some r =>
      rw [hf] at h
      simp at h
      subst h
      exact (findSearchBundle_spec (r := r.1) (t := r.2) hs hf).1
  | moveBundle b newTarget =>
    simp [step] at h
    subst h
    exact moveBundle_inv U b newTarget hs

theorem run_inv (U : PathUtil) (ops : List Op) :
    ∀ s t : BundleQueue, SchedInv s → run U ops s = some t → SchedInv t := by
  induction ops with
  | nil =>
    intro s t hs h
    simp [run] at h
    subst h
    exact hs
  | cons op ops ih =>
    intro s t hs h
    simp only [run] at h
    cases hst : step U s op with
    | none => rw [hst] at h; simp at h
    | some s1 =>
      rw [hst] at h
      exact ih s1 t (step_inv hs hst) h

/-! ## The token map -/

theorem lookup_mapAssign_self (m : List (String × BundlePtr)) (k : String) (v : BundlePtr) :
    (mapAssign m k v).lookup k = some v := by
  induction m with
  | nil => simp [mapAssign, List.lookup]
  | cons e rest ih =>
    obtain ⟨k1, v1⟩ := e
    by_cases hk : k1 = k
    · subst hk
      simp [mapAssign, List.lookup]
    · have hk2 : (k == k1) = false := by simpa using fun e => hk e.symm
      simp [mapAssign, hk, List.lookup, hk2, ih]

theorem lookup_mapAssign_ne (m : List (String × BundlePtr)) (k k2 : String) (v : BundlePtr)
    (hne : k2 ≠ k) : (mapAssign m k v).lookup k2 = m.lookup k2 := by
  induction m with
  | nil =>
    have hk2 : (k2 == k) = false := by simpa using hne
    simp [mapAssign, List.lookup, hk2]
  | cons e rest ih =>
    obtain ⟨k1, v1⟩ := e
    by_cases hk : k1 = k
    · subst hk
      have hk2 : (k2 == k1) = false := by simpa using hne
      simp [mapAssign, List.lookup, hk2]
    · by_cases hk3 : k2 = k1
      · subst hk3
        simp [mapAssign, hk, List.lookup]
      · have hk4 : (k2 == k1) = false := by simpa using hk3
        simp [mapAssign, hk, List.lookup, hk4, ih]

theorem lookup_mapErase_self (m : List (String × BundlePtr)) (k : String) :
    (mapErase m k).lookup k = none := by
  induction m with
  | nil => simp [mapErase]
  | cons e rest ih =>
    obtain ⟨k1, v1⟩ := e
    by_cases hk : k1 = k
    · subst hk
      simpa [mapErase] using ih
    · have hk2 : (k == k1) = false := by simpa using fun e => hk e.symm
      unfold mapErase at ih ⊢
      rw [List.filter_cons, if_pos (by simpa using hk)]
      simp only [List.lookup, hk2]
      exact ih

/-! ## Counting occurrences -/

theorem sum_range_single (f : Nat → Nat) (q : Nat) (hf : ∀ p, p ≠ q → f p = 0) (n : Nat) :
    ((List.range n).map f).sum = if q < n then f q else 0 := by
  induction n with
  | zero => simp
  | succ n ih =>
    rw [List.range_succ, List.map_append, List.sum_append, ih]
    by_cases hq : q < n
    · have hne : n ≠ q := by omega
      have h1 : q < n + 1 := by omega
      simp [hq, h1, hf n hne]
    · by_cases hqn : q = n
      · subst hqn
        simp
      · have hne : n ≠ q := fun e => hqn e.symm
        have h1 : ¬ q < n + 1 := by omega
        simp [hq, h1, hf n hne]

theorem occurrences_le_one {s : BundleQueue} (hs : SchedInv s) (n : Nat) (b : BundlePtr) :
    occurrences s n b ≤ 1 ∧ (0 < occurrences s n b → LOW ≤ (s.heap b).priority) := by
  have hsum := sum_range_single (fun p => (s.prioSearchQueue p).count b) (s.heap b).priority
    (by
      intro p hp
      apply List.count_eq_zero_of_not_mem
      intro hmem
      exact hp (hs.prio_mem p b hmem).1.symm) n
  have hq1 : (s.prioSearchQueue (s.heap b).priority).count b ≤ 1 :=
    List.nodup_iff_count_le_one.mp (hs.prio_nodup _) b
  have hr1 : s.recentSearchQueue.count b ≤ 1 :=
    List.nodup_iff_count_le_one.mp hs.recent_nodup b
  unfold occurrences
  rw [hsum]
  by_cases hrec : b ∈ s.recentSearchQueue
  · have hflag := (hs.recent_mem b hrec).2
    have hq0 : (s.prioSearchQueue (s.heap b).priority).count b = 0 := by
      apply List.count_eq_zero_of_not_mem
      intro hmem
      have := (hs.prio_mem _ b hmem).2.2
      rw [hflag] at this
      exact Bool.noConfusion this
    rw [hq0]
    refine ⟨by split_ifs <;> omega, fun _ => (hs.recent_mem b hrec).1⟩
  · have hr0 : s.recentSearchQueue.count b = 0 := List.count_eq_zero_of_not_mem hrec
    rw [hr0]
    refine ⟨by split_ifs <;> omega, ?_⟩
    intro hpos
    split_ifs at hpos with hlt
    · have hmem : b ∈ s.prioSearchQueue (s.heap b).priority := by
        apply List.count_pos_iff.mp
        omega
      exact (hs.prio_mem _ b hmem).2.1
    · omega

/-! ## Claims about the scheduler -/

/-- Claim C1. In every state built from the empty queue by a sequence of calls, a scheduler pick
`findSearchBundle` returns no bundle or a bundle whose priority is at least `LOW` and for which
`allowAutoSearch()` holds. The pick does not complete only when the band that was drawn is
empty although some band holds a searchable bundle, which is the `dcassert` of `findAutoSearch`
and a draw of weight zero. -/
theorem findSearchBundle_result_searchable (U : PathUtil) (heap : BundlePtr → Bundle)
    (ops : List Op) (s : BundleQueue) (env : SearchEnv) (aTick : Nat) (force : Bool)
    (h : run U ops (BundleQueue.empty heap) = some s) :
    match findSearchBundle env s aTick force with
    | none => (getPrioSum env s).2 ≠ 0 ∧ s.prioSearchQueue (env.draw + 2) = []
    | some (none, _) => True
    | some (some b, _) => LOW ≤ (s.heap b).priority ∧ env.allowAutoSearch b = true := by
  have hs : SchedInv s := run_inv U ops _ s (SchedInv.empty heap) h
  cases hf : findSearchBundle env s aTick force with
  | none => exact findSearchBundle_eq_none hs hf
  | some r =>
    obtain ⟨r1, t⟩ := r
    cases r1 with
    | none => trivial
    | some b =>
      obtain ⟨_, _, h3⟩ := findSearchBundle_spec hs hf
      obtain ⟨a, c⟩ := h3 b rfl
      exact ⟨c, a⟩

/-- Witness for claim C1: after both example bundles are added, a forced pick completes and
returns a bundle that satisfies the contract. -/
theorem findSearchBundle_result_searchable_witness :
    run exampleUtil [Op.addBundle 0, Op.addBundle 1] (BundleQueue.empty exampleHeap)
        = some exampleAdded ∧
      (findSearchBundle exampleEnv exampleAdded 0 true).isSome = true ∧
      match findSearchBundle exampleEnv exampleAdded 0 true with
      | none => (getPrioSum exampleEnv exampleAdded).2 ≠ 0 ∧
          exampleAdded.prioSearchQueue (exampleEnv.draw + 2) = []
      | some (none, _) => True
      | some (some b, _) =>
        LOW ≤ (exampleAdded.heap b).priority ∧ exampleEnv.allowAutoSearch b = true :=
  ⟨rfl, rfl,
    findSearchBundle_result_searchable exampleUtil exampleHeap [Op.addBundle 0, Op.addBundle 1]
      exampleAdded exampleEnv 0 true rfl⟩

/-! ## Claims about the registry -/

/-- Claim C6. The lookup `getMergeBundle(t)` returns a bundle exactly when some registered
directory bundle has a target that is an ancestor of `t` (`t` is strictly inside it:
`isSub t target`), or is `t` itself or a descendant of `t` (`isParentOrExact t target`); and a
bundle that is returned is such a registered directory bundle. -/
theorem getMergeBundle_iff (U : PathUtil) (s : BundleQueue) (aTarget : String) :
    ((getMergeBundle U s aTarget).isSome = true ↔
        ∃ e ∈ s.bundles, (s.heap e.2).fileBundle = false ∧
          (U.isSub aTarget (s.heap e.2).target = true ∨
            U.isParentOrExact aTarget (s.heap e.2).target = true)) ∧
      ∀ b, getMergeBundle U s aTarget = some b →
        (∃ token, (token, b) ∈ s.bundles) ∧ (s.heap b).fileBundle = false ∧
          (U.isSub aTarget (s.heap b).target = true ∨
            U.isParentOrExact aTarget (s.heap b).target = true) := by
  constructor
  · unfold getMergeBundle
    rw [Option.isSome_map', List.find?_isSome]
    constructor
    · rintro ⟨e, he, hc⟩
      refine ⟨e, he, ?_⟩
      simpa [isMergeCandidate] using hc
    · rintro ⟨e, he, hc⟩
      refine ⟨e, he, ?_⟩
      simpa [isMergeCandidate] using hc
  · intro b hb
    unfold getMergeBundle at hb
    cases hf : s.bundles.find? (isMergeCandidate U s aTarget) with
    | none => rw [hf] at hb; simp at hb
    | some e =>
      rw [hf] at hb
      simp at hb
      have hmem := List.mem_of_find?_eq_some hf
      have hc := List.find?_some hf
      obtain ⟨token, b1⟩ := e
      simp only at hb
      subst hb
      refine ⟨⟨token, hmem⟩, ?_⟩
      simpa [isMergeCandidate] using hc

theorem removeSearchPrio_absent {s : BundleQueue} (hs : SchedInv s) (b : BundlePtr) :
    (∀ p, b ∉ (removeSearchPrio s b).prioSearchQueue p) ∧
      b ∉ (removeSearchPrio s b).recentSearchQueue := by
  unfold removeSearchPrio
  simp only
  split_ifs with h1 h2
  · constructor
    · intro p hp
      have := hs.prio_mem p b hp
      omega
    · intro hr
      have := (hs.recent_mem b hr).1
      omega
  · constructor
    · intro p hp
      have := (hs.prio_mem p b hp).2.2
      rw [h2] at this
      exact Bool.noConfusion this
    · intro hr
      exact ((hs.recent_nodup.mem_erase_iff).mp hr).1 rfl
  · constructor
    · intro p hp
      simp only at hp
      by_cases hpp : p = (s.heap b).priority
      · subst hpp
        rw [Function.update_same] at hp
        exact (((hs.prio_nodup _).mem_erase_iff).mp hp).1 rfl
      · rw [Function.update_noteq hpp] at hp
        exact hpp (hs.prio_mem p b hp).1.symm
    · intro hr
      exact h2 (hs.recent_mem b hr).2

/-- Claim C10. When the path index holds an entry for the target `old` of `b` (stored under the
last segment of `old`), `moveBundle(b, new)` sets the target of `b` to `new`, removes one entry
whose full path is `old`, adds the entry (`new`, `b`) under the last segment of `new`, and
leaves every other entry of the path index, the token map, the search queues and every other
bundle unchanged. -/
theorem moveBundle_frame (U : PathUtil) (s : BundleQueue) (b : BundlePtr) (newTarget : String)
    (owner : BundlePtr)
    (hmem : (U.getLastDir (s.heap b).target, ((s.heap b).target, owner)) ∈ s.bundleDirs) :
    ∃ l1 e l2, s.bundleDirs = l1 ++ e :: l2 ∧ e.2.1 = (s.heap b).target ∧
      (moveBundle U s b newTarget).bundleDirs
        = l1 ++ l2 ++ [(U.getLastDir newTarget, (newTarget, b))] ∧
      ((moveBundle U s b newTarget).heap b).target = newTarget ∧
      (moveBundle U s b newTarget).bundles = s.bundles ∧
      (∀ x, x ≠ b → (moveBundle U s b newTarget).heap x = s.heap x) ∧
      (moveBundle U s b newTarget).prioSearchQueue = s.prioSearchQueue ∧
      (moveBundle U s b newTarget).recentSearchQueue = s.recentSearchQueue := by
  have hp : isLocalDir U (s.heap b).target
      (U.getLastDir (s.heap b).target, ((s.heap b).target, owner)) = true := by
    simp [isLocalDir]
  obtain ⟨e, l1, l2, _, he, hsplit, herase⟩ := List.exists_of_eraseP hmem hp
  refine ⟨l1, e, l2, hsplit, ?_, ?_, ?_, rfl, ?_, rfl, rfl⟩
  · simp only [isLocalDir, Bool.and_eq_true, beq_iff_eq] at he
    exact he.2
  · simp only [moveBundle, addDirectory, removeDirectory]
    rw [herase]
  · simp [moveBundle, addDirectory, removeDirectory]
  · intro x hx
    simp [moveBundle, addDirectory, removeDirectory, Function.update_noteq hx]

/-- Witness for claim C10: the first example bundle, registered under `/a/b/`, is moved to
`/x/`. -/
theorem moveBundle_frame_witness :
    (exampleUtil.getLastDir (exampleAdded.heap 0).target, ((exampleAdded.heap 0).target, 0))
        ∈ exampleAdded.bundleDirs ∧
      ∃ l1 e l2, exampleAdded.bundleDirs = l1 ++ e :: l2 ∧
        e.2.1 = (exampleAdded.heap 0).target ∧
        (moveBundle exampleUtil exampleAdded 0 "/x/").bundleDirs
          = l1 ++ l2 ++ [(exampleUtil.getLastDir "/x/", ("/x/", 0))] ∧
        ((moveBundle exampleUtil exampleAdded 0 "/x/").heap 0).target = "/x/" ∧
        (moveBundle exampleUtil exampleAdded 0 "/x/").bundles = exampleAdded.bundles ∧
        (∀ x, x ≠ 0 → (moveBundle exampleUtil exampleAdded 0 "/x/").heap x = exampleAdded.heap x) ∧
        (moveBundle exampleUtil exampleAdded 0 "/x/").prioSearchQueue
          = exampleAdded.prioSearchQueue ∧
        (moveBundle exampleUtil exampleAdded 0 "/x/").recentSearchQueue
          = exampleAdded.recentSearchQueue :=
  ⟨by decide, moveBundle_frame exampleUtil exampleAdded 0 "/x/" 0 (by decide)⟩

end dcpp

namespace webserver

/-! ## Claims about the task merge -/

theorem lookup_emplace (m : TaskMap) (i : Item) (e : MergeTask) (h : m.lookup i = none) :
    (TaskMap.emplace m i e).lookup i = some e := by
  induction m with
  | nil => simp [TaskMap.emplace, List.lookup]
  | cons x rest ih =>
    obtain ⟨k, t⟩ := x
    by_cases hik : i = k
    · subst hik
      simp [List.lookup] at h
    · have hb : (i == k) = false := by simpa using hik
      simp only [List.lookup, hb] at h
      unfold TaskMap.emplace
      split_ifs with h1
      · simp [List.lookup]
      · simp only [List.lookup, hb]
        exact ih h

theorem lookup_map_merge (m : TaskMap) (i : Item) (t d : MergeTask) (h : m.lookup i = some t) :
    (m.map (fun e => if e.1 = i then (e.1, e.2.merge d) else e)).lookup i
      = some (t.merge d) := by
  induction m with
  | nil => simp [List.lookup] at h
  | cons x rest ih =>
    obtain ⟨k, t1⟩ := x
    by_cases hik : i = k
    · subst hik
      simp [List.lookup] at h
      subst h
      show List.lookup i ((if (i, t1).1 = i then ((i, t1).1, (i, t1).2.merge d) else (i, t1))
        :: rest.map (fun e => if e.1 = i then (e.1, e.2.merge d) else e)) = some (t1.merge d)
      rw [if_pos rfl]
      simp [List.lookup]
    · have hb : (i == k) = false := by simpa using hik
      have hki : ¬ (k, t1).1 = i := fun e => hik e.symm
      simp only [List.lookup, hb] at h
      show List.lookup i ((if (k, t1).1 = i then ((k, t1).1, (k, t1).2.merge d) else (k, t1))
        :: rest.map (fun e => if e.1 = i then (e.1, e.2.merge d) else e)) = some (t.merge d)
      rw [if_neg hki]
      simp only [List.lookup, hb]
      exact ih h

/-- Counterexample to claim C2: a REMOVE that arrives after a pending ADD is ignored, the task
stays ADD, which is the lower and not the higher of the two types. -/
theorem merge_remove_after_add_keeps_add :
    (MergeTask.merge ⟨Tasks.ADD_ITEM, ∅⟩ ⟨Tasks.REMOVE_ITEM, ∅⟩).type = Tasks.ADD_ITEM ∧
      ¬ (MergeTask.merge ⟨Tasks.ADD_ITEM, ∅⟩ ⟨Tasks.REMOVE_ITEM, ∅⟩).type.val
        = max Tasks.ADD_ITEM.val Tasks.REMOVE_ITEM.val := by
  decide

/-- Claim C2, amended. For every existing task `e` and incoming task `n`, `merge` leaves the
task with the lower of the two types in the order UPDATE, ADD, REMOVE; when the types are equal
the property set is the union of both sets, otherwise it is the set of the task that is kept. -/
theorem merge_keeps_lower_type (e n : MergeTask) :
    (e.merge n).type.val = min e.type.val n.type.val ∧
      (e.merge n).updatedProperties =
        if e.type = n.type then e.updatedProperties ∪ n.updatedProperties
        else if e.type.val < n.type.val then e.updatedProperties
        else n.updatedProperties := by
  obtain ⟨et, ep⟩ := e
  obtain ⟨nt, np⟩ := n
  cases et <;> cases nt <;> simp [MergeTask.merge, Tasks.val]

/-- Counterexample to claim C3: an UPDATE enqueued after an ADD replaces it (the task does not
stay ADD), and a REMOVE enqueued after an UPDATE is dropped (the task is not the later
event). -/
theorem add_update_after_add_replaces :
    TaskMap.find (ItemTasks.add (ItemTasks.add [] 5 ⟨Tasks.ADD_ITEM, ∅⟩) 5
        ⟨Tasks.UPDATE_ITEM, {1}⟩) 5 = some ⟨Tasks.UPDATE_ITEM, {1}⟩ ∧
      TaskMap.find (ItemTasks.add (ItemTasks.add [] 5 ⟨Tasks.UPDATE_ITEM, {1}⟩) 5
        ⟨Tasks.REMOVE_ITEM, ∅⟩) 5 = some ⟨Tasks.UPDATE_ITEM, {1}⟩ := by
  decide

/-- Claim C3, amended. When two events are enqueued through `ItemTasks::add` on an item without
a pending task, the merged task is the later event when its type is lower than that of the
earlier one, the earlier event when the type of the earlier one is lower, and when both have the
same type it keeps that type with the union of both property sets. -/
theorem add_twice_merges (m : TaskMap) (i : Item) (e1 e2 : MergeTask)
    (h : TaskMap.find m i = none) :
    ∃ r, TaskMap.find (ItemTasks.add (ItemTasks.add m i e1) i e2) i = some r ∧
      (e2.type.val < e1.type.val → r = e2) ∧
      (e1.type.val < e2.type.val → r = e1) ∧
      (e1.type = e2.type →
        r = ⟨e1.type, e1.updatedProperties ∪ e2.updatedProperties⟩) := by
  unfold TaskMap.find at h
  have h1 : ItemTasks.add m i e1 = TaskMap.emplace m i e1 := by
    simp [ItemTasks.add, TaskMap.find, h]
  have h2 : (ItemTasks.add m i e1).lookup i = some e1 := by
    rw [h1]
    exact lookup_emplace m i e1 h
  have h3 : TaskMap.find (ItemTasks.add (ItemTasks.add m i e1) i e2) i = some (e1.merge e2) := by
    unfold ItemTasks.add TaskMap.find
    unfold ItemTasks.add TaskMap.find at h2
    rw [h2]
    simp only
    exact lookup_map_merge _ i e1 e2 h2
  refine ⟨e1.merge e2, h3, ?_, ?_, ?_⟩
  · intro hlt
    obtain ⟨t1, p1⟩ := e1
    obtain ⟨t2, p2⟩ := e2
    cases t1 <;> cases t2 <;> simp [MergeTask.merge, Tasks.val] at hlt ⊢
  · intro hlt
    simp [MergeTask.merge, hlt]
  · intro heq
    simp [MergeTask.merge, heq]

/-- Witness for claim C3: a REMOVE and then an ADD are enqueued on item `5`, which has no pending
task. -/
theorem add_twice_merges_witness :
    TaskMap.find [(3, ⟨Tasks.ADD_ITEM, ∅⟩)] 5 = none ∧
    ∃ r, TaskMap.find (ItemTasks.add (ItemTasks.add [(3, ⟨Tasks.ADD_ITEM, ∅⟩)] 5
          ⟨Tasks.REMOVE_ITEM, ∅⟩) 5 ⟨Tasks.ADD_ITEM, ∅⟩) 5 = some r ∧
      r = ⟨Tasks.ADD_ITEM, ∅⟩ :=
  ⟨by decide,
    (add_twice_merges [(3, ⟨Tasks.ADD_ITEM, ∅⟩)] 5 ⟨Tasks.REMOVE_ITEM, ∅⟩ ⟨Tasks.ADD_ITEM, ∅⟩
      (by decide)).imp (fun _ hr => ⟨hr.1, hr.2.1 (by decide)⟩)⟩

/-! ## Claims about the tick -/

/-- Claim C4, evaluated on the code. A filter that passes only item `1` is posted before the
view is activated on the items `1` and `2`. After the tick `matchingItems` holds both items,
while only item `1` of `allItems` passes the filter: `updateList` copies the whole list into
`matchingItems` and no later step of the tick applies the filters to it. -/
theorem runTasks_after_updateList_unfiltered :
    exampleFilterFirst.map (fun v => (v.matchingItems, v.allItems, filteredItems v))
      = some ([1, 2], [1, 2], [1]) := by
  decide

/-- Claim C5, evaluated on the code. With the window starting at `2`: after the first tick the
window is item `3`. Then the items `2` and `3` are removed and three items that fail the filter
are added. After the second tick `matchingItems` is item `1` alone and `allItems` has four
items, so the start `2` is not reset and the slice of `matchingItems` from `2` is empty; yet the
window still holds the removed item `3`, because `updateViewItems` returns early when the count
is negative. When item `1` is removed as well, the body of the tick ends with `matchingItems`
empty and the window still holding item `3`, and the closing `dcassert` of `runTasks` fails. -/
theorem runTasks_window_stale :
    exampleWindowTick1.map (fun v => (v.matchingItems, v.currentViewItems))
        = some ([1, 2, 3], [3]) ∧
      exampleWindowTick2.map (fun v => (v.matchingItems, v.allItems, v.currentViewItems,
          (v.matchingItems.drop 2).take 5))
        = some ([1], [1, 4, 5, 6], [3], []) ∧
      (exampleWindowEmptied.bind (runTasksBody exampleHandler)).map
          (fun r => (r.1.matchingItems, r.1.allItems, r.1.currentViewItems))
        = some ([], [4, 5, 6], [3]) ∧
      (exampleWindowEmptied.bind (runTasks exampleHandler)).isNone = true := by
  decide

end webserver

namespace webserver

/-! ## Claims about settings and reset -/

/-- Claim C17. When the body has a negative `range_start`, or a `sort_property` that names no
property, `parseProperties` throws `std::invalid_argument` and leaves the view exactly as it was
(in particular the stored settings, the changed flag and the running state of the ticker),
whatever the other fields of the body are; `handlePostSettings` fails with the same error. -/
theorem parseProperties_error_keeps_state (H : PropertyItemHandler) (v : ListViewController)
    (j : SettingsBody) (aItems : List Item)
    (h : (∃ start, j.range_start = some start ∧ start < 0) ∨
      (∃ name, j.sort_property = some name ∧ H.findPropertyByName name = -1)) :
    ∃ e, parsePropertiesRun H v j = (some e, v) ∧
      (e = "Negative range start not allowed" ∨ e = "Invalid sort property") ∧
      handlePostSettings H v j aItems = Except.error e := by
  have key : ∃ e, parsePropertiesRun H v j = (some e, v) ∧
      (e = "Negative range start not allowed" ∨ e = "Invalid sort property") := by
    by_cases h1 : ∃ start, j.range_start = some start ∧ start < 0
    · obtain ⟨start, hs, hneg⟩ := h1
      exact ⟨_, by simp [parsePropertiesRun, hs, hneg], Or.inl rfl⟩
    · obtain ⟨name, hn, hbad⟩ := h.resolve_left h1
      cases hr : j.range_start with
      | none => exact ⟨_, by simp [parsePropertiesRun, hr, hn, hbad], Or.inr rfl⟩
      | some start =>
        have hge : ¬ start < 0 := fun hlt => h1 ⟨start, hr, hlt⟩
        exact ⟨_, by simp [parsePropertiesRun, hr, hge, hn, hbad], Or.inr rfl⟩
  obtain ⟨e, he, hmsg⟩ := key
  exact ⟨e, he, hmsg, by simp [handlePostSettings, parseProperties, he]⟩

/-- Witness for claim C17: a body with `range_start = -1` that also asks to pause, sent to a
view whose ticker runs. -/
theorem parseProperties_error_keeps_state_witness :
    ((∃ start, (some (-1) : Option Int) = some start ∧ start < 0) ∨
      (∃ name, (none : Option String) = some name ∧
        exampleHandler.findPropertyByName name = -1)) ∧
    ∃ e, parsePropertiesRun exampleHandler { ListViewController.init with timerRunning := true }
          { range_start := some (-1), max_count := some 5, sort_property := none,
            sort_ascending := some true, paused := some true }
        = (some e, { ListViewController.init with timerRunning := true }) ∧
      (e = "Negative range start not allowed" ∨ e = "Invalid sort property") ∧
      handlePostSettings exampleHandler { ListViewController.init with timerRunning := true }
          { range_start := some (-1), max_count := some 5, sort_property := none,
            sort_ascending := some true, paused := some true } [1, 2]
        = Except.error e :=
  ⟨Or.inl ⟨-1, rfl, by decide⟩,
    parseProperties_error_keeps_state exampleHandler
      { ListViewController.init with timerRunning := true }
      { range_start := some (-1), max_count := some 5, sort_property := none,
        sort_ascending := some true, paused := some true } [1, 2]
      (Or.inl ⟨-1, rfl, by decide⟩)⟩

/-- Claim C18, evaluated on the code. For every view `handleReset` returns `no_content` (204,
a success status), never `bad_request`; on the inactive view it has set the error string and
then gone on to `stop()` and the final `return`. -/
theorem handleReset_returns_no_content :
    (∀ v : ListViewController, (handleReset v).1 = StatusCode.no_content) ∧
      ListViewController.init.active = false ∧
      (handleReset ListViewController.init).1.code = 204 ∧
      (handleReset ListViewController.init).1 ≠ StatusCode.bad_request ∧
      (handleReset ListViewController.init).2.1 = some "The view isn't active" := by
  refine ⟨fun v => rfl, rfl, rfl, by decide, rfl⟩

end webserver

namespace dcpp

/-! ## Claims about the search times -/

theorem tickPlus_of_nonneg (tick : Nat) (ms : Nat) (h : tick + ms < UINT64_SIZE) :
    tickPlus tick (ms : Int) = tick + ms := by
  unfold tickPlus
  have h1 : ((tick : Int) + (ms : Int)) % (UINT64_SIZE : Int) = ((tick + ms : Nat) : Int) := by
    rw [Int.emod_eq_of_lt]
    · push_cast; rfl
    · positivity
    · exact_mod_cast h
  rw [h1]
  exact Int.toNat_natCast _

/-- Counterexample to claim C12: with the due timestamp still `0`, a call with
`isPrioChange = true` at tick `1000` raises `nextSearch` to `601000` and `nextRecentSearch`
to `301000`. -/
theorem recalculate_raises_unset_due :
    (BundleQueue.empty exampleHeap).nextSearch = 0 ∧
      (recalculateSearchTimes exampleEnv 10 1000 (BundleQueue.empty exampleHeap) false true).map
          (fun r => r.2.nextSearch) = some 601000 ∧
      (BundleQueue.empty exampleHeap).nextRecentSearch = 0 ∧
      (recalculateSearchTimes exampleEnv 10 1000 (BundleQueue.empty exampleHeap) true true).map
          (fun r => r.2.nextRecentSearch) = some 301000 := by
  decide

/-- Claim C12, amended. For every scheduler state, every clock value and both values of
`aRecent`, `recalculateSearchTimes(aRecent, true)` completes (for `aRecent = false`: provided
the `int` product `minInterval * 60 * 1000` does not overflow); when the due timestamp in
question is already set (greater than `0`) the call leaves it less than or equal to its value
before the call, and when the timestamp is still `0` the call sets it to `GET_TICK()` plus the
interval (the `uint64_t` sum), the interval being `getRecentIntervalMs()` for `aRecent = true`
and `minInterval * 60 * 1000` for `aRecent = false`. -/
theorem recalculate_prioChange_not_later (env : SearchEnv) (searchTime : Int) (tick : Nat)
    (s : BundleQueue) (aRecent : Bool)
    (hfit : aRecent = false → (searchIntervalMs env searchTime s).isSome = true) :
    ∃ r t, recalculateSearchTimes env searchTime tick s aRecent true = some (r, t) ∧
      (0 < dueOf s aRecent → dueOf t aRecent ≤ dueOf s aRecent) ∧
      (dueOf s aRecent = 0 → aRecent = true →
        dueOf t aRecent = tickPlus tick (getRecentIntervalMs env s)) ∧
      (dueOf s aRecent = 0 → aRecent = false →
        ∃ ms, searchIntervalMs env searchTime s = some ms ∧
          dueOf t aRecent = tickPlus tick ms) := by
  cases aRecent with
  | false =>
    have hf := hfit rfl
    cases hms : searchIntervalMs env searchTime s with
    | none => rw [hms] at hf; simp at hf
    | some ms =>
      simp only [dueOf, Bool.false_eq_true, if_false]
      refine ⟨_, _, by simp [recalculateSearchTimes, hms]; exact ⟨rfl, rfl⟩, ?_, ?_, ?_⟩
      · intro hset
        simp only [hset, and_self, if_true]
        exact Nat.min_le_left _ _
      · intro _ h
        exact absurd h (by decide)
      · intro h0 _
        refine ⟨ms, rfl, ?_⟩
        have hn : ¬ (0 < s.nextSearch) := by omega
        rw [if_neg hn]
  | true =>
    simp only [dueOf, if_true]
    refine ⟨_, _, by simp [recalculateSearchTimes]; exact ⟨rfl, rfl⟩, ?_, ?_, ?_⟩
    · intro hset
      simp only [hset, and_self, if_true]
      exact Nat.min_le_left _ _
    · intro h0 _
      have hn : ¬ (0 < s.nextRecentSearch) := by omega
      rw [if_neg hn]
    · intro _ h
      exact absurd h (by decide)

/-- Witness for claim C12: a state whose `nextSearch` is `500`, recalculated at tick `1000`. -/
theorem recalculate_prioChange_not_later_witness :
    (false = false →
        (searchIntervalMs exampleEnv 10 { BundleQueue.empty exampleHeap with nextSearch := 500 }
          ).isSome = true) ∧
    ∃ r t, recalculateSearchTimes exampleEnv 10 1000
          { BundleQueue.empty exampleHeap with nextSearch := 500 } false true = some (r, t) ∧
      (0 < dueOf { BundleQueue.empty exampleHeap with nextSearch := 500 } false →
        dueOf t false ≤ dueOf { BundleQueue.empty exampleHeap with nextSearch := 500 } false) ∧
      (dueOf { BundleQueue.empty exampleHeap with nextSearch := 500 } false = 0 → false = true →
        dueOf t false = tickPlus 1000
          (getRecentIntervalMs exampleEnv
            { BundleQueue.empty exampleHeap with nextSearch := 500 })) ∧
      (dueOf { BundleQueue.empty exampleHeap with nextSearch := 500 } false = 0 → false = false →
        ∃ ms, searchIntervalMs exampleEnv 10
            { BundleQueue.empty exampleHeap with nextSearch := 500 } = some ms ∧
          dueOf t false = tickPlus 1000 ms) :=
  ⟨fun _ => by decide,
    recalculate_prioChange_not_later exampleEnv 10 1000
      { BundleQueue.empty exampleHeap with nextSearch := 500 } false (fun _ => by decide)⟩

end dcpp

namespace dcpp

theorem int32_of_range {x : Int} (h1 : 0 ≤ x) (h2 : x ≤ INT_MAX) : int32 x = some x := by
  unfold int32
  have h0 : -INT_MAX - 1 ≤ x := by
    unfold INT_MAX at *
    omega
  simp [h0, h2]

theorem toInt64_of_lt (x : Nat) (h : x < UINT64_SIZE / 2) : toInt64 x = (x : Int) := by
  have hx : x % UINT64_SIZE = x := Nat.mod_eq_of_lt (by unfold UINT64_SIZE at *; omega)
  unfold toInt64
  rw [hx, if_pos h]

/-- Counterexample to claim C14. With `SEARCH_TIME = 35792` and no searchable bundle the `int`
product `35792 * 60 * 1000` exceeds `INT_MAX`, so the call has no defined result; and at the
clock value `2^64 - 1` with `SEARCH_TIME = 1` the sum wraps and `nextSearch` becomes `59999`. -/
theorem recalculate_overflows :
    (getPrioSum exampleEnv (BundleQueue.empty exampleHeap)).2 = 0 ∧
      (recalculateSearchTimes exampleEnv 35792 0 (BundleQueue.empty exampleHeap)
        false false).isNone = true ∧
      (recalculateSearchTimes exampleEnv 1 (UINT64_SIZE - 1) (BundleQueue.empty exampleHeap)
        false false).map (fun r => (r.1, r.2.nextSearch)) = some (59999, 59999) := by
  decide

/-- The value and the state that `recalculateSearchTimes(false, false)` gives when the interval
and the sum with the clock value stay within the integer ranges. -/
theorem recalculate_of_interval (env : SearchEnv) (searchTime : Int) (tick : Nat)
    (s : BundleQueue) (m : Nat)
    (hm : (m : Int) = if 0 < (getPrioSum env s).2
      then max (((60 / (getPrioSum env s).2 : Nat) : Int)) searchTime else searchTime)
    (hfit : (m : Int) * 60000 ≤ INT_MAX) (hnow : tick + m * 60000 < UINT64_SIZE / 2) :
    recalculateSearchTimes env searchTime tick s false false
      = some (((tick + m * 60000 : Nat) : Int), { s with nextSearch := tick + m * 60000 }) := by
  have hmin : minInterval env searchTime s = (m : Int) := by
    unfold minInterval
    simp only
    rw [hm]
    by_cases hn : 0 < (getPrioSum env s).2
    · have hn2 : ((getPrioSum env s).2 : Int) > 0 := by exact_mod_cast hn
      rw [if_pos hn2, if_pos hn]
      norm_cast
    · have hn2 : ¬ ((getPrioSum env s).2 : Int) > 0 := by
        intro h
        exact hn (by exact_mod_cast h)
      rw [if_neg hn2, if_neg hn]
  have hms : searchIntervalMs env searchTime s = some ((m * 60000 : Nat) : Int) := by
    unfold searchIntervalMs
    rw [hmin]
    have h60 : int32 ((m : Int) * 60) = some ((m : Int) * 60) := by
      apply int32_of_range
      · positivity
      · have : (m : Int) * 60 ≤ (m : Int) * 60000 := by
          have : (0 : Int) ≤ (m : Int) := by positivity
          nlinarith
        exact this.trans hfit
    rw [h60]
    simp only
    have h1000 : (m : Int) * 60 * 1000 = ((m * 60000 : Nat) : Int) := by
      push_cast
      ring
    rw [h1000]
    apply int32_of_range
    · positivity
    · push_cast
      exact hfit
  have hlt : tick + m * 60000 < UINT64_SIZE := by
    unfold UINT64_SIZE at *
    omega
  unfold recalculateSearchTimes
  simp only [Bool.not_false, if_true, hms, Bool.false_eq_true, and_false, if_false]
  rw [tickPlus_of_nonneg tick (m * 60000) hlt, toInt64_of_lt _ hnow]

/-- Claim C14, amended. Let `n` be the number of searchable bundles in the priority bands and
`m = max(60 / n, SEARCH_TIME)` if `n > 0`, `m = SEARCH_TIME` if `n = 0`. When `m` is not
negative (as for every `SEARCH_TIME ≥ 1`) and `m * 60000` is within the range of an `int`, then
for every clock value `now` with `now + m * 60000` below `2^63`,
`recalculateSearchTimes(false, false)` sets `nextSearch` to, and returns, `now + m * 60000`. -/
theorem recalculate_sets_interval (env : SearchEnv) (searchTime : Int) (tick : Nat)
    (s : BundleQueue) (m : Nat)
    (hm : (m : Int) = if 0 < (getPrioSum env s).2
      then max (((60 / (getPrioSum env s).2 : Nat) : Int)) searchTime else searchTime)
    (hfit : (m : Int) * 60000 ≤ INT_MAX) (hnow : tick + m * 60000 < UINT64_SIZE / 2) :
    recalculateSearchTimes env searchTime tick s false false
      = some (((tick + m * 60000 : Nat) : Int), { s with nextSearch := tick + m * 60000 }) :=
  recalculate_of_interval env searchTime tick s m hm hfit hnow

/-- Witness for claim C14: one searchable bundle, `SEARCH_TIME = 10`, clock value `1000`; the
interval is `max(60 / 1, 10) = 60` minutes. -/
theorem recalculate_sets_interval_witness :
    (((60 : Nat) : Int) = if 0 < (getPrioSum exampleEnv exampleOne).2
      then max (((60 / (getPrioSum exampleEnv exampleOne).2 : Nat) : Int)) 10 else 10) ∧
    recalculateSearchTimes exampleEnv 10 1000 exampleOne false false
      = some (((1000 + 60 * 60000 : Nat) : Int),
        { exampleOne with nextSearch := 1000 + 60 * 60000 }) :=
  ⟨by decide,
    recalculate_sets_interval exampleEnv 10 1000 exampleOne 60 (by decide) (by decide)
      (by decide)⟩

end dcpp

namespace dcpp

/-! ## Scenario S3 -/

theorem getPrioSum_eq (env : SearchEnv) (s : BundleQueue) :
    getPrioSum env s =
      ([1 * (s.prioSearchQueue 2).countP env.allowAutoSearch,
        2 * (s.prioSearchQueue 3).countP env.allowAutoSearch,
        3 * (s.prioSearchQueue 4).countP env.allowAutoSearch,
        4 * (s.prioSearchQueue 5).countP env.allowAutoSearch],
       (s.prioSearchQueue 2).countP env.allowAutoSearch +
        ((s.prioSearchQueue 3).countP env.allowAutoSearch +
          ((s.prioSearchQueue 4).countP env.allowAutoSearch +
            ((s.prioSearchQueue 5).countP env.allowAutoSearch + 0)))) := by
  rfl

theorem getPrioSum_congr (env : SearchEnv) (s t : BundleQueue)
    (h : ∀ p, (t.prioSearchQueue p).countP env.allowAutoSearch
      = (s.prioSearchQueue p).countP env.allowAutoSearch) :
    getPrioSum env t = getPrioSum env s := by
  rw [getPrioSum_eq, getPrioSum_eq]
  simp only [h]

theorem countP_one_unique (p : BundlePtr → Bool) (l : List BundlePtr) (a b : BundlePtr)
    (h : l.countP p = 1) (ha : a ∈ l) (hpa : p a = true) (hb : b ∈ l) (hpb : p b = true) :
    a = b := by
  induction l with
  | nil => simp at ha
  | cons x rest ih =>
    by_cases hx : p x = true
    · rw [List.countP_cons_of_pos _ _ hx] at h
      have h0 : rest.countP p = 0 := by omega
      have hnone := List.countP_eq_zero.mp h0
      have hax : a = x := by
        rcases List.mem_cons.mp ha with e | e
        · exact e
        · exact absurd hpa (hnone a e)
      have hbx : b = x := by
        rcases List.mem_cons.mp hb with e | e
        · exact e
        · exact absurd hpb (hnone b e)
      rw [hax, hbx]
    · rw [List.countP_cons_of_neg _ _ hx] at h
      have ha2 : a ∈ rest := by
        rcases List.mem_cons.mp ha with e | e
        · rw [e] at hpa
          exact absurd hpa hx
        · exact e
      have hb2 : b ∈ rest := by
        rcases List.mem_cons.mp hb with e | e
        · rw [e] at hpb
          exact absurd hpb hx
        · exact e
      exact ih h ha2 hb2

theorem weight_pos_cases (c2 c3 c4 c5 d : Nat)
    (h : 0 < [1 * c2, 2 * c3, 3 * c4, 4 * c5].getD d 0) :
    (d = 0 ∧ 0 < c2) ∨ (d = 1 ∧ 0 < c3) ∨ (d = 2 ∧ 0 < c4) ∨ (d = 3 ∧ 0 < c5) := by
  rcases d with _ | _ | _ | _ | k
  · simp at h
    exact Or.inl ⟨rfl, h⟩
  · simp at h
    exact Or.inr (Or.inl ⟨rfl, h⟩)
  · simp at h
    exact Or.inr (Or.inr (Or.inl ⟨rfl, h⟩))
  · simp at h
    exact Or.inr (Or.inr (Or.inr ⟨rfl, h⟩))
  · simp at h

/-- The band that a draw of positive weight selects holds a searchable bundle, and when the
bands hold exactly one searchable bundle, it is in that band. -/
theorem drawn_band_searchable (env : SearchEnv) (s : BundleQueue)
    (hdraw : 0 < (getPrioSum env s).1.getD env.draw 0) :
    0 < (s.prioSearchQueue (env.draw + 2)).countP env.allowAutoSearch ∧
      ((getPrioSum env s).2 = 1 →
        (s.prioSearchQueue (env.draw + 2)).countP env.allowAutoSearch = 1 ∧
        ∀ p, LOW ≤ p → p < LAST → p ≠ env.draw + 2 →
          (s.prioSearchQueue p).countP env.allowAutoSearch = 0) := by
  rw [getPrioSum_eq] at hdraw ⊢
  unfold LOW LAST
  have hc := weight_pos_cases _ _ _ _ _ hdraw
  have hsplit : ∀ p, 2 ≤ p → p < 6 → p = 2 ∨ p = 3 ∨ p = 4 ∨ p = 5 := by
    intro p h1 h2
    omega
  rcases hc with ⟨hd, hpos⟩ | ⟨hd, hpos⟩ | ⟨hd, hpos⟩ | ⟨hd, hpos⟩
  all_goals
    rw [hd]
    refine ⟨hpos, ?_⟩
    intro h1
    simp only at h1
    simp only [Nat.reduceAdd]
    refine ⟨by omega, ?_⟩
    intro p hp1 hp2 hp3
    rcases hsplit p hp1 hp2 with e | e | e | e <;> subst e <;> omega

/-- Counterexample to claim C20. One searchable bundle of priority `NORMAL`, `nextSearch = 0`,
empty recent queue: the pick at tick `1000` returns the bundle and leaves `nextSearch` at `0`,
and a following `recalculateSearchTimes(false, false)` with `SEARCH_TIME = 10` sets it to
`1000 + 60 * 60000 = 3601000`; neither value is `601000`. -/
theorem pick_S3_leaves_nextSearch :
    exampleOne.nextSearch = 0 ∧ exampleOne.recentSearchQueue = [] ∧
      (getPrioSum exampleEnv exampleOne).2 = 1 ∧
      (findSearchBundle exampleEnv exampleOne 1000 false).map
          (fun r => (r.1, r.2.nextSearch)) = some (some 0, 0) ∧
      ((findSearchBundle exampleEnv exampleOne 1000 false).bind
          (fun r => recalculateSearchTimes exampleEnv 10 1000 r.2 false false)).map
          (fun r => (r.1, r.2.nextSearch)) = some (3601000, 3601000) := by
  decide

/-- Claim C20, amended (scenario S3). With `nextSearch = 0`, exactly one searchable bundle in
the priority queues and a draw of positive weight, the pick at `now = 1000` returns that bundle
and leaves `nextSearch` at `0`; `recalculateSearchTimes(false, false)` with `SEARCH_TIME = 10`
at `now = 1000` then sets `nextSearch` to, and returns,
`1000 + max(60 / 1, 10) * 60000 = 3601000`. -/
theorem pick_S3 (env : SearchEnv) (s : BundleQueue) (h0 : s.nextSearch = 0)
    (hone : (getPrioSum env s).2 = 1) (hdraw : 0 < (getPrioSum env s).1.getD env.draw 0) :
    ∃ b t, findSearchBundle env s 1000 false = some (some b, t) ∧
      env.allowAutoSearch b = true ∧ b ∈ s.prioSearchQueue (env.draw + 2) ∧
      (∀ p x, LOW ≤ p → p < LAST → x ∈ s.prioSearchQueue p →
        env.allowAutoSearch x = true → x = b) ∧
      t.nextSearch = 0 ∧
      ∃ u, recalculateSearchTimes env 10 1000 t false false = some (3601000, u) ∧
        u.nextSearch = 3601000 := by
  obtain ⟨hpos, hrest⟩ := drawn_band_searchable env s hdraw
  obtain ⟨hband, hother⟩ := hrest hone
  obtain ⟨a, hamem, haallow⟩ := List.countP_pos_iff.mp hpos
  cases hf : (s.prioSearchQueue (env.draw + 2)).find? env.allowAutoSearch with
  | none => exact absurd haallow (List.find?_eq_none.mp hf a hamem)
  | some b =>
    have hbmem := List.mem_of_find?_eq_some hf
    have hballow := List.find?_some hf
    have hne : s.prioSearchQueue (env.draw + 2) ≠ [] := List.ne_nil_of_mem hbmem
    have hauto : ∃ t, findAutoSearch env s = some (some b, t) ∧ t.nextSearch = s.nextSearch ∧
        ∀ p, (t.prioSearchQueue p).countP env.allowAutoSearch
          = (s.prioSearchQueue p).countP env.allowAutoSearch := by
      unfold findAutoSearch
      simp only [hone, hf, one_ne_zero, if_false, hne]
      refine ⟨_, rfl, rfl, ?_⟩
      intro p
      by_cases hp : p = env.draw + 2
      · subst hp
        simp only [Function.update_same]
        exact (rotate_perm env.allowAutoSearch _ b hf).countP_eq _
      · simp only [Function.update_noteq hp]
    obtain ⟨t, ht, htnext, htcount⟩ := hauto
    have hpick : findSearchBundle env s 1000 false = some (some b, t) := by
      unfold findSearchBundle
      simp [h0, ht]
    refine ⟨b, t, hpick, hballow, hbmem, ?_, htnext.trans h0, ?_⟩
    · intro p x hp1 hp2 hx hxallow
      by_cases hp : p = env.draw + 2
      · subst hp
        exact countP_one_unique env.allowAutoSearch _ x b hband hx hxallow hbmem hballow
      · exact absurd hxallow (List.countP_eq_zero.mp (hother p hp1 hp2 hp) x hx)
    · have hsum : getPrioSum env t = getPrioSum env s := getPrioSum_congr env s t htcount
      have hrec := recalculate_of_interval env 10 1000 t 60
        (by rw [hsum, hone]; decide) (by decide) (by decide)
      exact ⟨_, hrec, rfl⟩

/-- Witness for claim C20: the single example bundle. -/
theorem pick_S3_witness :
    (exampleOne.nextSearch = 0 ∧ (getPrioSum exampleEnv exampleOne).2 = 1 ∧
      0 < (getPrioSum exampleEnv exampleOne).1.getD exampleEnv.draw 0) ∧
    ∃ b t, findSearchBundle exampleEnv exampleOne 1000 false = some (some b, t) ∧
      exampleEnv.allowAutoSearch b = true ∧
      b ∈ exampleOne.prioSearchQueue (exampleEnv.draw + 2) ∧
      (∀ p x, LOW ≤ p → p < LAST → x ∈ exampleOne.prioSearchQueue p →
        exampleEnv.allowAutoSearch x = true → x = b) ∧
      t.nextSearch = 0 ∧
      ∃ u, recalculateSearchTimes exampleEnv 10 1000 t false false = some (3601000, u) ∧
        u.nextSearch = 3601000 :=
  ⟨⟨by decide, by decide, by decide⟩,
    pick_S3 exampleEnv exampleOne (by decide) (by decide) (by decide)⟩

end dcpp

namespace dcpp

/-! ## Claims about the iterations of findRecent -/

theorem findRecentIter_result (env : SearchEnv) (fuel : Nat) :
    ∀ (count done : Nat) (s : BundleQueue),
      (findRecentIter env fuel count done s).result = findRecentLoop env fuel count s := by
  induction fuel with
  | zero =>
    intro count done s
    rfl
  | succ n ih =>
    intro count done s
    unfold findRecentIter findRecentLoop
    cases hq : s.recentSearchQueue with
    | nil => rfl
    | cons b rest =>
      simp only
      cases hnext : (if env.checkRecent b = true then
          some { checkRecent env { s with recentSearchQueue := rest } b with
            recentSearchQueue := rest ++ [b] }
          else addSearchPrio (checkRecent env { s with recentSearchQueue := rest } b) b) with
      | none => rfl
      | some s2 =>
        simp only
        split_ifs
        · rfl
        · rfl
        · exact ih (count + 1) (done + 1) s2

theorem addSearchPrio_recent_of_not_recent {s t : BundleQueue} {b : BundlePtr}
    (h : addSearchPrio s b = some t) (hr : (s.heap b).recent = false) :
    t.recentSearchQueue = s.recentSearchQueue := by
  unfold addSearchPrio at h
  simp only [hr, Bool.false_eq_true, if_false] at h
  split_ifs at h <;> simp at h <;> subst h <;> rfl

theorem findRecentIter_within (env : SearchEnv) (fuel : Nat) :
    ∀ (count done : Nat) (s : BundleQueue), count ≤ s.recentSearchQueue.length →
      s.recentSearchQueue.length - count + 1 ≤ fuel →
      (findRecentIter env fuel count done s).within
        (done + (s.recentSearchQueue.length - count + 1)) := by
  induction fuel with
  | zero =>
    intro count done s _ h2
    omega
  | succ n ih =>
    intro count done s h1 h2
    unfold findRecentIter
    cases hq : s.recentSearchQueue with
    | nil =>
      simp only [RecentOutcome.within, RecentOutcome.iterations]
      omega
    | cons b rest =>
      simp only
      cases hnext : (if env.checkRecent b = true then
          some { checkRecent env { s with recentSearchQueue := rest } b with
            recentSearchQueue := rest ++ [b] }
          else addSearchPrio (checkRecent env { s with recentSearchQueue := rest } b) b) with
      | none =>
        simp only [RecentOutcome.within, RecentOutcome.iterations]
        omega
      | some s2 =>
        have hlen : s2.recentSearchQueue.length ≤ (b :: rest).length := by
          split_ifs at hnext with hc
          · simp at hnext
            subst hnext
            simp
          · have hflag : ((checkRecent env { s with recentSearchQueue := rest } b).heap b).recent
                = false := by
              simp only [checkRecent, Function.update_same]
              simpa using hc
            rw [addSearchPrio_recent_of_not_recent hnext hflag]
            simp [checkRecent]
        rw [hq] at h1 h2
        simp only
        split_ifs with ha hc
        · simp only [RecentOutcome.within, RecentOutcome.iterations]
          omega
        · simp only [RecentOutcome.within, RecentOutcome.iterations]
          omega
        · have hlt : count < s2.recentSearchQueue.length := Nat.lt_of_not_le hc
          have := ih (count + 1) (done + 1) s2 (by omega) (by omega)
          unfold RecentOutcome.within at this ⊢
          cases hres : (findRecentIter env n (count + 1) (done + 1) s2).iterations with
          | none => rw [hres] at this; exact this
          | some k =>
            rw [hres] at this
            simp only at this ⊢
            omega

/-- Counterexample to claim C13: a recent queue of length `1` whose bundle stays recent and is
not searchable; the loop of `findRecent` makes `2` iterations before it returns no bundle. -/
theorem findRecent_two_iterations :
    exampleRecentOne.recentSearchQueue = [1] ∧
      (findRecentOutcome exampleEnvIdle exampleRecentOne).iterations = some 2 ∧
      (findRecent exampleEnvIdle exampleRecentOne).map (fun r => r.1) = some none := by
  decide

/-- Claim C13, amended. For every state, with a recent queue of length `n`, and every
assignment of recency and searchability, the loop of `findRecent` ends after at most `n + 1`
iterations (pops of the queue front), and after none when `n = 0`; the run that counts the
iterations is the run of `findRecent`. -/
theorem findRecent_iterations_le (env : SearchEnv) (s : BundleQueue) :
    (findRecentOutcome env s).within (s.recentSearchQueue.length + 1) ∧
      (s.recentSearchQueue.length = 0 → (findRecentOutcome env s).iterations = some 0) ∧
      (findRecentOutcome env s).result = findRecent env s := by
  unfold findRecentOutcome findRecent
  split_ifs with h0
  · refine ⟨?_, fun _ => rfl, rfl⟩
    simp [RecentOutcome.within, RecentOutcome.iterations]
  · refine ⟨?_, fun h => absurd h h0, findRecentIter_result env _ 0 0 s⟩
    have := findRecentIter_within env (s.recentSearchQueue.length + 1) 0 0 s (by omega) (by omega)
    simpa using this

end dcpp

namespace dcpp

/-! ## Scenario S1 -/

/-- Counterexample to claim C19: both bundles are registered, with distinct tokens, the one
with target `/a/b/c/d` first in the token map; `getMergeBundle("/a/b/c")` returns that bundle,
not the one with target `/a/b`. -/
theorem getMergeBundle_S1_returns_descendant :
    exampleS1Reversed.bundles = [("B", 1), ("A", 0)] ∧
      (exampleS1Reversed.heap 1).target = "/a/b/c/d" ∧
      (exampleS1Reversed.heap 0).target = "/a/b" ∧
      (exampleS1Reversed.heap 1).fileBundle = false ∧
      (exampleS1Reversed.heap 0).fileBundle = false ∧
      getMergeBundle specPathUtil exampleS1Reversed "/a/b/c" = some 1 := by
  decide

/-- Claim C19, amended (scenario S1). In a registry that holds exactly two directory bundles,
one with target `/a/b` and one with target `/a/b/c/d`, whatever their tokens,
`getMergeBundle("/a/b/c")` returns the bundle that comes first in the iteration order of the
token map: both qualify, `/a/b` as an ancestor and `/a/b/c/d` as a descendant. -/
theorem getMergeBundle_S1 (s : BundleQueue) (ta tb : String) (pa pb : BundlePtr)
    (hb : s.bundles = [(ta, pa), (tb, pb)])
    (hda : (s.heap pa).fileBundle = false) (hdb : (s.heap pb).fileBundle = false)
    (ht : ((s.heap pa).target = "/a/b" ∧ (s.heap pb).target = "/a/b/c/d") ∨
      ((s.heap pa).target = "/a/b/c/d" ∧ (s.heap pb).target = "/a/b")) :
    getMergeBundle specPathUtil s "/a/b/c" = some pa ∧
      isMergeCandidate specPathUtil s "/a/b/c" (tb, pb) = true := by
  have h1 : specPathUtil.isSub "/a/b/c" "/a/b" = true := by decide
  have h2 : specPathUtil.isParentOrExact "/a/b/c" "/a/b/c/d" = true := by decide
  rcases ht with ⟨e1, e2⟩ | ⟨e1, e2⟩
  · constructor
    · simp [getMergeBundle, hb, isMergeCandidate, hda, e1, h1]
    · simp [isMergeCandidate, hdb, e2, h2]
  · constructor
    · simp [getMergeBundle, hb, isMergeCandidate, hda, e1, h2]
    · simp [isMergeCandidate, hdb, e2, h1]

/-- Witness for claim C19: the bundle with target `/a/b` added first. -/
theorem getMergeBundle_S1_witness :
    (exampleS1.bundles = [("A", 0), ("B", 1)] ∧
      (exampleS1.heap 0).fileBundle = false ∧ (exampleS1.heap 1).fileBundle = false ∧
      (((exampleS1.heap 0).target = "/a/b" ∧ (exampleS1.heap 1).target = "/a/b/c/d") ∨
        ((exampleS1.heap 0).target = "/a/b/c/d" ∧ (exampleS1.heap 1).target = "/a/b"))) ∧
    (getMergeBundle specPathUtil exampleS1 "/a/b/c" = some 0 ∧
      isMergeCandidate specPathUtil exampleS1 "/a/b/c" ("B", 1) = true) :=
  ⟨⟨by decide, by decide, by decide, Or.inl ⟨by decide, by decide⟩⟩,
    getMergeBundle_S1 exampleS1 "A" "B" 0 1 (by decide) (by decide) (by decide)
      (Or.inl ⟨by decide, by decide⟩)⟩

end dcpp

namespace dcpp

/-! ## Claims about getInfo -/

theorem getInfoLoop_spec (U : PathUtil) (I : InfoEnv) (s : BundleQueue) (aSource : String)
    (l : List (String × BundlePtr)) :
    ∀ (retBundles : List BundlePtr) (fileBundles : Int) (tmpBundle : Option BundlePtr),
      (getInfoLoop U I s aSource l retBundles fileBundles tmpBundle).1
          = retBundles ++ (parentMatchesBeforeStop U I s aSource l).map (fun e => e.2)
            ++ ((l.find? (isSubFolderMatch U I s aSource)).map (fun e => e.2)).toList ∧
        (getInfoLoop U I s aSource l retBundles fileBundles tmpBundle).2.1
          = fileBundles + (((parentMatchesBeforeStop U I s aSource l).filter
              (fun e => (s.heap e.2).fileBundle)).length : Nat) := by
  induction l with
  | nil =>
    intro retBundles fileBundles tmpBundle
    simp [getInfoLoop, parentMatchesBeforeStop]
  | cons e rest ih =>
    intro retBundles fileBundles tmpBundle
    obtain ⟨token, b⟩ := e
    unfold getInfoLoop
    by_cases hfin : I.isFinished b = true
    · have hsub : isSubFolderMatch U I s aSource (token, b) = false := by
        simp [isSubFolderMatch, hfin]
      have hpar : isParentMatch U I s aSource (token, b) = false := by
        simp [isParentMatch, hfin]
      obtain ⟨i1, i2⟩ := ih retBundles fileBundles (some b)
      rw [if_pos hfin, i1, i2]
      simp [parentMatchesBeforeStop, List.takeWhile_cons, List.find?_cons, hsub, hpar,
        List.filter_cons]
    · have hfin2 : I.isFinished b = false := by simpa using hfin
      by_cases hpe : U.isParentOrExact aSource (s.heap b).target = true
      · have hsub : isSubFolderMatch U I s aSource (token, b) = false := by
          simp [isSubFolderMatch, hpe]
        have hpar : isParentMatch U I s aSource (token, b) = true := by
          simp [isParentMatch, hfin2, hpe]
        obtain ⟨i1, i2⟩ := ih (retBundles ++ [b])
          (if (s.heap b).fileBundle then fileBundles + 1 else fileBundles) (some b)
        rw [if_neg hfin, if_pos hpe, i1, i2]
        constructor
        · simp [parentMatchesBeforeStop, List.takeWhile_cons, List.find?_cons, hsub, hpar,
            List.filter_cons]
        · by_cases hfile : (s.heap b).fileBundle = true
          · simp [parentMatchesBeforeStop, List.takeWhile_cons, hsub, hpar, List.filter_cons,
              hfile]
            ring
          · simp [parentMatchesBeforeStop, List.takeWhile_cons, hsub, hpar, List.filter_cons,
              hfile]
      · have hpe2 : U.isParentOrExact aSource (s.heap b).target = false := by simpa using hpe
        have hpar : isParentMatch U I s aSource (token, b) = false := by
          simp [isParentMatch, hpe2]
        by_cases hstop : (!(s.heap b).fileBundle && U.isSub aSource (s.heap b).target) = true
        · have hsub : isSubFolderMatch U I s aSource (token, b) = true := by
            simp only [Bool.and_eq_true, Bool.not_eq_true'] at hstop
            simp [isSubFolderMatch, hfin2, hpe2, hstop.1, hstop.2]
          rw [if_neg hfin, if_neg hpe, if_pos hstop]
          simp [parentMatchesBeforeStop, List.takeWhile_cons, List.find?_cons, hsub]
        · have hsub : isSubFolderMatch U I s aSource (token, b) = false := by
            simp only [Bool.and_eq_true, Bool.not_eq_true', not_and] at hstop
            simp only [isSubFolderMatch, hfin2, hpe2, Bool.not_false, Bool.true_and]
            cases hfb : (s.heap b).fileBundle with
            | true => simp
            | false => simpa using hstop hfb
          obtain ⟨i1, i2⟩ := ih retBundles fileBundles (some b)
          rw [if_neg hfin, if_neg hpe, if_neg hstop, i1, i2]
          simp [parentMatchesBeforeStop, List.takeWhile_cons, List.find?_cons, hsub, hpar,
            List.filter_cons]

/-- Counterexample to claim C16: source `/a/b`, one directory bundle inside it (`/a/b/c`) and
one directory bundle that strictly contains it (`/a`). With `/a/b/c` first in the token map the
list holds both bundles; with `/a` first it holds `/a` alone although there is a
parent-or-exact match. -/
theorem getInfo_mixes_matches :
    (exampleInfo.bundles.filter (isParentMatch specPathUtil exampleInfoEnv exampleInfo "/a/b")
        = [("A", 0)]) ∧
      (exampleInfo.bundles.filter (isSubFolderMatch specPathUtil exampleInfoEnv exampleInfo "/a/b")
        = [("B", 1)]) ∧
      (getInfo specPathUtil exampleInfoEnv exampleInfo "/a/b" [] 0 0).1 = [0, 1] ∧
      (getInfo specPathUtil exampleInfoEnv exampleInfoReversed "/a/b" [] 0 0).1 = [1] := by
  decide

/-- Claim C16, amended. The bundle list produced by `getInfo` is, appended to the list passed
in, the non-finished parent-or-exact matches that the iteration over the token map meets before
the first non-finished directory bundle whose target strictly contains the source (all of them
when there is no such bundle), followed by that bundle when there is one; and
`fileBundles` is raised by the number of file bundles in that list. -/
theorem getInfo_list (U : PathUtil) (I : InfoEnv) (s : BundleQueue) (aSource : String)
    (retBundles : List BundlePtr) (finishedFiles fileBundles : Int) :
    (getInfo U I s aSource retBundles finishedFiles fileBundles).1
        = retBundles ++ (parentMatchesBeforeStop U I s aSource s.bundles).map (fun e => e.2)
          ++ ((s.bundles.find? (isSubFolderMatch U I s aSource)).map (fun e => e.2)).toList ∧
      (getInfo U I s aSource retBundles finishedFiles fileBundles).2.2
        = fileBundles +
          ((((parentMatchesBeforeStop U I s aSource s.bundles).map (fun e => e.2)
            ++ ((s.bundles.find? (isSubFolderMatch U I s aSource)).map (fun e => e.2)).toList
            ).filter (fun b => (s.heap b).fileBundle)).length : Nat) := by
  obtain ⟨h1, h2⟩ := getInfoLoop_spec U I s aSource s.bundles retBundles fileBundles none
  refine ⟨h1, ?_⟩
  show (getInfoLoop U I s aSource s.bundles retBundles fileBundles none).2.1 = _
  rw [h2]
  have hstop : ((s.bundles.find? (isSubFolderMatch U I s aSource)).map
      (fun e => e.2)).toList.filter (fun b => (s.heap b).fileBundle) = [] := by
    cases hf : s.bundles.find? (isSubFolderMatch U I s aSource) with
    | none => simp
    | some e =>
      have := List.find?_some hf
      simp only [isSubFolderMatch, Bool.and_eq_true, Bool.not_eq_true'] at this
      simp [this.1.2]
  rw [List.filter_append, hstop, List.append_nil, List.filter_map, List.length_map]
  rfl

end dcpp

namespace dcpp

/-! ## Claims about findRemoteDir -/

theorem rfindChar_split (sep : Char) (l : List Char) :
    (match rfindChar sep l with
      | some pos => l.drop (pos + 1)
      | none => l) = ((splitOnChar sep l).getLast?).getD [] ∧
      (rfindChar sep l = none → splitOnChar sep l = [l]) ∧
      ((∃ pos, rfindChar sep l = some pos) → ∃ a b t, splitOnChar sep l = a :: b :: t) := by
  induction l with
  | nil => simp [rfindChar, splitOnChar]
  | cons x xs ih =>
    obtain ⟨ih1, ih2, ih3⟩ := ih
    cases hr : rfindChar sep xs with
    | some i =>
      obtain ⟨a, b, t, hs⟩ := ih3 ⟨i, hr⟩
      rw [hr] at ih1
      simp only at ih1
      have hr2 : rfindChar sep (x :: xs) = some (i + 1) := by simp [rfindChar, hr]
      rw [hr2]
      by_cases hx : x = sep
      · have hsplit : splitOnChar sep (x :: xs) = [] :: a :: b :: t := by
          simp [splitOnChar, hx, hs]
        refine ⟨?_, by simp, fun _ => ⟨_, _, _, hsplit⟩⟩
        rw [hsplit, List.getLast?_cons_cons, ← hs, ← ih1]
        simp
      · have hsplit : splitOnChar sep (x :: xs) = (x :: a) :: b :: t := by
          simp [splitOnChar, hx, hs]
        refine ⟨?_, by simp, fun _ => ⟨_, _, _, hsplit⟩⟩
        rw [hsplit, List.getLast?_cons_cons]
        have : (b :: t).getLast? = (a :: b :: t).getLast? := List.getLast?_cons_cons.symm
        rw [this, ← hs, ← ih1]
        simp
    | none =>
      have hs := ih2 hr
      by_cases hx : x = sep
      · have hr2 : rfindChar sep (x :: xs) = some 0 := by simp [rfindChar, hr, hx]
        have hsplit : splitOnChar sep (x :: xs) = [[], xs] := by
          simp [splitOnChar, hx, hs]
        rw [hr2]
        refine ⟨?_, by simp, fun _ => ⟨_, _, _, hsplit⟩⟩
        rw [hsplit]
        simp
      · have hr2 : rfindChar sep (x :: xs) = none := by simp [rfindChar, hr, hx]
        have hsplit : splitOnChar sep (x :: xs) = [x :: xs] := by
          simp [splitOnChar, hx, hs]
        rw [hr2]
        refine ⟨?_, fun _ => hsplit, ?_⟩
        · rw [hsplit]
          simp
        · rintro ⟨pos, hpos⟩
          simp at hpos

theorem remoteLastDir_eq (R : RemoteDirUtil) (aDir : List Char) :
    (remoteLastDir R aDir).1 = lastSegment R.PATH_SEPARATOR aDir := by
  have hstrip : (if aDir[aDir.length - 1]? = some R.PATH_SEPARATOR
      then aDir.take (aDir.length - 1) else aDir) = stripTrailingSeparator R.PATH_SEPARATOR aDir := by
    unfold stripTrailingSeparator
    rw [List.getLast?_eq_getElem?, List.dropLast_eq_take]
  unfold remoteLastDir lastSegment
  simp only [hstrip]
  have h := (rfindChar_split R.PATH_SEPARATOR
    (stripTrailingSeparator R.PATH_SEPARATOR aDir)).1
  cases hr : rfindChar R.PATH_SEPARATOR (stripTrailingSeparator R.PATH_SEPARATOR aDir) with
  | none =>
    rw [hr] at h
    exact h
  | some pos =>
    rw [hr] at h
    exact h

theorem filter_head_find (l : List (String × (String × BundlePtr)))
    (p : String × (String × BundlePtr) → Bool) :
    (l.filter p).head? = l.find? p := by
  induction l with
  | nil => rfl
  | cons e rest ih =>
    by_cases hp : p e = true
    · simp [List.filter_cons, List.find?_cons, hp]
    · simp [List.filter_cons, List.find?_cons, hp, ih]

/-- Claim C15. For a remote path of length at least `3` whose last segment (one trailing
separator stripped) does not match the sub-directory pattern, `findRemoteDir` returns the first
entry (full path, bundle) that the path index holds under that last segment, and it returns the
empty pair exactly when the index holds no entry under that segment. -/
theorem findRemoteDir_plain (R : RemoteDirUtil) (s : BundleQueue) (aDir : String)
    (hlen : 3 ≤ aDir.length)
    (hplain : R.subDirRegPlain (String.mk (lastSegment R.PATH_SEPARATOR aDir.toList)) = false) :
    findRemoteDir R s aDir
        = some ((s.bundleDirs.find?
            (fun e => e.1 == String.mk (lastSegment R.PATH_SEPARATOR aDir.toList))).map
              (fun e => e.2)) ∧
      (findRemoteDir R s aDir = some none ↔
        ∀ e ∈ s.bundleDirs, e.1 ≠ String.mk (lastSegment R.PATH_SEPARATOR aDir.toList)) := by
  have hmain : findRemoteDir R s aDir
      = some ((s.bundleDirs.find?
          (fun e => e.1 == String.mk (lastSegment R.PATH_SEPARATOR aDir.toList))).map
            (fun e => e.2)) := by
    unfold findRemoteDir
    rw [if_neg (by omega)]
    simp only [remoteLastDir_eq]
    have hh := filter_head_find s.bundleDirs
      (fun e => e.1 == String.mk (lastSegment R.PATH_SEPARATOR aDir.toList))
    cases hf : s.bundleDirs.filter
        (fun e => e.1 == String.mk (lastSegment R.PATH_SEPARATOR aDir.toList)) with
    | nil =>
      rw [hf] at hh
      simp only [List.head?_nil] at hh
      rw [← hh]
      rfl
    | cons first more =>
      rw [hf] at hh
      simp only [List.head?_cons] at hh
      rw [← hh]
      simp only [hplain, Bool.false_eq_true, if_false]
      cases (remoteLastDir R aDir.toList).2 <;> rfl
  refine ⟨hmain, ?_⟩
  rw [hmain]
  constructor
  · intro h e he
    have hnone : s.bundleDirs.find?
        (fun e => e.1 == String.mk (lastSegment R.PATH_SEPARATOR aDir.toList)) = none := by
      cases hf : s.bundleDirs.find?
          (fun e => e.1 == String.mk (lastSegment R.PATH_SEPARATOR aDir.toList)) with
      | none => rfl
      | some x => rw [hf] at h; simp at h
    have := List.find?_eq_none.mp hnone e he
    simpa using this
  · intro h
    have hnone : s.bundleDirs.find?
        (fun e => e.1 == String.mk (lastSegment R.PATH_SEPARATOR aDir.toList)) = none := by
      apply List.find?_eq_none.mpr
      intro e he
      simpa using h e he
    rw [hnone]
    rfl

/-- Witness for claim C15: the remote path `/share/b/` against the index of scenario S1, which
holds `/a/b` under `b` and `/a/b/c/d` under `d`; the entry of `/a/b` is returned. -/
theorem findRemoteDir_plain_witness :
    (3 ≤ "/share/b/".length ∧
      exampleRemoteUtil.subDirRegPlain
        (String.mk (lastSegment exampleRemoteUtil.PATH_SEPARATOR "/share/b/".toList)) = false ∧
      String.mk (lastSegment exampleRemoteUtil.PATH_SEPARATOR "/share/b/".toList) = "b" ∧
      findRemoteDir exampleRemoteUtil exampleS1 "/share/b/" = some (some ("/a/b", 0))) ∧
    (findRemoteDir exampleRemoteUtil exampleS1 "/share/b/"
        = some ((exampleS1.bundleDirs.find?
            (fun e => e.1 == String.mk
              (lastSegment exampleRemoteUtil.PATH_SEPARATOR "/share/b/".toList))).map
              (fun e => e.2)) ∧
      (findRemoteDir exampleRemoteUtil exampleS1 "/share/b/" = some none ↔
        ∀ e ∈ exampleS1.bundleDirs,
          e.1 ≠ String.mk (lastSegment exampleRemoteUtil.PATH_SEPARATOR "/share/b/".toList))) :=
  ⟨⟨by decide, by decide, by decide, by decide⟩,
    findRemoteDir_plain exampleRemoteUtil exampleS1 "/share/b/" (by decide) (by decide)⟩

end dcpp

namespace dcpp

/-! ## The path index is kept consistent -/

theorem mapAssign_unused (m : List (String × BundlePtr)) (k : String) (v : BundlePtr)
    (h : ∀ e ∈ m, e.1 ≠ k) : mapAssign m k v = m ++ [(k, v)] := by
  induction m with
  | nil => rfl
  | cons e rest ih =>
    obtain ⟨k1, v1⟩ := e
    have hk : k1 ≠ k := h (k1, v1) (List.mem_cons_self _ _)
    have hrest := ih (fun e he => h e (List.mem_cons_of_mem _ he))
    simp [mapAssign, hk, hrest]

theorem mem_eraseP_unique {α : Type} (q : α → Bool) (l : List α) (hn : l.Nodup)
    (hu : ∀ x ∈ l, ∀ y ∈ l, q x = true → q y = true → x = y) (e : α) :
    e ∈ l.eraseP q ↔ e ∈ l ∧ q e = false := by
  induction l with
  | nil => simp
  | cons a rest ih =>
    have hn2 := List.nodup_cons.mp hn
    have ih2 := ih hn2.2 (fun x hx y hy => hu x (List.mem_cons_of_mem _ hx) y
      (List.mem_cons_of_mem _ hy))
    by_cases hq : q a = true
    · rw [List.eraseP_cons_of_pos hq]
      constructor
      · intro he
        refine ⟨List.mem_cons_of_mem _ he, ?_⟩
        cases hqe : q e with
        | false => rfl
        | true =>
          have := hu e (List.mem_cons_of_mem _ he) a (List.mem_cons_self _ _) hqe hq
          subst this
          exact absurd he hn2.1
      · rintro ⟨he, hqe⟩
        rcases List.mem_cons.mp he with h1 | h1
        · subst h1
          rw [hq] at hqe
          exact Bool.noConfusion hqe
        · exact h1
    · rw [List.eraseP_cons_of_neg hq, List.mem_cons, List.mem_cons, ih2]
      constructor
      · rintro (h1 | ⟨h1, h2⟩)
        · subst h1
          exact ⟨Or.inl rfl, by simpa using hq⟩
        · exact ⟨Or.inr h1, h2⟩
      · rintro ⟨h1 | h1, h2⟩
        · exact Or.inl h1
        · exact Or.inr ⟨h1, h2⟩

theorem rootEntry_congr (U : PathUtil) (h1 h2 : BundlePtr → Bundle)
    (l : List (String × BundlePtr)) (h : ∀ e ∈ l, (h1 e.2).target = (h2 e.2).target) :
    l.map (rootEntry U h1) = l.map (rootEntry U h2) := by
  apply List.map_congr_left
  intro e he
  simp [rootEntry, h e he]

theorem unsetNew_fields (s : BundleQueue) (b x : BundlePtr) :
    ((unsetNew s b).heap x).token = (s.heap x).token ∧
      ((unsetNew s b).heap x).target = (s.heap x).target ∧
      ((unsetNew s b).heap x).fileBundle = (s.heap x).fileBundle ∧
      ((unsetNew s b).heap x).priority = (s.heap x).priority ∧
      ((unsetNew s b).heap x).recent = (s.heap x).recent := by
  by_cases hx : x = b
  · subst hx
    simp [unsetNew]
  · simp [unsetNew, Function.update_noteq hx]

theorem addSearchPrio_queued {s t : BundleQueue} {b : BundlePtr}
    (h : addSearchPrio s b = some t) (x : BundlePtr)
    (hx : x ∈ t.recentSearchQueue ∨ ∃ p, x ∈ t.prioSearchQueue p) :
    x = b ∨ (x ∈ s.recentSearchQueue ∨ ∃ p, x ∈ s.prioSearchQueue p) := by
  unfold addSearchPrio at h
  simp only at h
  split_ifs at h with h1 h2 h3 h4
  · simp at h
    subst h
    exact Or.inr hx
  · simp at h
    subst h
    rcases hx with hx | hx
    · simp only [List.mem_append, List.mem_singleton] at hx
      rcases hx with hx | hx
      · exact Or.inr (Or.inl hx)
      · exact Or.inl hx
    · exact Or.inr (Or.inr hx)
  · simp at h
    subst h
    rcases hx with hx | ⟨p, hx⟩
    · exact Or.inr (Or.inl hx)
    · simp only at hx
      by_cases hp : p = (s.heap b).priority
      · subst hp
        rw [Function.update_same] at hx
        simp only [List.mem_append, List.mem_singleton] at hx
        rcases hx with hx | hx
        · exact Or.inr (Or.inr ⟨_, hx⟩)
        · exact Or.inl hx
      · rw [Function.update_noteq hp] at hx
        exact Or.inr (Or.inr ⟨p, hx⟩)

theorem addSearchPrio_of_absent (s : BundleQueue) (b : BundlePtr)
    (hr : b ∉ s.recentSearchQueue) (hp : b ∉ s.prioSearchQueue (s.heap b).priority) :
    ∃ t, addSearchPrio s b = some t := by
  unfold addSearchPrio
  simp only
  split_ifs
  · exact ⟨_, rfl⟩
  · exact ⟨_, rfl⟩
  · exact ⟨_, rfl⟩

theorem removeSearchPrio_queued (s : BundleQueue) (b x : BundlePtr)
    (hx : x ∈ (removeSearchPrio s b).recentSearchQueue ∨
      ∃ p, x ∈ (removeSearchPrio s b).prioSearchQueue p) :
    x ∈ s.recentSearchQueue ∨ ∃ p, x ∈ s.prioSearchQueue p := by
  unfold removeSearchPrio at hx
  simp only at hx
  split_ifs at hx with h1 h2
  · exact hx
  · rcases hx with hx | hx
    · exact Or.inl (List.mem_of_mem_erase hx)
    · exact Or.inr hx
  · rcases hx with hx | ⟨p, hx⟩
    · exact Or.inl hx
    · simp only at hx
      by_cases hp : p = (s.heap b).priority
      · subst hp
        rw [Function.update_same] at hx
        exact Or.inr ⟨_, List.mem_of_mem_erase hx⟩
      · rw [Function.update_noteq hp] at hx
        exact Or.inr ⟨p, hx⟩

theorem IndexInv.at_start (U : PathUtil) (heap : BundlePtr → Bundle) :
    IndexInv U (BundleQueue.empty heap) := by
  constructor
  · exact SchedInv.empty heap
  · intro b hb
    simp [BundleQueue.empty] at hb
  · intro e he
    simp [BundleQueue.empty] at he
  · simp [BundleQueue.empty]
  · intro e
    simp [BundleQueue.empty, rootEntries]
  · simp [BundleQueue.empty]

theorem IndexInv.value_inj {U : PathUtil} {s : BundleQueue} (hs : IndexInv U s)
    {x y : String × BundlePtr} (hx : x ∈ s.bundles) (hy : y ∈ s.bundles) (h : x.2 = y.2) :
    x = y := by
  have h1 := (hs.keys x hx).1
  have h2 := (hs.keys y hy).1
  rw [h] at h1
  exact Prod.ext (h1.symm.trans h2) h

theorem IndexInv.entry_inj {U : PathUtil} {s : BundleQueue} (hs : IndexInv U s)
    {x y : String × (String × BundlePtr)} (hx : x ∈ s.bundleDirs) (hy : y ∈ s.bundleDirs)
    (h : x.2.1 = y.2.1) : x = y :=
  List.inj_on_of_nodup_map hs.paths_nodup hx hy h

theorem IndexInv.erase_mem {U : PathUtil} {s : BundleQueue} (hs : IndexInv U s) (p : String)
    (e : String × (String × BundlePtr)) :
    e ∈ s.bundleDirs.eraseP (isLocalDir U p) ↔ e ∈ s.bundleDirs ∧ e.2.1 ≠ p := by
  rw [mem_eraseP_unique (isLocalDir U p) s.bundleDirs (List.Nodup.of_map _ hs.paths_nodup)]
  · constructor
    · rintro ⟨he, hq⟩
      refine ⟨he, ?_⟩
      intro hp
      obtain ⟨x, _, hx⟩ := List.mem_map.mp ((hs.mem_iff e).mp he)
      subst hx
      simp only [rootEntry] at hp
      simp [isLocalDir, rootEntry, hp] at hq
    · rintro ⟨he, hp⟩
      refine ⟨he, ?_⟩
      simp [isLocalDir, hp]
  · intro x hx y hy hqx hqy
    simp only [isLocalDir, Bool.and_eq_true, beq_iff_eq] at hqx hqy
    exact hs.entry_inj hx hy (hqx.2.trans hqy.2.symm)

end dcpp

namespace dcpp

theorem addBundle_index {U : PathUtil} {s : BundleQueue} {b : BundlePtr} (hs : IndexInv U s)
    (hadm : admissible s (Op.addBundle b) = true) :
    ∃ t, addBundle U s b = some t ∧ IndexInv U t := by
  have hadm1 : (!(s.heap b).fileBundle && tokenUnused s b &&
      pathUnused s (s.heap b).target) = true := hadm
  rw [Bool.and_eq_true, Bool.and_eq_true, Bool.not_eq_true'] at hadm1
  obtain ⟨⟨hfile, htok0⟩, hpath0⟩ := hadm1
  have htok : ∀ e ∈ s.bundles, e.1 ≠ (s.heap b).token := by
    intro e he
    unfold tokenUnused at htok0
    rw [List.all_eq_true] at htok0
    simpa using htok0 e he
  have hpath : ∀ e ∈ s.bundleDirs, e.2.1 ≠ (s.heap b).target := by
    intro e he
    unfold pathUnused at hpath0
    rw [List.all_eq_true] at hpath0
    simpa using hpath0 e he
  have hnq : ¬ (b ∈ s.recentSearchQueue ∨ ∃ p, b ∈ s.prioSearchQueue p) :=
    fun hq => htok _ (hs.queued b hq) rfl
  obtain ⟨s1, h1⟩ := addSearchPrio_of_absent (unsetNew s b) b (fun h => hnq (Or.inl h))
    (fun h => hnq (Or.inr ⟨_, h⟩))
  obtain ⟨e1, e2, e3⟩ := addSearchPrio_heap h1
  have hf := unsetNew_fields s b
  have hfile1 : (s1.heap b).fileBundle = false := by rw [e1, (hf b).2.2.1]; exact hfile
  have htok1 : (s1.heap b).token = (s.heap b).token := by rw [e1]; exact (hf b).1
  have htar1 : (s1.heap b).target = (s.heap b).target := by rw [e1]; exact (hf b).2.1
  have h0 : SchedInv (unsetNew s b) :=
    hs.sched.congr (fun x => (hf x).2.2.2.1) (fun x => (hf x).2.2.2.2) rfl rfl
  have hnone : ∀ s2 : BundleQueue, s2.bundleDirs = s.bundleDirs →
      (findLocalDir U s2 (s1.heap b).target).isNone = true := by
    intro s2 h2
    unfold findLocalDir
    rw [h2, htar1, Option.isNone_iff_eq_none, List.find?_eq_none]
    intro e he
    simp [isLocalDir, hpath e he]
  have hgoal : ∀ t : BundleQueue, t.heap = s1.heap →
      t.bundles = mapAssign s1.bundles (s1.heap b).token b →
      t.bundleDirs = s1.bundleDirs ++ [(U.getLastDir (s1.heap b).target, ((s1.heap b).target, b))] →
      t.prioSearchQueue = s1.prioSearchQueue → t.recentSearchQueue = s1.recentSearchQueue →
      IndexInv U t := by
    intro t ht hm hdirs hpq hrq
    have hb : t.bundles = s.bundles ++ [((s.heap b).token, b)] := by
      rw [hm, htok1, e2]
      exact mapAssign_unused s.bundles _ _ htok
    have hd : t.bundleDirs = s.bundleDirs ++ [rootEntry U s.heap ((s.heap b).token, b)] := by
      rw [hdirs, htar1, e3]
      rfl
    have hheap : ∀ x, (t.heap x).token = (s.heap x).token ∧
        (t.heap x).target = (s.heap x).target ∧
        (t.heap x).fileBundle = (s.heap x).fileBundle := by
      intro x
      rw [ht, e1]
      exact ⟨(hf x).1, (hf x).2.1, (hf x).2.2.1⟩
    constructor
    · exact (addSearchPrio_inv h0 h1).congr (fun x => by rw [ht]) (fun x => by rw [ht]) hpq hrq
    · intro x hx
      rw [hpq, hrq] at hx
      rw [hb, (hheap x).1]
      rcases addSearchPrio_queued h1 x hx with hxb | hq
      · rw [hxb]
        simp
      · exact List.mem_append_left _ (hs.queued x hq)
    · intro e he
      rw [hb] at he
      rcases List.mem_append.mp he with h | h
      · exact ⟨by rw [(hheap e.2).1]; exact (hs.keys e h).1,
          by rw [(hheap e.2).2.2]; exact (hs.keys e h).2⟩
      · rw [List.mem_singleton] at h
        subst h
        exact ⟨(hheap b).1, (hheap b).2.2.trans hfile⟩
    · rw [hb, List.map_append, List.nodup_append]
      refine ⟨hs.keys_nodup, by simp, ?_⟩
      intro k hk hk2
      simp only [List.map_cons, List.map_nil, List.mem_singleton] at hk2
      obtain ⟨e, he, hek⟩ := List.mem_map.mp hk
      exact htok e he (hek.trans hk2)
    · intro e
      have hre : rootEntries U t
          = rootEntries U s ++ [rootEntry U s.heap ((s.heap b).token, b)] := by
        unfold rootEntries
        rw [hb, List.map_append,
          rootEntry_congr U t.heap s.heap s.bundles (fun e _ => (hheap e.2).2.1)]
        simp [rootEntry, (hheap b).2.1]
      rw [hre, hd, List.mem_append, List.mem_append, hs.mem_iff e]
    · rw [hd, List.map_append, List.nodup_append]
      refine ⟨hs.paths_nodup, by simp, ?_⟩
      intro p hp hp2
      simp only [List.map_cons, List.map_nil, List.mem_singleton, rootEntry] at hp2
      obtain ⟨e, he, hep⟩ := List.mem_map.mp hp
      exact hpath e he (hep.trans hp2)
  unfold addBundle
  rw [h1]
  simp only
  split_ifs with c1 c2
  · exact ⟨_, rfl, hgoal _ rfl rfl rfl rfl rfl⟩
  · exact absurd (hnone _ e3) c2
  · rw [hfile1] at c1
    simp at c1

theorem moveBundle_index {U : PathUtil} {s : BundleQueue} {b : BundlePtr} {newTarget : String}
    (hs : IndexInv U s) (hadm : admissible s (Op.moveBundle b newTarget) = true) :
    IndexInv U (moveBundle U s b newTarget) := by
  have hadm1 : (isRegistered s b && pathUnused s newTarget) = true := hadm
  rw [Bool.and_eq_true] at hadm1
  obtain ⟨hreg0, hpath0⟩ := hadm1
  have hreg : ((s.heap b).token, b) ∈ s.bundles := by
    unfold isRegistered at hreg0
    rw [List.any_eq_true] at hreg0
    obtain ⟨x, hx, hxe⟩ := hreg0
    simp only [Bool.and_eq_true, beq_iff_eq] at hxe
    rw [← hxe.1, ← hxe.2]
    exact hx
  have hpath : ∀ e ∈ s.bundleDirs, e.2.1 ≠ newTarget := by
    intro e he
    unfold pathUnused at hpath0
    rw [List.all_eq_true] at hpath0
    simpa using hpath0 e he
  have hgoal : ∀ t : BundleQueue,
      t.heap = Function.update s.heap b { s.heap b with target := newTarget } →
      t.bundles = s.bundles →
      t.bundleDirs = s.bundleDirs.eraseP (isLocalDir U (s.heap b).target)
        ++ [(U.getLastDir newTarget, (newTarget, b))] →
      t.prioSearchQueue = s.prioSearchQueue → t.recentSearchQueue = s.recentSearchQueue →
      IndexInv U t := by
    intro t ht hb hd hpq hrq
    have hheap : ∀ x, (t.heap x).token = (s.heap x).token ∧
        (t.heap x).fileBundle = (s.heap x).fileBundle ∧
        (t.heap x).priority = (s.heap x).priority ∧
        (t.heap x).recent = (s.heap x).recent := by
      intro x
      rw [ht]
      by_cases hx : x = b
      · subst hx
        simp
      · simp [Function.update_noteq hx]
    have htne : ∀ x, x ≠ b → (t.heap x).target = (s.heap x).target := by
      intro x hx
      rw [ht, Function.update_noteq hx]
    have htb : (t.heap b).target = newTarget := by
      rw [ht]
      simp
    have hbm : rootEntry U s.heap ((s.heap b).token, b) ∈ s.bundleDirs :=
      (hs.mem_iff _).mpr (List.mem_map_of_mem _ hreg)
    constructor
    · exact hs.sched.congr (fun x => (hheap x).2.2.1) (fun x => (hheap x).2.2.2) hpq hrq
    · intro x hx
      rw [hpq, hrq] at hx
      rw [hb, (hheap x).1]
      exact hs.queued x hx
    · intro e he
      rw [hb] at he
      exact ⟨by rw [(hheap e.2).1]; exact (hs.keys e he).1,
        by rw [(hheap e.2).2.1]; exact (hs.keys e he).2⟩
    · rw [hb]
      exact hs.keys_nodup
    · intro e
      unfold rootEntries
      rw [hd, hb, List.mem_append, hs.erase_mem, List.mem_singleton, List.mem_map]
      constructor
      · rintro (⟨he, hp⟩ | he)
        · obtain ⟨x, hx, hxe⟩ := List.mem_map.mp ((hs.mem_iff e).mp he)
          have hxb : x.2 ≠ b := by
            intro hxb
            apply hp
            rw [← hxe]
            simp [rootEntry, hxb]
          refine ⟨x, hx, ?_⟩
          rw [← hxe]
          simp [rootEntry, htne x.2 hxb]
        · refine ⟨((s.heap b).token, b), hreg, ?_⟩
          rw [he]
          simp [rootEntry, htb]
      · rintro ⟨x, hx, hxe⟩
        by_cases hxb : x.2 = b
        · right
          rw [← hxe]
          simp [rootEntry, hxb, htb]
        · left
          have hes : rootEntry U s.heap x = e := by
            rw [← hxe]
            simp [rootEntry, htne x.2 hxb]
          have hmem : e ∈ s.bundleDirs :=
            (hs.mem_iff e).mpr (by rw [← hes]; exact List.mem_map_of_mem _ hx)
          refine ⟨hmem, ?_⟩
          intro hp
          have heq := hs.entry_inj hmem hbm hp
          rw [← hes] at heq
          exact hxb (congrArg (fun z => z.2.2) heq)
    · rw [hd, List.map_append, List.nodup_append]
      refine ⟨List.Nodup.sublist ((List.eraseP_sublist _).map _) hs.paths_nodup, by simp, ?_⟩
      intro p hp hp2
      simp only [List.map_cons, List.map_nil, List.mem_singleton] at hp2
      obtain ⟨e, he, hep⟩ := List.mem_map.mp hp
      exact hpath e (List.mem_of_mem_eraseP he) (hep.trans hp2)
  exact hgoal _ rfl rfl rfl rfl rfl

end dcpp

namespace dcpp

theorem removeSearchPrio_frame (s : BundleQueue) (b : BundlePtr) :
    (removeSearchPrio s b).heap = s.heap ∧ (removeSearchPrio s b).bundles = s.bundles ∧
      (removeSearchPrio s b).bundleDirs = s.bundleDirs := by
  unfold removeSearchPrio
  simp only
  split_ifs <;> simp

theorem removeBundle_index {U : PathUtil} {s : BundleQueue} {b : BundlePtr} (hs : IndexInv U s)
    (hadm : admissible s (Op.removeBundle b) = true) :
    ∃ t, removeBundle U s b = some t ∧ IndexInv U t := by
  have hadm1 : (isRegistered s b && (s.heap b).bundleDirs == [(s.heap b).target] &&
      (s.heap b).queueItems == [] && (s.heap b).finishedFiles == []) = true := hadm
  rw [Bool.and_eq_true, Bool.and_eq_true, Bool.and_eq_true] at hadm1
  obtain ⟨⟨⟨hreg0, hdirs0⟩, hq0⟩, hf0⟩ := hadm1
  have hdirs : (s.heap b).bundleDirs = [(s.heap b).target] := eq_of_beq hdirs0
  have hq : (s.heap b).queueItems = [] := eq_of_beq hq0
  have hf : (s.heap b).finishedFiles = [] := eq_of_beq hf0
  have hreg : ((s.heap b).token, b) ∈ s.bundles := by
    unfold isRegistered at hreg0
    rw [List.any_eq_true] at hreg0
    obtain ⟨x, hx, hxe⟩ := hreg0
    simp only [Bool.and_eq_true, beq_iff_eq] at hxe
    rw [← hxe.1, ← hxe.2]
    exact hx
  by_cases hnew : (s.heap b).flagNew = true
  · refine ⟨s, ?_, hs⟩
    unfold removeBundle
    simp [hnew]
  · have hs1 : SchedInv (removeDirectory U s (s.heap b).target) :=
      hs.sched.congr (fun _ => rfl) (fun _ => rfl) rfl rfl
    have habs := removeSearchPrio_absent hs1 b
    have hfr := removeSearchPrio_frame (removeDirectory U s (s.heap b).target) b
    have hbm : rootEntry U s.heap ((s.heap b).token, b) ∈ s.bundleDirs :=
      (hs.mem_iff _).mpr (List.mem_map_of_mem _ hreg)
    have hkey : ∀ x ∈ s.bundles, x.1 = (s.heap b).token → x = ((s.heap b).token, b) :=
      fun x hx hxk => List.inj_on_of_nodup_map hs.keys_nodup hx hreg hxk
    have hgoal : ∀ t : BundleQueue, t.heap = s.heap →
        t.bundles = mapErase s.bundles (s.heap b).token →
        t.bundleDirs = s.bundleDirs.eraseP (isLocalDir U (s.heap b).target) →
        t.prioSearchQueue
          = (removeSearchPrio (removeDirectory U s (s.heap b).target) b).prioSearchQueue →
        t.recentSearchQueue
          = (removeSearchPrio (removeDirectory U s (s.heap b).target) b).recentSearchQueue →
        IndexInv U t := by
      intro t ht hb hd hpq hrq
      have hmemb : ∀ x, x ∈ t.bundles ↔ x ∈ s.bundles ∧ x.1 ≠ (s.heap b).token := by
        intro x
        rw [hb]
        unfold mapErase
        rw [List.mem_filter]
        simp
      constructor
      · exact (removeSearchPrio_inv b hs1).congr (fun x => by rw [ht, hfr.1]; rfl)
          (fun x => by rw [ht, hfr.1]; rfl) hpq hrq
      · intro x hx
        rw [hpq, hrq] at hx
        have hx1 := removeSearchPrio_queued (removeDirectory U s (s.heap b).target) b x hx
        have hxb : x ≠ b := by
          intro hxb
          rw [hxb] at hx
          rcases hx with hx | ⟨p, hx⟩
          · exact habs.2 hx
          · exact habs.1 p hx
        have hmx : ((s.heap x).token, x) ∈ s.bundles := hs.queued x hx1
        rw [ht, hmemb]
        refine ⟨hmx, ?_⟩
        intro hk
        exact hxb (congrArg Prod.snd (hkey _ hmx hk))
      · intro e he
        rw [ht]
        exact hs.keys e ((hmemb e).mp he).1
      · rw [hb]
        exact List.Nodup.sublist ((List.filter_sublist _).map _) hs.keys_nodup
      · intro e
        unfold rootEntries
        rw [hd, ht, hs.erase_mem, List.mem_map]
        constructor
        · rintro ⟨he, hp⟩
          obtain ⟨x, hx, hxe⟩ := List.mem_map.mp ((hs.mem_iff e).mp he)
          refine ⟨x, (hmemb x).mpr ⟨hx, ?_⟩, hxe⟩
          intro hk
          apply hp
          rw [← hxe, hkey x hx hk]
          rfl
        · rintro ⟨x, hx, hxe⟩
          have hx1 := (hmemb x).mp hx
          have hmem : e ∈ s.bundleDirs :=
            (hs.mem_iff e).mpr (by rw [← hxe]; exact List.mem_map_of_mem _ hx1.1)
          refine ⟨hmem, ?_⟩
          intro hp
          have heq := hs.entry_inj hmem hbm hp
          rw [← hxe] at heq
          have hxb : x.2 = b := congrArg (fun z => z.2.2) heq
          have := hs.value_inj hx1.1 hreg hxb
          exact hx1.2 (congrArg Prod.fst this)
      · rw [hd]
        exact List.Nodup.sublist ((List.eraseP_sublist _).map _) hs.paths_nodup
    cases h : removeBundle U s b with
    | none =>
      unfold removeBundle at h
      simp [hnew, hq, hf] at h
    | some t =>
      unfold removeBundle at h
      simp [hnew, hq, hf, hdirs] at h
      subst h
      exact ⟨_, rfl, hgoal _ hfr.1 (by rw [hfr.2.1]; rfl) hfr.2.2 rfl rfl⟩

theorem disciplined_run (U : PathUtil) (ops : List Op) :
    ∀ s, IndexInv U s → disciplined U ops s = true →
      ∃ t, run U ops s = some t ∧ IndexInv U t := by
  induction ops with
  | nil =>
    intro s hs _
    exact ⟨s, rfl, hs⟩
  | cons op ops ih =>
    intro s hs hd
    simp only [disciplined, Bool.and_eq_true] at hd
    obtain ⟨hadm, hrest⟩ := hd
    have hstep : ∃ s1, step U s op = some s1 ∧ IndexInv U s1 := by
      cases op with
      | addBundle b => exact addBundle_index hs hadm
      | removeBundle b => exact removeBundle_index hs hadm
      | moveBundle b n => exact ⟨_, rfl, moveBundle_index hs hadm⟩
      | addSearchPrio b => simp [admissible] at hadm
      | removeSearchPrio b => simp [admissible] at hadm
      | findSearchBundle env a f => simp [admissible] at hadm
    obtain ⟨s1, h1, hs1⟩ := hstep
    rw [h1] at hrest
    obtain ⟨t, ht, hti⟩ := ih s1 hs1 hrest
    refine ⟨t, ?_, hti⟩
    simp only [run, h1]
    exact ht

theorem IndexInv.perm {U : PathUtil} {s : BundleQueue} (hs : IndexInv U s) :
    s.bundleDirs.Perm (rootEntries U s) := by
  rw [List.perm_ext_iff_of_nodup (List.Nodup.of_map _ hs.paths_nodup)]
  · exact hs.mem_iff
  · unfold rootEntries
    apply List.Nodup.map_on
    · intro x hx y hy hxy
      exact hs.value_inj hx hy (congrArg (fun z => z.2.2) hxy)
    · exact List.Nodup.of_map _ hs.keys_nodup

/-- Claim C11 as stated does not hold. Two directory bundles with different tokens and the same
target are added to an empty registry: the second `addBundle` finds the path in the index and
adds nothing, so the index holds one entry where the rule asks for two, whether or not roots of
file bundles count. A file bundle gets no entry from `addBundle` and one from `moveBundle`, so
its root is missing after the first call if roots of file bundles count, and an entry is left
over after the second if they do not. -/
theorem index_misses_shared_target :
    ((run exampleUtil [Op.addBundle 0, Op.addBundle 1]
        (BundleQueue.empty exampleHeapIndex)).map indexEntries = some [("/x/", 0)] ∧
      (run exampleUtil [Op.addBundle 0, Op.addBundle 1]
        (BundleQueue.empty exampleHeapIndex)).map (expectedEntries (fun _ => "") true)
          = some [("/x/", 0), ("/x/", 1)] ∧
      (run exampleUtil [Op.addBundle 0, Op.addBundle 1]
        (BundleQueue.empty exampleHeapIndex)).map (expectedEntries (fun _ => "") false)
          = some [("/x/", 0), ("/x/", 1)]) ∧
    ((run exampleUtil [Op.addBundle 2]
        (BundleQueue.empty exampleHeapIndex)).map indexEntries = some [] ∧
      (run exampleUtil [Op.addBundle 2]
        (BundleQueue.empty exampleHeapIndex)).map (expectedEntries (fun _ => "") true)
          = some [("/f.bin", 2)] ∧
      (run exampleUtil [Op.addBundle 2, Op.moveBundle 2 "/g.bin"]
        (BundleQueue.empty exampleHeapIndex)).map indexEntries = some [("/g.bin", 2)] ∧
      (run exampleUtil [Op.addBundle 2, Op.moveBundle 2 "/g.bin"]
        (BundleQueue.empty exampleHeapIndex)).map (expectedEntries (fun _ => "") false)
          = some []) := by
  decide

end dcpp

namespace dcpp

/-- Claim C11, amended. Take a sequence of `addBundle`, `moveBundle` and `removeBundle` calls
from the empty registry in which every added bundle is a directory bundle whose token and target
are not in use, every moved bundle is registered and goes to a path that is not in use, and
every removed bundle is registered, has no items and lists exactly its target as its own
directories. Then the sequence completes, every registered bundle is a directory bundle, and the
path index holds, up to order, exactly one entry (target, bundle) under the last segment of the
target for each registered bundle. In any state, `addBundleItem` and `addFinishedItem` append
the entry (file path of the item, bundle) when the bundle reports a new directory and is a
directory bundle, `removeBundleItem` (when not finishing) and `removeFinishedItem` erase the
first entry with the file path of the item when the bundle reports a directory gone and is a
directory bundle, and otherwise these four calls leave the path index as it is. -/
theorem index_consistent (U : PathUtil) (B : BundleItems) (heap : BundlePtr → Bundle)
    (ops : List Op) (h : disciplined U ops (BundleQueue.empty heap) = true) :
    (∃ t, run U ops (BundleQueue.empty heap) = some t ∧ t.bundleDirs.Perm (rootEntries U t) ∧
      ∀ e ∈ t.bundles, (t.heap e.2).fileBundle = false) ∧
    (∀ s qi b, (addBundleItem U B s qi b).bundleDirs =
      if (B.addQueue (s.heap b) qi).1 = true ∧ (B.addQueue (s.heap b) qi).2.fileBundle = false
      then s.bundleDirs ++ [(U.getLastDir (B.getFilePath qi), (B.getFilePath qi, b))]
      else s.bundleDirs) ∧
    (∀ s qi b, (addFinishedItem U B s qi b).bundleDirs =
      if (B.addFinishedItem (s.heap b) qi).1 = true ∧
        (B.addFinishedItem (s.heap b) qi).2.fileBundle = false
      then s.bundleDirs ++ [(U.getLastDir (B.getFilePath qi), (B.getFilePath qi, b))]
      else s.bundleDirs) ∧
    (∀ s qi finished, (removeBundleItem U B s qi finished).bundleDirs =
      if (B.removeQueue (s.heap (B.getBundle qi)) qi finished).1 = true ∧ finished = false ∧
        (B.removeQueue (s.heap (B.getBundle qi)) qi finished).2.fileBundle = false
      then s.bundleDirs.eraseP (isLocalDir U (B.getFilePath qi))
      else s.bundleDirs) ∧
    (∀ s qi, (removeFinishedItem U B s qi).bundleDirs =
      if (B.removeFinishedItem (s.heap (B.getBundle qi)) qi).1 = true ∧
        (B.removeFinishedItem (s.heap (B.getBundle qi)) qi).2.fileBundle = false
      then s.bundleDirs.eraseP (isLocalDir U (B.getFilePath qi))
      else s.bundleDirs) := by
  refine ⟨?_, ?_, ?_, ?_, ?_⟩
  · obtain ⟨t, ht, hti⟩ := disciplined_run U ops _ (IndexInv.at_start U heap) h
    exact ⟨t, ht, hti.perm, fun e he => (hti.keys e he).2⟩
  · intro s qi b
    simp only [addBundleItem, addDirectory, Function.update_same, Bool.and_eq_true,
      Bool.not_eq_true']
    split_ifs <;> rfl
  · intro s qi b
    simp only [addFinishedItem, addDirectory, Function.update_same, Bool.and_eq_true,
      Bool.not_eq_true']
    split_ifs <;> rfl
  · intro s qi finished
    simp only [removeBundleItem, removeDirectory, Function.update_same, Bool.and_eq_true,
      Bool.not_eq_true', and_assoc]
    split_ifs <;> rfl
  · intro s qi
    simp only [removeFinishedItem, removeDirectory, Function.update_same, Bool.and_eq_true,
      Bool.not_eq_true']
    split_ifs <;> rfl

/-- Witness for claim C11: bundles `0` and `3` are added, `0` is moved to `/z/` and `3` is
removed; the index then holds the one entry of bundle `0`. -/
theorem index_consistent_witness :
    (disciplined exampleUtil exampleIndexOps (BundleQueue.empty exampleHeapIndex) = true ∧
      (run exampleUtil exampleIndexOps (BundleQueue.empty exampleHeapIndex)).map indexEntries
        = some [("/z/", 0)]) ∧
    ((∃ t, run exampleUtil exampleIndexOps (BundleQueue.empty exampleHeapIndex) = some t ∧
        t.bundleDirs.Perm (rootEntries exampleUtil t) ∧
        ∀ e ∈ t.bundles, (t.heap e.2).fileBundle = false) ∧
      (∀ s qi b, (addBundleItem exampleUtil exampleItems s qi b).bundleDirs =
        if (exampleItems.addQueue (s.heap b) qi).1 = true ∧
          (exampleItems.addQueue (s.heap b) qi).2.fileBundle = false
        then s.bundleDirs ++
          [(exampleUtil.getLastDir (exampleItems.getFilePath qi), (exampleItems.getFilePath qi, b))]
        else s.bundleDirs) ∧
      (∀ s qi b, (addFinishedItem exampleUtil exampleItems s qi b).bundleDirs =
        if (exampleItems.addFinishedItem (s.heap b) qi).1 = true ∧
          (exampleItems.addFinishedItem (s.heap b) qi).2.fileBundle = false
        then s.bundleDirs ++
          [(exampleUtil.getLastDir (exampleItems.getFilePath qi), (exampleItems.getFilePath qi, b))]
        else s.bundleDirs) ∧
      (∀ s qi finished, (removeBundleItem exampleUtil exampleItems s qi finished).bundleDirs =
        if (exampleItems.removeQueue (s.heap (exampleItems.getBundle qi)) qi finished).1 = true ∧
          finished = false ∧
          (exampleItems.removeQueue (s.heap (exampleItems.getBundle qi)) qi finished).2.fileBundle
            = false
        then s.bundleDirs.eraseP (isLocalDir exampleUtil (exampleItems.getFilePath qi))
        else s.bundleDirs) ∧
      (∀ s qi, (removeFinishedItem exampleUtil exampleItems s qi).bundleDirs =
        if (exampleItems.removeFinishedItem (s.heap (exampleItems.getBundle qi)) qi).1 = true ∧
          (exampleItems.removeFinishedItem (s.heap (exampleItems.getBundle qi)) qi).2.fileBundle
            = false
        then s.bundleDirs.eraseP (isLocalDir exampleUtil (exampleItems.getFilePath qi))
        else s.bundleDirs)) :=
  ⟨⟨by decide, by decide⟩,
    index_consistent exampleUtil exampleItems exampleHeapIndex exampleIndexOps (by decide)⟩

end dcpp

namespace dcpp

/-! ## Claims about the weights and the band of a pick -/

theorem getPrioSumDo_eq (env : SearchEnv) (s : BundleQueue) :
    getPrioSumDo env s = some (getPrioSum env s) := by
  rw [getPrioSum_eq]
  simp [getPrioSumDo, getPrioSumLoop, LOW, LAST, Nat.add_assoc]

/-- Claim C23. For every state, the loop of `getPrioSum` ends and builds a weight vector with
exactly `LAST - LOW` entries, whose entry `p - LOW`, for each priority `p` from `LOW` up to
`LAST` (excluded), is `p - 1` times the number of searchable bundles in the priority queue `p`;
it returns the sum of those numbers over these priorities. -/
theorem getPrioSum_weights (env : SearchEnv) (s : BundleQueue) :
    ∃ w n, getPrioSumDo env s = some (w, n) ∧ w.length = LAST - LOW ∧
      (∀ p, LOW ≤ p → p < LAST →
        w[p - LOW]? = some ((p - 1) * (s.prioSearchQueue p).countP env.allowAutoSearch)) ∧
      n = ((List.range' LOW (LAST - LOW)).map
        (fun p => (s.prioSearchQueue p).countP env.allowAutoSearch)).sum := by
  refine ⟨(getPrioSum env s).1, (getPrioSum env s).2, getPrioSumDo_eq env s, ?_, ?_, ?_⟩
  · rw [getPrioSum_eq]
    rfl
  · intro p h1 h2
    unfold LOW at h1
    unfold LAST at h2
    have hsplit : p = 2 ∨ p = 3 ∨ p = 4 ∨ p = 5 := by omega
    rw [getPrioSum_eq]
    rcases hsplit with e | e | e | e <;> subst e <;> simp [LOW]
  · rfl

end dcpp

namespace dcpp

theorem findAutoSearch_of_find (env : SearchEnv) (s : BundleQueue) (b : BundlePtr)
    (hcount : (getPrioSum env s).2 ≠ 0)
    (hf : (s.prioSearchQueue (env.draw + 2)).find? env.allowAutoSearch = some b) :
    ∃ t, findAutoSearch env s = some (some b, t) ∧
      t.prioSearchQueue (env.draw + 2)
        = (s.prioSearchQueue (env.draw + 2)).eraseP env.allowAutoSearch ++ [b] ∧
      (∀ p, p ≠ env.draw + 2 → t.prioSearchQueue p = s.prioSearchQueue p) ∧
      t.recentSearchQueue = s.recentSearchQueue ∧ t.heap = s.heap := by
  have hne : s.prioSearchQueue (env.draw + 2) ≠ [] :=
    List.ne_nil_of_mem (List.mem_of_find?_eq_some hf)
  unfold findAutoSearch
  simp only [hcount, hf, if_false, hne]
  refine ⟨_, rfl, ?_, ?_, rfl, rfl⟩
  · simp only [Function.update_same]
  · intro p hp
    simp only [Function.update_noteq hp]

theorem prioSum_ne_zero_of_band (env : SearchEnv) (s : BundleQueue)
    (hd : env.draw < LAST - LOW)
    (hpos : 0 < (s.prioSearchQueue (env.draw + 2)).countP env.allowAutoSearch) :
    (getPrioSum env s).2 ≠ 0 := by
  rw [getPrioSum_eq]
  simp only
  unfold LAST LOW at hd
  have hsplit : env.draw = 0 ∨ env.draw = 1 ∨ env.draw = 2 ∨ env.draw = 3 := by omega
  rcases hsplit with e | e | e | e <;> rw [e] at hpos <;> simp only [Nat.reduceAdd] at hpos <;>
    omega

theorem weights_zero_iff (c2 c3 c4 c5 : Nat) :
    c2 + (c3 + (c4 + (c5 + 0))) = 0 ↔ ∀ w ∈ [1 * c2, 2 * c3, 3 * c4, 4 * c5], w = 0 := by
  constructor
  · intro h w hw
    have h2 : c2 = 0 := by omega
    have h3 : c3 = 0 := by omega
    have h4 : c4 = 0 := by omega
    have h5 : c5 = 0 := by omega
    subst h2 h3 h4 h5
    simpa using hw
  · intro h
    have h2 := h (1 * c2) (by simp)
    have h3 := h (2 * c3) (by simp)
    have h4 := h (3 * c4) (by simp)
    have h5 := h (4 * c5) (by simp)
    omega

theorem prioSum_zero_iff (env : SearchEnv) (s : BundleQueue) :
    (getPrioSum env s).2 = 0 ↔ ∀ w ∈ (getPrioSum env s).1, w = 0 := by
  rw [getPrioSum_eq]
  exact weights_zero_iff _ _ _ _

/-- Counterexample to claim C24: bundles of priority `LOW`, `HIGH` and `HIGHEST`, all
searchable. With the draw `0` the pick takes the bundle of priority `LOW` and leaves the queue
of priority `LOW + 0 + 2 = HIGH` as it is; with the draw `3` it takes the bundle of priority
`HIGHEST`, though `LOW + 3 + 2` is no priority at all. -/
theorem findAutoSearch_draw_is_offset :
    exampleBands.prioSearchQueue LOW = [0] ∧ LOW + 0 + 2 = HIGH ∧
      exampleBands.prioSearchQueue HIGH = [1] ∧ exampleBands.prioSearchQueue HIGHEST = [2] ∧
      (findAutoSearch (exampleEnvDraw 0) exampleBands).map (fun r => r.1) = some (some 0) ∧
      (findAutoSearch (exampleEnvDraw 0) exampleBands).map
        (fun r => r.2.prioSearchQueue HIGH) = some [1] ∧
      (findAutoSearch (exampleEnvDraw 3) exampleBands).map (fun r => r.1) = some (some 2) ∧
      LAST ≤ LOW + 3 + 2 := by
  decide

/-- Claim C24, amended. For every draw `d`, `findAutoSearch` searches the priority band
`p = LOW + d` (the index `d + 2` of the queue array): when no band holds a searchable bundle it
returns no bundle and changes nothing; otherwise, when the band `LOW + d` is empty, the call
stops at its assertion; otherwise it returns the first searchable bundle of the band `LOW + d`,
if there is one, and leaves every other band and the recent queue as they are, the band itself
keeping its bundles. -/
theorem findAutoSearch_band (env : SearchEnv) (s : BundleQueue) :
    ((getPrioSum env s).2 = 0 ∧ findAutoSearch env s = some (none, s)) ∨
    ((getPrioSum env s).2 ≠ 0 ∧ s.prioSearchQueue (LOW + env.draw) = [] ∧
      findAutoSearch env s = none) ∨
    ((getPrioSum env s).2 ≠ 0 ∧ s.prioSearchQueue (LOW + env.draw) ≠ [] ∧
      ∃ t, findAutoSearch env s
          = some ((s.prioSearchQueue (LOW + env.draw)).find? env.allowAutoSearch, t) ∧
        (∀ p, p ≠ LOW + env.draw → t.prioSearchQueue p = s.prioSearchQueue p) ∧
        (t.prioSearchQueue (LOW + env.draw)).Perm (s.prioSearchQueue (LOW + env.draw)) ∧
        t.recentSearchQueue = s.recentSearchQueue) := by
  have hband : LOW + env.draw = env.draw + 2 := by
    unfold LOW
    omega
  rw [hband]
  by_cases hcount : (getPrioSum env s).2 = 0
  · left
    refine ⟨hcount, ?_⟩
    unfold findAutoSearch
    simp [hcount]
  · right
    by_cases hne : s.prioSearchQueue (env.draw + 2) = []
    · left
      refine ⟨hcount, hne, ?_⟩
      unfold findAutoSearch
      simp [hcount, hne]
    · right
      refine ⟨hcount, hne, ?_⟩
      cases hf : (s.prioSearchQueue (env.draw + 2)).find? env.allowAutoSearch with
      | none =>
        refine ⟨s, ?_, fun _ _ => rfl, List.Perm.refl _, rfl⟩
        unfold findAutoSearch
        simp [hcount, hne, hf]
      | some b =>
        obtain ⟨t, ht, h1, h2, h3, _⟩ := findAutoSearch_of_find env s b hcount hf
        refine ⟨t, ht, h2, ?_, h3⟩
        rw [h1]
        exact rotate_perm env.allowAutoSearch _ b hf

/-- Claim C25. For every state and every draw `d` below `LAST - LOW` whose band (the queue
`d + 2`) holds a searchable bundle `b` behind bundles `l1` that are not searchable and before
bundles `l2`, `findAutoSearch` returns `b`; afterwards the band is `l1`, `l2`, then `b`, and
every other band, the recent queue and the bundles are unchanged. -/
theorem findAutoSearch_rotates (env : SearchEnv) (s : BundleQueue) (l1 l2 : List BundlePtr)
    (b : BundlePtr) (hd : env.draw < LAST - LOW)
    (hband : s.prioSearchQueue (env.draw + 2) = l1 ++ b :: l2)
    (hl1 : ∀ x ∈ l1, env.allowAutoSearch x = false) (hb : env.allowAutoSearch b = true) :
    ∃ t, findAutoSearch env s = some (some b, t) ∧
      t.prioSearchQueue (env.draw + 2) = l1 ++ l2 ++ [b] ∧
      (∀ p, p ≠ env.draw + 2 → t.prioSearchQueue p = s.prioSearchQueue p) ∧
      t.recentSearchQueue = s.recentSearchQueue ∧ t.heap = s.heap := by
  have hnot : ∀ x ∈ l1, ¬ env.allowAutoSearch x = true := by
    intro x hx
    rw [hl1 x hx]
    exact Bool.false_ne_true
  have hf : (s.prioSearchQueue (env.draw + 2)).find? env.allowAutoSearch = some b := by
    rw [hband, List.find?_append, List.find?_eq_none.mpr hnot]
    simp [hb]
  have hpos : 0 < (s.prioSearchQueue (env.draw + 2)).countP env.allowAutoSearch :=
    List.countP_pos_iff.mpr ⟨b, List.mem_of_find?_eq_some hf, hb⟩
  obtain ⟨t, ht, h1, h2, h3, h4⟩ :=
    findAutoSearch_of_find env s b (prioSum_ne_zero_of_band env s hd hpos) hf
  refine ⟨t, ht, ?_, h2, h3, h4⟩
  rw [h1, hband, List.eraseP_append_right _ hnot, List.eraseP_cons_of_pos hb]

/-- Witness for claim C25, scenario S2: bundles of priority `LOW`, `HIGH` and `HIGHEST`, all
searchable, and the draw `0`: the bundle of priority `LOW` is returned. -/
theorem findAutoSearch_rotates_witness :
    ((exampleEnvDraw 0).draw < LAST - LOW ∧
      exampleBands.prioSearchQueue ((exampleEnvDraw 0).draw + 2) = [] ++ 0 :: [] ∧
      (exampleBands.heap 0).priority = LOW ∧ (exampleBands.heap 1).priority = HIGH ∧
      (exampleBands.heap 2).priority = HIGHEST ∧
      (getPrioSum (exampleEnvDraw 0) exampleBands).1 = [1, 0, 3, 4]) ∧
    ∃ t, findAutoSearch (exampleEnvDraw 0) exampleBands = some (some 0, t) ∧
      t.prioSearchQueue ((exampleEnvDraw 0).draw + 2) = [] ++ [] ++ [0] ∧
      (∀ p, p ≠ (exampleEnvDraw 0).draw + 2 →
        t.prioSearchQueue p = exampleBands.prioSearchQueue p) ∧
      t.recentSearchQueue = exampleBands.recentSearchQueue ∧ t.heap = exampleBands.heap :=
  ⟨⟨by decide, by decide, by decide, by decide, by decide, by decide⟩,
    findAutoSearch_rotates (exampleEnvDraw 0) exampleBands [] [] 0 (by decide) (by decide)
      (by simp) (by decide)⟩

/-- Claim C28. The number that `getPrioSum` returns is zero exactly when every weight is zero.
When the drawn index has a positive weight, the drawn band `draw + 2` is a priority from `LOW`
up to `LAST` (excluded) and holds a searchable bundle, and `findAutoSearch` returns a
searchable bundle of that band: it does not reach its final `return nullptr`. -/
theorem findAutoSearch_returns (env : SearchEnv) (s : BundleQueue)
    (hdraw : 0 < (getPrioSum env s).1.getD env.draw 0) :
    ((getPrioSum env s).2 = 0 ↔ ∀ w ∈ (getPrioSum env s).1, w = 0) ∧
      LOW ≤ env.draw + 2 ∧ env.draw + 2 < LAST ∧
      (∃ x ∈ s.prioSearchQueue (env.draw + 2), env.allowAutoSearch x = true) ∧
      ∃ b t, findAutoSearch env s = some (some b, t) ∧ env.allowAutoSearch b = true ∧
        b ∈ s.prioSearchQueue (env.draw + 2) := by
  have hpos := (drawn_band_searchable env s hdraw).1
  have hd : env.draw < LAST - LOW := by
    rw [getPrioSum_eq] at hdraw
    unfold LAST LOW
    rcases weight_pos_cases _ _ _ _ _ hdraw with h | h | h | h <;> omega
  obtain ⟨a, hamem, haallow⟩ := List.countP_pos_iff.mp hpos
  refine ⟨prioSum_zero_iff env s, ?_, ?_, ⟨a, hamem, haallow⟩, ?_⟩
  · unfold LOW
    omega
  · unfold LAST LOW at *
    omega
  · cases hf : (s.prioSearchQueue (env.draw + 2)).find? env.allowAutoSearch with
    | none => exact absurd haallow (List.find?_eq_none.mp hf a hamem)
    | some b =>
      obtain ⟨t, ht, _⟩ :=
        findAutoSearch_of_find env s b (prioSum_ne_zero_of_band env s hd hpos) hf
      exact ⟨b, t, ht, List.find?_some hf, List.mem_of_find?_eq_some hf⟩

/-- Witness for claim C28: bundles of priority `LOW`, `HIGH` and `HIGHEST`, all searchable, and
the draw `2`, whose weight is `3`. -/
theorem findAutoSearch_returns_witness :
    0 < (getPrioSum (exampleEnvDraw 2) exampleBands).1.getD (exampleEnvDraw 2).draw 0 ∧
    (((getPrioSum (exampleEnvDraw 2) exampleBands).2 = 0 ↔
        ∀ w ∈ (getPrioSum (exampleEnvDraw 2) exampleBands).1, w = 0) ∧
      LOW ≤ (exampleEnvDraw 2).draw + 2 ∧ (exampleEnvDraw 2).draw + 2 < LAST ∧
      (∃ x ∈ exampleBands.prioSearchQueue ((exampleEnvDraw 2).draw + 2),
        (exampleEnvDraw 2).allowAutoSearch x = true) ∧
      ∃ b t, findAutoSearch (exampleEnvDraw 2) exampleBands = some (some b, t) ∧
        (exampleEnvDraw 2).allowAutoSearch b = true ∧
        b ∈ exampleBands.prioSearchQueue ((exampleEnvDraw 2).draw + 2)) :=
  ⟨by decide, findAutoSearch_returns (exampleEnvDraw 2) exampleBands (by decide)⟩

end dcpp

namespace dcpp

/-! ## Claims about the run of findRecent -/

theorem findRecentTrace_result (env : SearchEnv) (fuel : Nat) :
    ∀ (count : Nat) (s : BundleQueue),
      recentResult (findRecentTrace env fuel count s) = findRecentLoop env fuel count s := by
  induction fuel with
  | zero =>
    intro count s
    rfl
  | succ n ih =>
    intro count s
    unfold findRecentTrace findRecentLoop
    cases hq : s.recentSearchQueue with
    | nil => rfl
    | cons b rest =>
      simp only
      cases hnext : (if env.checkRecent b = true then
          some { checkRecent env { s with recentSearchQueue := rest } b with
            recentSearchQueue := rest ++ [b] }
        else addSearchPrio (checkRecent env { s with recentSearchQueue := rest } b) b) with
      | none => rfl
      | some s2 =>
        simp only
        split_ifs with ha hc
        · rfl
        · rfl
        · rw [← ih (count + 1) s2]
          cases findRecentTrace env n (count + 1) s2 with
          | error e => rfl
          | ok r => rfl

theorem findRecentRun_result (env : SearchEnv) (s : BundleQueue) :
    recentResult (findRecentRun env s) = findRecent env s := by
  unfold findRecentRun findRecent
  split_ifs with h0
  · rfl
  · exact findRecentTrace_result env _ 0 s

theorem addSearchPrio_not_recent {s t : BundleQueue} {b : BundlePtr}
    (h : addSearchPrio s b = some t) (hr : (s.heap b).recent = false) :
    t.recentSearchQueue = s.recentSearchQueue := by
  unfold addSearchPrio at h
  simp only [hr, Bool.false_eq_true, if_false] at h
  split_ifs at h <;> simp at h <;> subst h <;> rfl

theorem requeue_length (env : SearchEnv) (s s2 : BundleQueue) (b : BundlePtr)
    (rest : List BundlePtr)
    (h : (if env.checkRecent b = true then
          some { checkRecent env { s with recentSearchQueue := rest } b with
            recentSearchQueue := rest ++ [b] }
        else addSearchPrio (checkRecent env { s with recentSearchQueue := rest } b) b)
      = some s2) :
    s2.recentSearchQueue = (if env.checkRecent b = true then rest ++ [b] else rest) := by
  by_cases hc : env.checkRecent b = true
  · rw [if_pos hc] at h ⊢
    simp at h
    subst h
    rfl
  · rw [if_neg hc] at h ⊢
    have hc2 : env.checkRecent b = false := by simpa using hc
    rw [addSearchPrio_not_recent h (by simp [checkRecent, hc2])]
    rfl

theorem findRecentTrace_front (env : SearchEnv) (fuel : Nat) :
    ∀ (count : Nat) (s : BundleQueue), s.recentSearchQueue ≠ [] →
      count ≤ s.recentSearchQueue.length → s.recentSearchQueue.length + 1 ≤ fuel + count →
      findRecentTrace env fuel count s ≠ .error .emptyFront ∧
        findRecentTrace env fuel count s ≠ .error .budget := by
  induction fuel with
  | zero =>
    intro count s _ h1 h2
    omega
  | succ n ih =>
    intro count s hne h1 h2
    unfold findRecentTrace
    cases hq : s.recentSearchQueue with
    | nil => exact absurd hq hne
    | cons b rest =>
      simp only
      cases hnext : (if env.checkRecent b = true then
          some { checkRecent env { s with recentSearchQueue := rest } b with
            recentSearchQueue := rest ++ [b] }
        else addSearchPrio (checkRecent env { s with recentSearchQueue := rest } b) b) with
      | none => simp
      | some s2 =>
        simp only
        have hlen := requeue_length env s s2 b rest hnext
        have hle : s2.recentSearchQueue.length ≤ s.recentSearchQueue.length := by
          rw [hlen, hq]
          split_ifs <;> simp
        split_ifs with ha hc
        · simp
        · simp
        · have hc2 : count < s2.recentSearchQueue.length := Nat.lt_of_not_le hc
          have hne2 : s2.recentSearchQueue ≠ [] := by
            intro e
            rw [e] at hc2
            simp at hc2
          obtain ⟨i1, i2⟩ := ih (count + 1) s2 hne2 (by omega) (by omega)
          cases hr : findRecentTrace env n (count + 1) s2 with
          | error e =>
            rw [hr] at i1 i2
            simp only
            constructor
            · intro h
              apply i1
              injection h with h
              rw [h]
            · intro h
              apply i2
              injection h with h
              rw [h]
          | ok r => simp

/-- Claim C29. For every state and every assignment of recency and searchability, the run of
`findRecent` never takes the front of an empty recent queue and ends within its budget of one
iteration more than the queue has bundles: it returns, or it stops at the assertion of
`addSearchPrio`. The run is the run of `findRecent`. -/
theorem findRecent_front_nonempty (env : SearchEnv) (s : BundleQueue) :
    findRecentRun env s ≠ .error .emptyFront ∧ findRecentRun env s ≠ .error .budget ∧
      recentResult (findRecentRun env s) = findRecent env s := by
  refine ⟨?_, ?_, findRecentRun_result env s⟩
  · unfold findRecentRun
    split_ifs with h0
    · simp
    · exact (findRecentTrace_front env _ 0 s (by
        intro e
        rw [e] at h0
        simp at h0) (by omega) (by omega)).1
  · unfold findRecentRun
    split_ifs with h0
    · simp
    · exact (findRecentTrace_front env _ 0 s (by
        intro e
        rw [e] at h0
        simp at h0) (by omega) (by omega)).2

end dcpp

namespace dcpp

/-- One iteration of the loop of `findRecent` from a state in which the recent queue holds no
bundle twice and none that is also in a priority queue: the popped bundle is pushed back when it
is still recent, and goes to the back of the queue of its priority otherwise. -/
theorem requeue_conserves (env : SearchEnv) (pr : BundlePtr → Nat) (s : BundleQueue)
    (b : BundlePtr) (rest : List BundlePtr) (hpr : ∀ x, (s.heap x).priority = pr x)
    (hlow : env.checkRecent b = false → LOW ≤ pr b)
    (hfresh : env.checkRecent b = false → b ∉ s.prioSearchQueue (pr b)) :
    ∃ s2, (if env.checkRecent b = true then
          some { checkRecent env { s with recentSearchQueue := rest } b with
            recentSearchQueue := rest ++ [b] }
        else addSearchPrio (checkRecent env { s with recentSearchQueue := rest } b) b)
        = some s2 ∧
      (∀ x, (s2.heap x).priority = pr x) ∧
      s2.recentSearchQueue = (if env.checkRecent b = true then rest ++ [b] else rest) ∧
      ∀ p, s2.prioSearchQueue p
        = s.prioSearchQueue p ++ ([b].filter (fun x => !env.checkRecent x)).filter
          (fun x => pr x == p) := by
  by_cases hc : env.checkRecent b = true
  · refine ⟨_, by rw [if_pos hc], ?_, by rw [if_pos hc], ?_⟩
    · intro x
      rw [← hpr x]
      exact checkRecent_priority env _ b x
    · intro p
      simp [hc, checkRecent]
  · have hc2 : env.checkRecent b = false := by simpa using hc
    have hprb : ((checkRecent env { s with recentSearchQueue := rest } b).heap b).priority
        = pr b := by
      rw [checkRecent_priority]
      exact hpr b
    have hadd : addSearchPrio (checkRecent env { s with recentSearchQueue := rest } b) b
        = some { checkRecent env { s with recentSearchQueue := rest } b with
          prioSearchQueue := Function.update s.prioSearchQueue (pr b)
            (s.prioSearchQueue (pr b) ++ [b]) } := by
      unfold addSearchPrio
      simp only [hprb]
      rw [if_neg (Nat.not_lt.mpr (hlow hc2))]
      have hrec : ((checkRecent env { s with recentSearchQueue := rest } b).heap b).recent
          = false := by simp [checkRecent, hc2]
      rw [hrec]
      simp only [Bool.false_eq_true, if_false]
      have hnot : b ∉ (checkRecent env { s with recentSearchQueue := rest } b).prioSearchQueue
          (pr b) := hfresh hc2
      rw [if_neg hnot]
      rfl
    refine ⟨_, by rw [if_neg hc]; exact hadd, ?_, by rw [if_neg hc]; rfl, ?_⟩
    · intro x
      rw [← hpr x]
      exact checkRecent_priority env _ b x
    · intro p
      by_cases hp : p = pr b
      · subst hp
        simp [hc2]
      · have hp2 : (pr b == p) = false := by simpa using fun e => hp e.symm
        simp [hc2, Function.update_noteq hp, hp2]

end dcpp

namespace dcpp

/-- Counterexample to claim C21: the recent queue is `[0, 1, 2]`, every bundle is searchable,
bundles `0` and `2` are still recent and bundle `1` is not. `findRecent` pops bundle `0`, pushes
it back and returns it; bundle `1` is not popped, and the recent queue is `[1, 2, 0]`. -/
theorem findRecent_S4_returns_first :
    exampleS4.recentSearchQueue = [0, 1, 2] ∧
      (findRecent exampleEnvS4 exampleS4).map (fun r => r.1) = some (some 0) ∧
      (findRecent exampleEnvS4 exampleS4).map (fun r => r.2.recentSearchQueue)
        = some [1, 2, 0] ∧
      (findRecent exampleEnvS4 exampleS4).map (fun r => r.2.prioSearchQueue NORMAL)
        = some [] := by
  decide

/-- Claim C21, amended (scenario S4). The recent queue is `[A, B, C]`, `A` is still recent, and
`B` is searchable, no longer recent, of a priority of at least `LOW` and not yet in the queue of
its priority. When `A` is searchable, `findRecent` pops `A`, pushes it back and returns `A`;
afterwards the recent queue is `[B, C, A]` and the priority queues are unchanged. When `A` is
not searchable, `findRecent` pops `A` and pushes it back, pops `B` and appends it to the queue
of its priority, and returns `B`; afterwards the recent queue is `[C, A]`. -/
theorem findRecent_S4 (env : SearchEnv) (s : BundleQueue) (A B C : BundlePtr)
    (hq : s.recentSearchQueue = [A, B, C]) (hA : env.checkRecent A = true)
    (hB : env.checkRecent B = false) (hsB : env.allowAutoSearch B = true)
    (hlow : LOW ≤ (s.heap B).priority)
    (hfresh : B ∉ s.prioSearchQueue (s.heap B).priority) :
    (env.allowAutoSearch A = true →
      ∃ t, findRecent env s = some (some A, t) ∧ t.recentSearchQueue = [B, C, A] ∧
        ∀ p, t.prioSearchQueue p = s.prioSearchQueue p) ∧
    (env.allowAutoSearch A = false →
      ∃ t, findRecent env s = some (some B, t) ∧ t.recentSearchQueue = [C, A] ∧
        t.prioSearchQueue (s.heap B).priority = s.prioSearchQueue (s.heap B).priority ++ [B] ∧
        ∀ p, p ≠ (s.heap B).priority → t.prioSearchQueue p = s.prioSearchQueue p) := by
  have hA2 : ¬ env.checkRecent A = false := by simp [hA]
  obtain ⟨s2, e2, hpr2, hrec2, hprio2⟩ :=
    requeue_conserves env (fun x => (s.heap x).priority) s A [B, C] (fun _ => rfl)
      (fun h => absurd h hA2) (fun h => absurd h hA2)
  rw [if_pos hA] at hrec2
  have hprio2' : ∀ p, s2.prioSearchQueue p = s.prioSearchQueue p := by
    intro p
    rw [hprio2 p]
    simp [hA]
  have hstart : findRecent env s
      = (if env.allowAutoSearch A = true then some (some A, s2)
        else if 0 ≥ s2.recentSearchQueue.length then some (none, s2)
        else findRecentLoop env 3 1 s2) := by
    unfold findRecent
    rw [hq]
    simp only [List.length_cons, List.length_nil, Nat.reduceAdd, OfNat.ofNat_ne_zero, if_false]
    rw [findRecentLoop]
    simp only [hq]
    rw [e2]
  constructor
  · intro hsA
    rw [hstart, if_pos hsA]
    exact ⟨s2, rfl, hrec2, hprio2'⟩
  · intro hsA
    have hsA2 : ¬ env.allowAutoSearch A = true := by simp [hsA]
    have hfresh2 : B ∉ s2.prioSearchQueue (s.heap B).priority := by
      rw [hprio2']
      exact hfresh
    obtain ⟨s3, e3, _, hrec3, hprio3⟩ :=
      requeue_conserves env (fun x => (s.heap x).priority) s2 B [C, A] hpr2
        (fun _ => hlow) (fun _ => hfresh2)
    have hB2 : ¬ env.checkRecent B = true := by simp [hB]
    rw [if_neg hB2] at hrec3
    have hrec2' : s2.recentSearchQueue = [B, C, A] := hrec2
    have hnext : findRecentLoop env 3 1 s2 = some (some B, s3) := by
      rw [findRecentLoop]
      simp only [hrec2']
      rw [e3]
      simp only [hsB, if_true]
    rw [hstart, if_neg hsA2, hrec2', hnext]
    simp only [List.length_cons, List.length_nil,
      Nat.reduceAdd, ge_iff_le, Nat.le_zero_eq, OfNat.ofNat_ne_zero, if_false]
    refine ⟨s3, rfl, hrec3, ?_, ?_⟩
    · rw [hprio3, hprio2']
      simp [hB]
    · intro p hp
      rw [hprio3, hprio2']
      have hp2 : ((s.heap B).priority == p) = false := by simpa using fun e => hp e.symm
      simp [hB, hp2]

/-- Witness for claim C21: scenario S4 where bundle `0` is not searchable; bundle `1` is
returned and the recent queue is `[2, 0]`. -/
theorem findRecent_S4_witness :
    (exampleS4.recentSearchQueue = [0, 1, 2] ∧ exampleEnvS4Skip.checkRecent 0 = true ∧
      exampleEnvS4Skip.checkRecent 1 = false ∧ exampleEnvS4Skip.allowAutoSearch 1 = true ∧
      LOW ≤ (exampleS4.heap 1).priority ∧
      1 ∉ exampleS4.prioSearchQueue (exampleS4.heap 1).priority ∧
      exampleEnvS4Skip.allowAutoSearch 0 = false) ∧
    ∃ t, findRecent exampleEnvS4Skip exampleS4 = some (some 1, t) ∧
      t.recentSearchQueue = [2, 0] ∧
      t.prioSearchQueue (exampleS4.heap 1).priority
        = exampleS4.prioSearchQueue (exampleS4.heap 1).priority ++ [1] ∧
      ∀ p, p ≠ (exampleS4.heap 1).priority →
        t.prioSearchQueue p = exampleS4.prioSearchQueue p :=
  ⟨⟨by decide, by decide, by decide, by decide, by decide, by decide, by decide⟩,
    (findRecent_S4 exampleEnvS4Skip exampleS4 0 1 2 (by decide) (by decide) (by decide)
      (by decide) (by decide) (by decide)).2 (by decide)⟩

end dcpp

namespace dcpp

end dcpp

namespace dcpp

/-! ## Scenario S6 -/

/-- Claim C22 does not hold of the code. With `/` as the separator, the remote path
`/share/Movie.2020/CD1` and the local directory `/downloads/Movie.2020/CD1` registered under
`CD1`, `findRemoteDir` returns the empty pair: the walk over the parent segments looks for a
backslash, finds none and gives the candidate up. With the backslash as the separator
throughout, the same call returns the local entry, also when the parent segments differ in
case. -/
theorem findRemoteDir_S6_empty :
    findRemoteDir (caseRemoteUtil '/') (exampleRemoteIndex "CD1" "/downloads/Movie.2020/CD1")
        "/share/Movie.2020/CD1" = some none ∧
      findRemoteDir (caseRemoteUtil '\\')
        (exampleRemoteIndex "CD1" "C:\\downloads\\Movie.2020\\CD1")
        "\\share\\movie.2020\\CD1" = some (some ("C:\\downloads\\Movie.2020\\CD1", 0)) := by
  decide

end dcpp

namespace webserver

/-! ## Claims about adding and removing an item -/

/-- Claim C26 does not hold of the code. The view holds the items `1`, `2`, `3`. Removing item
`1` (position `0`) with `rangeStart = 2` erases it from both collections and leaves
`rangeStart` at `2`; removing item `3` (position `2`) with `rangeStart = 1` erases it and lowers
`rangeStart` to `0`. -/
theorem handleRemoveItem_range_start :
    (handleRemoveItem exampleViewItems 1 2).map
        (fun r => (r.1.matchingItems, r.1.allItems, r.2)) = some ([2, 3], [2, 3], 2) ∧
      (handleRemoveItem exampleViewItems 3 1).map
        (fun r => (r.1.matchingItems, r.1.allItems, r.2)) = some ([1, 2], [1, 2], 0) := by
  decide

end webserver

namespace webserver

theorem mem_setInsert (l : List Item) (a x : Item) : x ∈ setInsert l a ↔ x = a ∨ x ∈ l := by
  induction l with
  | nil => simp [setInsert]
  | cons b rest ih =>
    unfold setInsert
    split_ifs with h1 h2
    · simp
    · subst h2
      simp
    · simp only [List.mem_cons, ih]
      tauto

theorem lowerBoundAux_spec (comp : Item → Bool) (l : List Item)
    (hmono : ∀ i j, i ≤ j → j < l.length → comp (l.getD j 0) = true →
      comp (l.getD i 0) = true)
    (fuel : Nat) : ∀ first len, len ≤ fuel → first + len ≤ l.length →
      (∀ i, i < first → comp (l.getD i 0) = true) →
      (∀ i, first + len ≤ i → i < l.length → comp (l.getD i 0) = false) →
      lowerBoundAux comp l fuel first len ≤ l.length ∧
        (∀ i, i < lowerBoundAux comp l fuel first len → comp (l.getD i 0) = true) ∧
        (∀ i, lowerBoundAux comp l fuel first len ≤ i → i < l.length →
          comp (l.getD i 0) = false) := by
  induction fuel with
  | zero =>
    intro first len h1 h2 hlow hup
    have h0 : len = 0 := by omega
    subst h0
    exact ⟨by simpa [lowerBoundAux] using h2, by simpa [lowerBoundAux] using hlow,
      by simpa [lowerBoundAux] using hup⟩
  | succ n ih =>
    intro first len h1 h2 hlow hup
    unfold lowerBoundAux
    by_cases hlen : len = 0
    · subst hlen
      simp only [if_true]
      exact ⟨by simpa using h2, hlow, by simpa using hup⟩
    · simp only [hlen, if_false]
      by_cases hc : comp (l.getD (first + len / 2) 0) = true
      · rw [if_pos hc]
        apply ih (first + len / 2 + 1) (len - len / 2 - 1) (by omega) (by omega)
        · intro i hi
          exact hmono i (first + len / 2) (by omega) (by omega) hc
        · intro i hi hil
          exact hup i (by omega) hil
      · rw [if_neg hc]
        apply ih first (len / 2) (by omega) (by omega) hlow
        intro i hi hil
        cases h : comp (l.getD i 0) with
        | false => rfl
        | true => exact absurd (hmono (first + len / 2) i hi hil h) hc

theorem sorted_mono (R : Item → Item → Bool) (aItem : Item) (l : List Item)
    (hneg : ∀ x y z, R x z = true → R x y = true ∨ R y z = true)
    (hsorted : l.Pairwise (fun x y => R y x = false)) :
    ∀ i j, i ≤ j → j < l.length → R (l.getD j 0) aItem = true →
      R (l.getD i 0) aItem = true := by
  intro i j hij hj hc
  rcases Nat.eq_or_lt_of_le hij with e | hlt
  · subst e
    exact hc
  · have hi : i < l.length := by omega
    have hp := List.pairwise_iff_getElem.mp hsorted i j hi hj hlt
    rw [List.getD_eq_getElem l 0 hj] at hc
    rw [List.getD_eq_getElem l 0 hi]
    rcases hneg _ l[i] _ hc with h | h
    · rw [hp] at h
      exact Bool.noConfusion h
    · exact h

theorem lowerBound_spec (H : PropertyItemHandler) (aSortProperty aSortAscending : Int)
    (l : List Item) (aItem : Item)
    (hneg : ∀ x y z, itemSort H aSortProperty aSortAscending x z = true →
      itemSort H aSortProperty aSortAscending x y = true ∨
        itemSort H aSortProperty aSortAscending y z = true)
    (hsorted : l.Pairwise (fun x y => itemSort H aSortProperty aSortAscending y x = false)) :
    lowerBound H aSortProperty aSortAscending l aItem ≤ l.length ∧
      (∀ x ∈ l.take (lowerBound H aSortProperty aSortAscending l aItem),
        itemSort H aSortProperty aSortAscending x aItem = true) ∧
      (∀ x ∈ l.drop (lowerBound H aSortProperty aSortAscending l aItem),
        itemSort H aSortProperty aSortAscending x aItem = false) := by
  have hmono := sorted_mono (itemSort H aSortProperty aSortAscending) aItem l hneg hsorted
  obtain ⟨h1, h2, h3⟩ := lowerBoundAux_spec
    (fun x => itemSort H aSortProperty aSortAscending x aItem) l hmono l.length 0 l.length
    (le_refl _) (by omega) (by intro i hi; omega) (by intro i hi hil; omega)
  refine ⟨h1, ?_, ?_⟩
  · intro x hx
    obtain ⟨i, hi, rfl⟩ := List.mem_take_iff_getElem.mp hx
    have hil : i < l.length := by omega
    have hlt : i < lowerBound H aSortProperty aSortAscending l aItem := by omega
    have := h2 i hlt
    rw [List.getD_eq_getElem l 0 hil] at this
    exact this
  · intro x hx
    obtain ⟨i, hi, rfl⟩ := List.mem_drop_iff_getElem.mp hx
    have hil : lowerBound H aSortProperty aSortAscending l aItem + i < l.length := by omega
    have := h3 (lowerBound H aSortProperty aSortAscending l aItem + i)
      (Nat.le_add_right _ _) hil
    rw [List.getD_eq_getElem l 0 hil] at this
    exact this

/-- Claim C27. Let the comparison `itemSort` under the sort settings be a strict weak order
(asymmetric, and an item below another is below or above any third), and let `matchingItems`
be sorted by it. For an item that passes the filters, `handleAddItem` adds the item to
`allItems` and inserts it into `matchingItems` at its lower bound `pos`: the items before `pos`
are below the item, those from `pos` on are not; `matchingItems` stays sorted, and `rangeStart`
is raised by one exactly when `pos < rangeStart`. For an item that does not pass the filters,
the item is added to `allItems` only, and `rangeStart` is unchanged. -/
theorem handleAddItem_sorted (H : PropertyItemHandler) (v : ListViewController) (aItem : Item)
    (aSortProperty aSortAscending : Int) (rangeStart : Int)
    (hasym : ∀ x y, itemSort H aSortProperty aSortAscending x y = true →
      itemSort H aSortProperty aSortAscending y x = false)
    (hneg : ∀ x y z, itemSort H aSortProperty aSortAscending x z = true →
      itemSort H aSortProperty aSortAscending x y = true ∨
        itemSort H aSortProperty aSortAscending y z = true)
    (hsorted : v.matchingItems.Pairwise
      (fun x y => itemSort H aSortProperty aSortAscending y x = false)) :
    (matchesFilter aItem (getFilterMatchers v) = true →
      ∃ pos, pos = lowerBound H aSortProperty aSortAscending v.matchingItems aItem ∧
        pos ≤ v.matchingItems.length ∧
        (∀ x ∈ v.matchingItems.take pos,
          itemSort H aSortProperty aSortAscending x aItem = true) ∧
        (∀ x ∈ v.matchingItems.drop pos,
          itemSort H aSortProperty aSortAscending x aItem = false) ∧
        (handleAddItem H v aItem aSortProperty aSortAscending rangeStart).1.matchingItems
          = v.matchingItems.take pos ++ aItem :: v.matchingItems.drop pos ∧
        (handleAddItem H v aItem aSortProperty aSortAscending rangeStart).1.matchingItems.Pairwise
          (fun x y => itemSort H aSortProperty aSortAscending y x = false) ∧
        (∀ x, x ∈ (handleAddItem H v aItem aSortProperty aSortAscending rangeStart).1.allItems
          ↔ x = aItem ∨ x ∈ v.allItems) ∧
        (handleAddItem H v aItem aSortProperty aSortAscending rangeStart).2
          = if (pos : Int) < rangeStart then rangeStart + 1 else rangeStart) ∧
    (matchesFilter aItem (getFilterMatchers v) = false →
      (handleAddItem H v aItem aSortProperty aSortAscending rangeStart).1.matchingItems
          = v.matchingItems ∧
        (∀ x, x ∈ (handleAddItem H v aItem aSortProperty aSortAscending rangeStart).1.allItems
          ↔ x = aItem ∨ x ∈ v.allItems) ∧
        (handleAddItem H v aItem aSortProperty aSortAscending rangeStart).2 = rangeStart) := by
  constructor
  · intro hpass
    obtain ⟨h1, h2, h3⟩ :=
      lowerBound_spec H aSortProperty aSortAscending v.matchingItems aItem hneg hsorted
    have hm : (handleAddItem H v aItem aSortProperty aSortAscending rangeStart).1.matchingItems
        = v.matchingItems.take (lowerBound H aSortProperty aSortAscending v.matchingItems aItem)
          ++ aItem ::
            v.matchingItems.drop
              (lowerBound H aSortProperty aSortAscending v.matchingItems aItem) := by
      unfold handleAddItem
      simp only [hpass, if_true]
      split_ifs <;> rfl
    refine ⟨_, rfl, h1, h2, h3, hm, ?_, ?_, ?_⟩
    · rw [hm, List.pairwise_append]
      have hsplit := List.take_append_drop
        (lowerBound H aSortProperty aSortAscending v.matchingItems aItem) v.matchingItems
      rw [← hsplit, List.pairwise_append] at hsorted
      obtain ⟨s1, s2, s3⟩ := hsorted
      refine ⟨s1, ?_, ?_⟩
      · rw [List.pairwise_cons]
        exact ⟨fun y hy => h3 y hy, s2⟩
      · intro x hx y hy
        rcases List.mem_cons.mp hy with e | e
        · rw [e]
          exact hasym x aItem (h2 x hx)
        · exact s3 x hx y e
    · intro x
      unfold handleAddItem
      simp only [hpass, if_true]
      split_ifs <;> exact mem_setInsert _ _ _
    · unfold handleAddItem
      simp only [hpass, if_true]
      split_ifs <;> rfl
  · intro hpass
    unfold handleAddItem
    simp only [hpass, Bool.false_eq_true, if_false]
    exact ⟨trivial, fun x => mem_setInsert _ _ _, trivial⟩

end webserver

namespace webserver

theorem exampleHandler_asymm (x y : Item) (h : itemSort exampleHandler 0 1 x y = true) :
    itemSort exampleHandler 0 1 y x = false := by
  simp only [itemSort, exampleHandler, compare3, if_true, decide_eq_true_eq,
    decide_eq_false_iff_not] at h ⊢
  split_ifs at h ⊢ <;> omega

theorem exampleHandler_negTrans (x y z : Item) (h : itemSort exampleHandler 0 1 x z = true) :
    itemSort exampleHandler 0 1 x y = true ∨ itemSort exampleHandler 0 1 y z = true := by
  simp only [itemSort, exampleHandler, compare3, if_true, decide_eq_true_eq] at h ⊢
  split_ifs at h ⊢ <;> omega

/-- Witness for claim C27: the item `4` is added to the sorted items `1`, `3`, `5` with
`rangeStart = 3`; it is inserted at position `2`, and `rangeStart` becomes `4`. -/
theorem handleAddItem_sorted_witness :
    (exampleViewGap.matchingItems.Pairwise (fun x y => itemSort exampleHandler 0 1 y x = false) ∧
      matchesFilter 4 (getFilterMatchers exampleViewGap) = true ∧
      lowerBound exampleHandler 0 1 exampleViewGap.matchingItems 4 = 2 ∧
      (handleAddItem exampleHandler exampleViewGap 4 0 1 3).1.matchingItems = [1, 3, 4, 5] ∧
      (handleAddItem exampleHandler exampleViewGap 4 0 1 3).2 = 4) ∧
    ∃ pos, pos = lowerBound exampleHandler 0 1 exampleViewGap.matchingItems 4 ∧
      pos ≤ exampleViewGap.matchingItems.length ∧
      (∀ x ∈ exampleViewGap.matchingItems.take pos, itemSort exampleHandler 0 1 x 4 = true) ∧
      (∀ x ∈ exampleViewGap.matchingItems.drop pos, itemSort exampleHandler 0 1 x 4 = false) ∧
      (handleAddItem exampleHandler exampleViewGap 4 0 1 3).1.matchingItems
        = exampleViewGap.matchingItems.take pos ++ 4 :: exampleViewGap.matchingItems.drop pos ∧
      (handleAddItem exampleHandler exampleViewGap 4 0 1 3).1.matchingItems.Pairwise
        (fun x y => itemSort exampleHandler 0 1 y x = false) ∧
      (∀ x, x ∈ (handleAddItem exampleHandler exampleViewGap 4 0 1 3).1.allItems
        ↔ x = 4 ∨ x ∈ exampleViewGap.allItems) ∧
      (handleAddItem exampleHandler exampleViewGap 4 0 1 3).2
        = if (pos : Int) < 3 then 3 + 1 else 3 :=
  ⟨⟨by decide, by decide, by decide, by decide, by decide⟩,
    (handleAddItem_sorted exampleHandler exampleViewGap 4 0 1 3 exampleHandler_asymm
      exampleHandler_negTrans (by decide)).1 (by decide)⟩

end webserver

namespace webserver

/-! ## Claims about the tasks of a tick -/

/-- Claim C31 does not hold of the code. After a filter that passes only item `1` was posted,
the view activated on the items `1` and `2`, and item `3` added in a tick, `allItems` holds item
`3` and `matchingItems` does not. When item `3` is then removed, `handleTasks` runs
`handleRemoveItem` for it: `findItem` returns the end position and the erase is undefined, so
the tick has no defined result. The same happens for item `2` after the filter is narrowed to
item `1` by a filter change. -/
theorem handleRemoveItem_hidden_item :
    exampleHiddenRemove.map (fun v => (v.allItems, v.matchingItems,
        v.tasks.tasks.map (fun t => (t.1, t.2.type))))
      = some ([1, 2, 3], [1, 2], [(3, Tasks.REMOVE_ITEM)]) ∧
    exampleHiddenRemove.map (fun v => (matchesFilter 3 (getFilterMatchers v),
        decide (v.matchingItems.indexOf 3 = v.matchingItems.length),
        (handleRemoveItem v 3 0).isNone))
      = some (false, true, true) ∧
    (exampleHiddenRemove.bind (runTasks exampleHandler)).isNone = true ∧
    exampleFilterNarrowed.map (fun v => (v.allItems, v.matchingItems,
        v.tasks.tasks.map (fun t => (t.1, t.2.type))))
      = some ([1, 2], [1], [(2, Tasks.REMOVE_ITEM)]) ∧
    exampleFilterNarrowed.map (fun v =>
        (decide (v.matchingItems.indexOf 2 = v.matchingItems.length),
          (handleRemoveItem v 2 0).isNone))
      = some (true, true) ∧
    (exampleFilterNarrowed.bind (runTasks exampleHandler)).isNone = true := by
  decide

/-- Claim C32 does not hold of the code. The view is activated on the items `1` and `2` by
settings without a sort property, so the stored sort property is `-1`; item `3` is added and
item `1` is removed. The tick takes both tasks out of the task map and returns at the test
`sortProperty < 0`: the task map is empty, the two collections are as before and nothing is
sent. After settings with a sort property are posted and a second tick has run, item `1` is
still in both collections and item `3` in neither. -/
theorem runTasks_drops_tasks_unsorted :
    exampleUnsorted.map (fun v => (v.currentValues.values.sortProperty, v.allItems,
        v.matchingItems, v.tasks.tasks.map (fun t => (t.1, t.2.type))))
      = some (-1, [1, 2], [1, 2], [(1, Tasks.REMOVE_ITEM), (3, Tasks.ADD_ITEM)]) ∧
    (exampleUnsorted.bind (runTasks exampleHandler)).map (fun v => (v.allItems,
        v.matchingItems, v.tasks.tasks.map (fun t => (t.1, t.2.type)), v.sent.length))
      = some ([1, 2], [1, 2], [], 0) ∧
    exampleUnsortedLater.map (fun v => (v.currentValues.values.sortProperty, v.allItems,
        v.matchingItems))
      = some (0, [1, 2], [1, 2]) ∧
    exampleUnsortedLater.map (fun v => (v.tasks.tasks.map (fun t => (t.1, t.2.type)),
        v.sent.length))
      = some ([], 1) := by
  refine ⟨by decide, by decide, by decide, by decide⟩

end webserver

namespace dcpp

/-! ## The calls with the assertions compiled out -/

theorem pushAsserted_unsetNew (s : BundleQueue) (b : BundlePtr) :
    pushAsserted (unsetNew s b) b = pushAsserted s b := by
  simp [pushAsserted, unsetNew]

/-- With the assertion checked, `addSearchPrio` gives the state of the unchecked method when the
condition holds, and stops otherwise. -/
theorem addSearchPrio_eq_release (s : BundleQueue) (b : BundlePtr) :
    addSearchPrio s b = if pushAsserted s b then some (addSearchPrioRelease s b) else none := by
  unfold addSearchPrio addSearchPrioRelease pushAsserted
  simp only
  split_ifs <;> simp_all

theorem addBundle_eq_release (U : PathUtil) (s : BundleQueue) (b : BundlePtr) :
    addBundle U s b = if pushAsserted s b then some (addBundleRelease U s b) else none := by
  unfold addBundle addBundleRelease
  rw [addSearchPrio_eq_release, pushAsserted_unsetNew]
  by_cases h : pushAsserted s b = true
  · rw [if_pos h, if_pos h]
    simp only
    split_ifs <;> rfl
  · rw [if_neg h, if_neg h]

theorem removeBundle_eq_release (U : PathUtil) (s : BundleQueue) (b : BundlePtr) :
    removeBundle U s b =
      if (s.heap b).flagNew = true ∨
          ((s.heap b).finishedFiles = [] ∧ (s.heap b).queueItems = []) then
        some (removeBundleRelease U s b)
      else none := by
  unfold removeBundle removeBundleRelease
  simp only
  by_cases h1 : (s.heap b).flagNew = true
  · simp [h1]
  · by_cases h2 : (s.heap b).finishedFiles = []
    · by_cases h3 : (s.heap b).queueItems = []
      · simp [h1, h2, h3]
      · simp [h1, h2, h3]
    · simp [h1, h2]

theorem findAutoSearch_release (env : SearchEnv) (s : BundleQueue) :
    findAutoSearchRelease env s =
      match findAutoSearch env s with
      | some r => r
      | none => (none, s) := by
  unfold findAutoSearchRelease findAutoSearch
  simp only
  split_ifs with h1 h2
  · rfl
  · rw [h2]
    rfl
  · cases hf : (s.prioSearchQueue (env.draw + 2)).find? env.allowAutoSearch with
    | none => rfl
    | some b => rfl

theorem findAutoSearchRelease_inv (env : SearchEnv) {s : BundleQueue} (hs : SchedInv s) :
    SchedInv (findAutoSearchRelease env s).2 ∧
      (findAutoSearchRelease env s).2.heap = s.heap := by
  rw [findAutoSearch_release]
  cases hf : findAutoSearch env s with
  | none => exact ⟨hs, rfl⟩
  | some r =>
    obtain ⟨a1, a2, _, _⟩ := findAutoSearch_spec (r := r.1) (t := r.2) hs hf
    exact ⟨a1, a2⟩

theorem findRecentLoop_release (env : SearchEnv) (fuel : Nat) :
    ∀ (count : Nat) (s : BundleQueue) (r : Option BundlePtr × BundleQueue),
      findRecentLoop env fuel count s = some r →
      findRecentLoopRelease env fuel count s = some r := by
  induction fuel with
  | zero =>
    intro count s r h
    simp [findRecentLoop] at h
  | succ n ih =>
    intro count s r h
    unfold findRecentLoop at h
    unfold findRecentLoopRelease
    cases hq : s.recentSearchQueue with
    | nil => rw [hq] at h; simp at h
    | cons b rest =>
      rw [hq] at h
      simp only at h ⊢
      cases hnext : (if env.checkRecent b = true then
          some { checkRecent env { s with recentSearchQueue := rest } b with
            recentSearchQueue := rest ++ [b] }
        else addSearchPrio (checkRecent env { s with recentSearchQueue := rest } b) b) with
      | none => rw [hnext] at h; simp at h
      | some s2 =>
        rw [hnext] at h
        simp only at h
        have e : (if env.checkRecent b = true then
            { checkRecent env { s with recentSearchQueue := rest } b with
              recentSearchQueue := rest ++ [b] }
          else addSearchPrioRelease (checkRecent env { s with recentSearchQueue := rest } b) b)
            = s2 := by
          by_cases hc : env.checkRecent b = true
          · rw [if_pos hc] at hnext ⊢
            exact Option.some.inj hnext
          · rw [if_neg hc] at hnext ⊢
            rw [addSearchPrio_eq_release] at hnext
            split_ifs at hnext
            exact Option.some.inj hnext
        rw [e]
        split_ifs at h ⊢ with ha hl
        · exact h
        · exact h
        · exact ih _ _ _ h

theorem findRecent_release (env : SearchEnv) (s : BundleQueue)
    (r : Option BundlePtr × BundleQueue) (h : findRecent env s = some r) :
    findRecentRelease env s = some r := by
  unfold findRecent at h
  unfold findRecentRelease
  split_ifs at h ⊢ with h0
  · exact h
  · exact findRecentLoop_release env _ 0 s r h

theorem findRecentRelease_inv (env : SearchEnv) {s : BundleQueue} (hs : SchedInv s) :
    ∃ r t, findRecentRelease env s = some (r, t) ∧ SchedInv t ∧
      ∀ x, (t.heap x).priority = (s.heap x).priority := by
  obtain ⟨r, hr⟩ := findRecent_isSome env hs
  obtain ⟨a1, a2, _⟩ := findRecent_spec (r := r.1) (t := r.2) hs hr
  exact ⟨r.1, r.2, findRecent_release env s r hr, a1, a2⟩

theorem findSearchBundleRelease_inv (env : SearchEnv) {s : BundleQueue} (aTick : Nat)
    (force : Bool) (hs : SchedInv s) :
    ∃ r t, findSearchBundleRelease env s aTick force = some (r, t) ∧ SchedInv t ∧
      ∀ x, (t.heap x).priority = (s.heap x).priority := by
  unfold findSearchBundleRelease
  simp only
  generalize hfst : (if aTick ≥ s.nextSearch ∨ force = true then findAutoSearchRelease env s
    else (none, s)) = first
  have hinv : SchedInv first.2 ∧ first.2.heap = s.heap := by
    rw [← hfst]
    split_ifs with hc
    · exact findAutoSearchRelease_inv env hs
    · exact ⟨hs, rfl⟩
  obtain ⟨r1, s1⟩ := first
  obtain ⟨h1, h2⟩ := hinv
  simp only at h1 h2
  cases r1 with
  | some b => exact ⟨_, _, rfl, h1, fun x => by rw [h2]⟩
  | none =>
    simp only
    split_ifs with hc
    · obtain ⟨r, t, e, a1, a2⟩ := findRecentRelease_inv env h1
      exact ⟨r, t, e, a1, fun x => by rw [a2 x, h2]⟩
    · exact ⟨_, _, rfl, h1, fun x => by rw [h2]⟩

theorem addSearchPrioRelease_inv {s : BundleQueue} {b : BundlePtr} (hs : SchedInv s)
    (h : pushAsserted s b = true) : SchedInv (addSearchPrioRelease s b) := by
  have e := addSearchPrio_eq_release s b
  rw [if_pos h] at e
  exact addSearchPrio_inv hs e

theorem addBundleRelease_inv {U : PathUtil} {s : BundleQueue} {b : BundlePtr} (hs : SchedInv s)
    (h : pushAsserted s b = true) : SchedInv (addBundleRelease U s b) := by
  have e := addBundle_eq_release U s b
  rw [if_pos h] at e
  exact addBundle_inv hs e

theorem removeBundleRelease_inv (U : PathUtil) {s : BundleQueue} (b : BundlePtr)
    (hs : SchedInv s) : SchedInv (removeBundleRelease U s b) := by
  unfold removeBundleRelease
  simp only
  split_ifs with h1
  · exact hs
  · obtain ⟨a1, a2, a3, _⟩ := removeDirectory_foldl U (s.heap b).bundleDirs s
    have hs1 : SchedInv ((s.heap b).bundleDirs.foldl (removeDirectory U) s) :=
      hs.congr (fun x => by rw [a1]) (fun x => by rw [a1]) a2 a3
    exact (removeSearchPrio_inv b hs1).congr (fun _ => rfl) (fun _ => rfl) rfl rfl

theorem stepRelease_inv {U : PathUtil} {s : BundleQueue} {op : Op} (hs : SchedInv s)
    (h : opAsserted s op = true) : ∃ t, stepRelease U s op = some t ∧ SchedInv t := by
  cases op with
  | addBundle b => exact ⟨_, rfl, addBundleRelease_inv hs h⟩
  | removeBundle b => exact ⟨_, rfl, removeBundleRelease_inv U b hs⟩
  | addSearchPrio b => exact ⟨_, rfl, addSearchPrioRelease_inv hs h⟩
  | removeSearchPrio b => exact ⟨_, rfl, removeSearchPrio_inv b hs⟩
  | findSearchBundle env aTick force =>
    obtain ⟨r, t, e, a1, _⟩ := findSearchBundleRelease_inv env aTick force hs
    exact ⟨t, by simp [stepRelease, e], a1⟩
  | moveBundle b newTarget => exact ⟨_, rfl, moveBundle_inv U b newTarget hs⟩

theorem runRelease_inv (U : PathUtil) (ops : List Op) :
    ∀ s : BundleQueue, SchedInv s → assertsHold U ops s = true →
      ∃ t, runRelease U ops s = some t ∧ SchedInv t := by
  induction ops with
  | nil =>
    intro s hs _
    exact ⟨s, rfl, hs⟩
  | cons op ops ih =>
    intro s hs h
    simp only [assertsHold, Bool.and_eq_true] at h
    obtain ⟨t, e, ht⟩ := stepRelease_inv (U := U) hs h.1
    have h2 := h.2
    rw [e] at h2
    obtain ⟨t2, e2, ht2⟩ := ih t ht h2
    exact ⟨t2, by simp only [runRelease, e]; exact e2, ht2⟩

end dcpp

namespace dcpp

/-! ## No bundle below LOW is queued, with or without the assertions -/

theorem QueuedLow.at_empty (heap : BundlePtr → Bundle) : QueuedLow (BundleQueue.empty heap) := by
  constructor <;> simp [BundleQueue.empty]

theorem QueuedLow.subset {s t : BundleQueue} (h : QueuedLow s)
    (hp : ∀ x, (t.heap x).priority = (s.heap x).priority)
    (hq : ∀ p b, b ∈ t.prioSearchQueue p → b ∈ s.prioSearchQueue p)
    (hrq : ∀ b, b ∈ t.recentSearchQueue → b ∈ s.recentSearchQueue) : QueuedLow t := by
  constructor
  · intro p b hb
    rw [hp]
    exact h.1 p b (hq p b hb)
  · intro b hb
    rw [hp]
    exact h.2 b (hrq b hb)

theorem addSearchPrioRelease_low {s : BundleQueue} (b : BundlePtr) (hs : QueuedLow s) :
    QueuedLow (addSearchPrioRelease s b) := by
  unfold addSearchPrioRelease
  simp only
  split_ifs with h1 h2
  · exact hs
  · constructor
    · exact hs.1
    · intro x hx
      simp only [List.mem_append, List.mem_singleton] at hx
      rcases hx with hx | hx
      · exact hs.2 x hx
      · subst hx
        exact Nat.le_of_not_lt h1
  · constructor
    · intro p x hx
      simp only at hx
      by_cases hp : p = (s.heap b).priority
      · subst hp
        rw [Function.update_same] at hx
        simp only [List.mem_append, List.mem_singleton] at hx
        rcases hx with hx | hx
        · exact hs.1 _ x hx
        · subst hx
          exact Nat.le_of_not_lt h1
      · rw [Function.update_noteq hp] at hx
        exact hs.1 p x hx
    · exact hs.2

theorem addSearchPrioRelease_frame (s : BundleQueue) (b : BundlePtr) :
    (addSearchPrioRelease s b).heap = s.heap ∧ (addSearchPrioRelease s b).bundles = s.bundles ∧
      ((s.heap b).recent = false →
        (addSearchPrioRelease s b).recentSearchQueue = s.recentSearchQueue) := by
  unfold addSearchPrioRelease
  simp only
  split_ifs with h1 h2
  · exact ⟨rfl, rfl, fun _ => rfl⟩
  · refine ⟨rfl, rfl, ?_⟩
    intro h
    rw [h2] at h
    exact Bool.noConfusion h
  · exact ⟨rfl, rfl, fun _ => rfl⟩

theorem unsetNew_low {s : BundleQueue} (b : BundlePtr) (hs : QueuedLow s) :
    QueuedLow (unsetNew s b) := by
  apply hs.subset
  · intro x
    by_cases hx : x = b
    · subst hx; simp [unsetNew]
    · simp [unsetNew, Function.update_noteq hx]
  · intro p x hx
    exact hx
  · intro x hx
    exact hx

theorem addBundleRelease_low (U : PathUtil) {s : BundleQueue} (b : BundlePtr)
    (hs : QueuedLow s) : QueuedLow (addBundleRelease U s b) := by
  have h1 := addSearchPrioRelease_low b (unsetNew_low b hs)
  unfold addBundleRelease
  simp only
  split_ifs <;> exact h1.subset (fun _ => rfl) (fun _ _ h => h) (fun _ h => h)

theorem removeSearchPrio_low {s : BundleQueue} (b : BundlePtr) (hs : QueuedLow s) :
    QueuedLow (removeSearchPrio s b) := by
  unfold removeSearchPrio
  simp only
  split_ifs with h1 h2
  · exact hs
  · exact hs.subset (fun _ => rfl) (fun _ _ h => h) (fun _ h => List.mem_of_mem_erase h)
  · refine hs.subset (fun _ => rfl) ?_ (fun _ h => h)
    intro p x hx
    simp only at hx
    by_cases hp : p = (s.heap b).priority
    · subst hp
      rw [Function.update_same] at hx
      exact List.mem_of_mem_erase hx
    · rw [Function.update_noteq hp] at hx
      exact hx

theorem removeBundleRelease_low (U : PathUtil) {s : BundleQueue} (b : BundlePtr)
    (hs : QueuedLow s) : QueuedLow (removeBundleRelease U s b) := by
  unfold removeBundleRelease
  simp only
  split_ifs with h1
  · exact hs
  · obtain ⟨a1, a2, a3, _⟩ := removeDirectory_foldl U (s.heap b).bundleDirs s
    have hs1 : QueuedLow ((s.heap b).bundleDirs.foldl (removeDirectory U) s) :=
      hs.subset (fun x => by rw [a1]) (fun p x h => by rw [a2] at h; exact h)
        (fun x h => by rw [a3] at h; exact h)
    exact (removeSearchPrio_low b hs1).subset (fun _ => rfl) (fun _ _ h => h) (fun _ h => h)

theorem moveBundle_low (U : PathUtil) {s : BundleQueue} (b : BundlePtr) (newTarget : String)
    (hs : QueuedLow s) : QueuedLow (moveBundle U s b newTarget) := by
  apply hs.subset
  · intro x
    by_cases hx : x = b
    · subst hx; simp [moveBundle, addDirectory, removeDirectory]
    · simp [moveBundle, addDirectory, removeDirectory, Function.update_noteq hx]
  · intro p x hx
    exact hx
  · intro x hx
    exact hx

theorem findAutoSearchRelease_low (env : SearchEnv) {s : BundleQueue} (hs : QueuedLow s) :
    QueuedLow (findAutoSearchRelease env s).2 := by
  unfold findAutoSearchRelease
  simp only
  split_ifs with h1
  · exact hs
  · cases hf : (s.prioSearchQueue (env.draw + 2)).find? env.allowAutoSearch with
    | none => exact hs
    | some b =>
      have hperm := rotate_perm env.allowAutoSearch _ b hf
      refine hs.subset (fun _ => rfl) ?_ (fun _ h => h)
      intro p x hx
      simp only at hx
      by_cases hp : p = env.draw + 2
      · subst hp
        rw [Function.update_same] at hx
        exact hperm.mem_iff.mp hx
      · rw [Function.update_noteq hp] at hx
        exact hx

/-- One iteration of the loop of `findRecent` without the assertion: the recent queue does not
grow and no bundle below `LOW` gets queued. -/
theorem requeueRelease_low (env : SearchEnv) {s : BundleQueue} {b : BundlePtr}
    {rest : List BundlePtr} (hs : QueuedLow s) (hq : s.recentSearchQueue = b :: rest)
    (s2 : BundleQueue)
    (h2 : s2 = if env.checkRecent b = true then
        { checkRecent env { s with recentSearchQueue := rest } b with
          recentSearchQueue := rest ++ [b] }
      else addSearchPrioRelease (checkRecent env { s with recentSearchQueue := rest } b) b) :
    QueuedLow s2 ∧ s2.recentSearchQueue.length ≤ s.recentSearchQueue.length := by
  have hb : LOW ≤ (s.heap b).priority := hs.2 b (by rw [hq]; exact List.mem_cons_self _ _)
  have h1 : QueuedLow (checkRecent env { s with recentSearchQueue := rest } b) := by
    apply hs.subset
    · intro x
      exact checkRecent_priority env _ b x
    · intro p x hx
      exact hx
    · intro x hx
      rw [hq]
      exact List.mem_cons_of_mem _ hx
  by_cases hc : env.checkRecent b = true
  · rw [if_pos hc] at h2
    subst h2
    constructor
    · constructor
      · exact h1.1
      · intro x hx
        simp only [List.mem_append, List.mem_singleton] at hx
        rcases hx with hx | hx
        · exact h1.2 x hx
        · subst hx
          have := checkRecent_priority env { s with recentSearchQueue := rest } x x
          simp only at this ⊢
          rw [this]
          exact hb
    · simp [hq]
  · rw [if_neg hc] at h2
    subst h2
    have hc2 : env.checkRecent b = false := by simpa using hc
    refine ⟨addSearchPrioRelease_low b h1, ?_⟩
    rw [(addSearchPrioRelease_frame _ b).2.2 (by simp [checkRecent, hc2]), hq]
    simp [checkRecent]

theorem findRecentLoopRelease_low (env : SearchEnv) (fuel : Nat) :
    ∀ (count : Nat) (s : BundleQueue), QueuedLow s → s.recentSearchQueue ≠ [] →
      count ≤ s.recentSearchQueue.length → s.recentSearchQueue.length + 1 ≤ fuel + count →
      ∃ r t, findRecentLoopRelease env fuel count s = some (r, t) ∧ QueuedLow t := by
  induction fuel with
  | zero =>
    intro count s _ _ h1 h2
    omega
  | succ n ih =>
    intro count s hs hne h1 h2
    unfold findRecentLoopRelease
    cases hq : s.recentSearchQueue with
    | nil => exact absurd hq hne
    | cons b rest =>
      simp only
      obtain ⟨hl, hlen⟩ := requeueRelease_low env hs hq _ rfl
      generalize (if env.checkRecent b = true then
        { checkRecent env { s with recentSearchQueue := rest } b with
          recentSearchQueue := rest ++ [b] }
      else addSearchPrioRelease (checkRecent env { s with recentSearchQueue := rest } b) b)
        = s2 at hl hlen ⊢
      split_ifs with ha hc
      · exact ⟨_, _, rfl, hl⟩
      · exact ⟨_, _, rfl, hl⟩
      · have hc2 : count < s2.recentSearchQueue.length := Nat.lt_of_not_le hc
        apply ih (count + 1) s2 hl
        · intro e
          rw [e] at hc2
          simp at hc2
        · omega
        · omega

theorem findRecentRelease_low (env : SearchEnv) {s : BundleQueue} (hs : QueuedLow s) :
    ∃ r t, findRecentRelease env s = some (r, t) ∧ QueuedLow t := by
  unfold findRecentRelease
  split_ifs with h0
  · exact ⟨_, _, rfl, hs⟩
  · apply findRecentLoopRelease_low env _ 0 s hs
    · intro e
      rw [e] at h0
      simp at h0
    · omega
    · omega

theorem findSearchBundleRelease_low (env : SearchEnv) {s : BundleQueue} (aTick : Nat)
    (force : Bool) (hs : QueuedLow s) :
    ∃ r t, findSearchBundleRelease env s aTick force = some (r, t) ∧ QueuedLow t := by
  unfold findSearchBundleRelease
  simp only
  generalize hfst : (if aTick ≥ s.nextSearch ∨ force = true then findAutoSearchRelease env s
    else (none, s)) = first
  have hinv : QueuedLow first.2 := by
    rw [← hfst]
    split_ifs with hc
    · exact findAutoSearchRelease_low env hs
    · exact hs
  obtain ⟨r1, s1⟩ := first
  simp only at hinv
  cases r1 with
  | some b => exact ⟨_, _, rfl, hinv⟩
  | none =>
    simp only
    split_ifs with hc
    · exact findRecentRelease_low env hinv
    · exact ⟨_, _, rfl, hinv⟩

theorem stepRelease_low (U : PathUtil) {s : BundleQueue} (op : Op) (hs : QueuedLow s) :
    ∃ t, stepRelease U s op = some t ∧ QueuedLow t := by
  cases op with
  | addBundle b => exact ⟨_, rfl, addBundleRelease_low U b hs⟩
  | removeBundle b => exact ⟨_, rfl, removeBundleRelease_low U b hs⟩
  | addSearchPrio b => exact ⟨_, rfl, addSearchPrioRelease_low b hs⟩
  | removeSearchPrio b => exact ⟨_, rfl, removeSearchPrio_low b hs⟩
  | findSearchBundle env aTick force =>
    obtain ⟨r, t, e, a1⟩ := findSearchBundleRelease_low env aTick force hs
    exact ⟨t, by simp [stepRelease, e], a1⟩
  | moveBundle b newTarget => exact ⟨_, rfl, moveBundle_low U b newTarget hs⟩

/-- Without the assertions every sequence of calls completes, and it keeps bundles below `LOW`
out of the search queues. -/
theorem runRelease_low (U : PathUtil) (ops : List Op) :
    ∀ s : BundleQueue, QueuedLow s → ∃ t, runRelease U ops s = some t ∧ QueuedLow t := by
  induction ops with
  | nil =>
    intro s hs
    exact ⟨s, rfl, hs⟩
  | cons op ops ih =>
    intro s hs
    obtain ⟨t, e, ht⟩ := stepRelease_low U op hs
    obtain ⟨t2, e2, ht2⟩ := ih t ht
    exact ⟨t2, by simp only [runRelease, e]; exact e2, ht2⟩

end dcpp

namespace dcpp

/-! ## Claims about the search queues and the registry, with and without the assertions -/

theorem findSearchBundle_release (env : SearchEnv) (s : BundleQueue) (aTick : Nat) (force : Bool)
    (r : Option BundlePtr × BundleQueue) (h : findSearchBundle env s aTick force = some r) :
    findSearchBundleRelease env s aTick force = some r := by
  unfold findSearchBundle at h
  unfold findSearchBundleRelease
  simp only at h ⊢
  by_cases hc : aTick ≥ s.nextSearch ∨ force = true
  · rw [if_pos hc] at h ⊢
    rw [findAutoSearch_release]
    cases hf : findAutoSearch env s with
    | none => rw [hf] at h; simp at h
    | some r1 =>
      rw [hf] at h
      obtain ⟨b1, s1⟩ := r1
      cases b1 with
      | some b => exact h
      | none =>
        simp only at h ⊢
        split_ifs at h ⊢ with hc2
        · exact findRecent_release env s1 r h
        · exact h
  · rw [if_neg hc] at h ⊢
    simp only at h ⊢
    split_ifs at h ⊢ with hc2
    · exact findRecent_release env s r h
    · exact h

/-- A call that completes with the assertions checked met the condition of `addSearchPrio` and
gives the same state without them. -/
theorem step_release {U : PathUtil} {s t : BundleQueue} {op : Op} (h : step U s op = some t) :
    stepRelease U s op = some t ∧ opAsserted s op = true := by
  cases op with
  | addBundle b =>
    simp only [step] at h
    rw [addBundle_eq_release] at h
    split_ifs at h with hp
    exact ⟨h, hp⟩
  | removeBundle b =>
    simp only [step] at h
    rw [removeBundle_eq_release] at h
    split_ifs at h with hp
    exact ⟨h, rfl⟩
  | addSearchPrio b =>
    simp only [step] at h
    rw [addSearchPrio_eq_release] at h
    split_ifs at h with hp
    exact ⟨h, hp⟩
  | removeSearchPrio b => exact ⟨h, rfl⟩
  | findSearchBundle env aTick force =>
    simp only [step] at h
    cases hf : findSearchBundle env s aTick force with
    | none => rw [hf] at h; simp at h
    | some r =>
      rw [hf] at h
      refine ⟨?_, rfl⟩
      simp only [stepRelease, findSearchBundle_release env s aTick force r hf]
      exact h
  | moveBundle b newTarget => exact ⟨h, rfl⟩

/-- A sequence of calls that completes with the assertions checked is a sequence in which every
push met the condition of `addSearchPrio`, and it gives the same state without them. -/
theorem run_release (U : PathUtil) (ops : List Op) :
    ∀ s t : BundleQueue, run U ops s = some t →
      runRelease U ops s = some t ∧ assertsHold U ops s = true := by
  induction ops with
  | nil =>
    intro s t h
    exact ⟨h, rfl⟩
  | cons op ops ih =>
    intro s t h
    simp only [run] at h
    cases hst : step U s op with
    | none => rw [hst] at h; simp at h
    | some s1 =>
      rw [hst] at h
      obtain ⟨e1, e2⟩ := step_release hst
      obtain ⟨i1, i2⟩ := ih s1 t h
      simp only [runRelease, assertsHold, e1, e2, i1, i2, Bool.and_self, and_self]

/-- Counterexample to claim C7: without the assertions, adding the first example bundle twice
from the empty queue leaves it twice in the search queue of priority `NORMAL`. With the
assertions checked the second call stops at the `dcassert` of `addSearchPrio`. -/
theorem addBundle_twice_queued_twice :
    runRelease exampleUtil [Op.addBundle 0, Op.addBundle 0] (BundleQueue.empty exampleHeap)
        = some exampleTwice ∧
      exampleTwice.prioSearchQueue NORMAL = [0, 0] ∧
      occurrences exampleTwice LAST 0 = 2 ∧
      (run exampleUtil [Op.addBundle 0, Op.addBundle 0] (BundleQueue.empty exampleHeap)).isNone
        = true :=
  ⟨rfl, by decide, by decide, by decide⟩

/-- Claim C7, amended. Without the assertions every sequence of calls from the empty queue
completes. Afterwards no bundle with a priority below `LOW` is in a priority search queue or in
the recent search queue; and when no `addBundle` or `addSearchPrio` call of the sequence is made
for a bundle that is already in the queue it is pushed to (the condition that `addSearchPrio`
asserts), every bundle occurs at most once in the recent queue and the priority queues
together. -/
theorem searchQueues_unique (U : PathUtil) (heap : BundlePtr → Bundle) (ops : List Op) :
    ∃ s, runRelease U ops (BundleQueue.empty heap) = some s ∧
      (∀ b, (b ∈ s.recentSearchQueue ∨ ∃ p, b ∈ s.prioSearchQueue p) →
        LOW ≤ (s.heap b).priority) ∧
      (assertsHold U ops (BundleQueue.empty heap) = true → ∀ n b, occurrences s n b ≤ 1) := by
  obtain ⟨s, e, hl⟩ := runRelease_low U ops _ (QueuedLow.at_empty heap)
  refine ⟨s, e, ?_, ?_⟩
  · intro b hb
    rcases hb with hb | ⟨p, hb⟩
    · exact hl.2 b hb
    · exact hl.1 p b hb
  · intro h n b
    obtain ⟨t, e2, ht⟩ := runRelease_inv U ops _ (SchedInv.empty heap) h
    rw [e] at e2
    cases e2
    exact (occurrences_le_one ht n b).1

/-- Witness for claim C7: the example sequence meets the condition of `addSearchPrio` at every
push and ends in the state `exampleFinal`, in which the second bundle occurs exactly once in the
queues. -/
theorem searchQueues_unique_witness :
    (assertsHold exampleUtil exampleOps (BundleQueue.empty exampleHeap) = true ∧
        runRelease exampleUtil exampleOps (BundleQueue.empty exampleHeap) = some exampleFinal ∧
        occurrences exampleFinal LAST 1 = 1) ∧
      ∃ s, runRelease exampleUtil exampleOps (BundleQueue.empty exampleHeap) = some s ∧
        (∀ b, (b ∈ s.recentSearchQueue ∨ ∃ p, b ∈ s.prioSearchQueue p) →
          LOW ≤ (s.heap b).priority) ∧
        ∀ n b, occurrences s n b ≤ 1 :=
  ⟨⟨by decide, rfl, by decide⟩,
    (searchQueues_unique exampleUtil exampleHeap exampleOps).imp
      (fun _ h => ⟨h.1, h.2.1, h.2.2 (by decide)⟩)⟩

/-- Claim C8. For every registry state and every bundle `b`, after `addBundle(b)` the NEW flag of
`b` is cleared, the token of `b` is as before, `findBundle(b.token)` returns `b`, and
`findBundle(t)` is unchanged for every other token `t`. This is the method without the
assertions; with the assertions checked the call gives the same state when `b` is not yet in the
queue it is pushed to, and stops at the `dcassert` of `addSearchPrio` otherwise. -/
theorem addBundle_registers (U : PathUtil) (s : BundleQueue) (b : BundlePtr) :
    ((addBundleRelease U s b).heap b).flagNew = false ∧
      ((addBundleRelease U s b).heap b).token = (s.heap b).token ∧
      findBundle (addBundleRelease U s b) (s.heap b).token = some b ∧
      (∀ token, token ≠ (s.heap b).token →
        findBundle (addBundleRelease U s b) token = findBundle s token) ∧
      addBundle U s b =
        if pushAsserted s b = true then some (addBundleRelease U s b) else none := by
  obtain ⟨e1, e2, _⟩ := addSearchPrioRelease_frame (unsetNew s b) b
  have hb : (addSearchPrioRelease (unsetNew s b) b).heap b
      = { s.heap b with flagNew := false, downloadedBytes := 0 } := by
    rw [e1]
    simp [unsetNew]
  have hbundles : (addSearchPrioRelease (unsetNew s b) b).bundles = s.bundles := by
    rw [e2]
    rfl
  have htok : ((addSearchPrioRelease (unsetNew s b) b).heap b).token = (s.heap b).token := by
    rw [hb]
  have hgoal : ∀ t : BundleQueue, t.heap = (addSearchPrioRelease (unsetNew s b) b).heap →
      t.bundles = mapAssign (addSearchPrioRelease (unsetNew s b) b).bundles
        ((addSearchPrioRelease (unsetNew s b) b).heap b).token b →
      (t.heap b).flagNew = false ∧ (t.heap b).token = (s.heap b).token ∧
        findBundle t (s.heap b).token = some b ∧
        ∀ token, token ≠ (s.heap b).token → findBundle t token = findBundle s token := by
    intro t ht hm
    refine ⟨by rw [ht, hb], by rw [ht, htok], ?_, ?_⟩
    · unfold findBundle
      rw [hm, htok]
      exact lookup_mapAssign_self _ _ _
    · intro token hne
      unfold findBundle
      rw [hm, htok, hbundles]
      exact lookup_mapAssign_ne _ _ _ _ hne
  have hrel : (addBundleRelease U s b).heap = (addSearchPrioRelease (unsetNew s b) b).heap ∧
      (addBundleRelease U s b).bundles
        = mapAssign (addSearchPrioRelease (unsetNew s b) b).bundles
          ((addSearchPrioRelease (unsetNew s b) b).heap b).token b := by
    unfold addBundleRelease
    simp only
    split_ifs <;> exact ⟨rfl, rfl⟩
  obtain ⟨g1, g2, g3, g4⟩ := hgoal _ hrel.1 hrel.2
  exact ⟨g1, g2, g3, g4, addBundle_eq_release U s b⟩

/-- Witness for claim C8: the first example bundle is added once more to the queue that holds
both example bundles; the entry of the token `B` stays as it is. -/
theorem addBundle_registers_witness :
    (findBundle exampleAdded "B" = some 1 ∧ pushAsserted exampleAdded 0 = false) ∧
      ((addBundleRelease exampleUtil exampleAdded 0).heap 0).flagNew = false ∧
      ((addBundleRelease exampleUtil exampleAdded 0).heap 0).token = (exampleAdded.heap 0).token ∧
      findBundle (addBundleRelease exampleUtil exampleAdded 0) (exampleAdded.heap 0).token
        = some 0 ∧
      (∀ token, token ≠ (exampleAdded.heap 0).token →
        findBundle (addBundleRelease exampleUtil exampleAdded 0) token
          = findBundle exampleAdded token) ∧
      addBundle exampleUtil exampleAdded 0 =
        if pushAsserted exampleAdded 0 = true then
          some (addBundleRelease exampleUtil exampleAdded 0)
        else none :=
  ⟨⟨by decide, by decide⟩, addBundle_registers exampleUtil exampleAdded 0⟩

/-- Counterexample to claim C9: in the state in which the first example bundle was added twice
(registered, not new, without items), `removeBundle` erases one of its two entries in the search
queue of priority `NORMAL`: afterwards `findBundle` returns nothing for its token, and the bundle
is still queued. The assertions of `removeBundle` itself hold in that state. -/
theorem removeBundle_leaves_second_entry :
    runRelease exampleUtil [Op.addBundle 0, Op.addBundle 0] (BundleQueue.empty exampleHeap)
        = some exampleTwice ∧
      ((exampleTwice.heap 0).flagNew = false ∧ (exampleTwice.heap 0).queueItems = [] ∧
        (exampleTwice.heap 0).finishedFiles = [] ∧ findBundle exampleTwice "A" = some 0) ∧
      findBundle (removeBundleRelease exampleUtil exampleTwice 0) "A" = none ∧
      (removeBundleRelease exampleUtil exampleTwice 0).prioSearchQueue NORMAL = [0] ∧
      (removeBundle exampleUtil exampleTwice 0).map (fun t => t.prioSearchQueue NORMAL)
        = some [0] :=
  ⟨rfl, by decide, by decide, by decide, by decide⟩

/-- Claim C9, amended. For every registry state and every bundle `b`: when `b` has the NEW flag
set, `removeBundle(b)` changes nothing; when it has not, after `removeBundle(b)`
`findBundle(b.token)` returns nothing, and, in a state built from the empty queue by a sequence
of calls none of which pushes a bundle that is already in the queue it is pushed to (the
condition that `addSearchPrio` asserts), `b` is in no priority search queue and not in the recent
search queue. This is the method without the assertions; with the assertions checked the call
gives the same state when the item lists of `b` are empty. -/
theorem removeBundle_unregisters (U : PathUtil) (s : BundleQueue) (b : BundlePtr) :
    ((s.heap b).flagNew = true → removeBundleRelease U s b = s ∧ removeBundle U s b = some s) ∧
      ((s.heap b).flagNew = false →
        findBundle (removeBundleRelease U s b) (s.heap b).token = none ∧
        ((s.heap b).queueItems = [] → (s.heap b).finishedFiles = [] →
          removeBundle U s b = some (removeBundleRelease U s b)) ∧
        ∀ heap ops, assertsHold U ops (BundleQueue.empty heap) = true →
          runRelease U ops (BundleQueue.empty heap) = some s →
          (∀ p, b ∉ (removeBundleRelease U s b).prioSearchQueue p) ∧
            b ∉ (removeBundleRelease U s b).recentSearchQueue) := by
  constructor
  · intro hnew
    constructor
    · unfold removeBundleRelease
      simp [hnew]
    · unfold removeBundle
      simp [hnew]
  · intro hnew
    have hrel : removeBundleRelease U s b =
        { removeSearchPrio ((s.heap b).bundleDirs.foldl (removeDirectory U) s) b with
          bundles :=
            mapErase (removeSearchPrio ((s.heap b).bundleDirs.foldl (removeDirectory U) s) b).bundles
              (s.heap b).token } := by
      unfold removeBundleRelease
      simp [hnew]
    refine ⟨?_, ?_, ?_⟩
    · rw [hrel]
      unfold findBundle
      exact lookup_mapErase_self _ _
    · intro hq hf
      rw [removeBundle_eq_release]
      simp [hq, hf]
    · intro heap ops ha hr
      obtain ⟨t, e, hs⟩ := runRelease_inv U ops _ (SchedInv.empty heap) ha
      rw [hr] at e
      cases e
      obtain ⟨a1, a2, a3, a4⟩ := removeDirectory_foldl U (s.heap b).bundleDirs s
      have hs1 : SchedInv ((s.heap b).bundleDirs.foldl (removeDirectory U) s) :=
        hs.congr (fun x => by rw [a1]) (fun x => by rw [a1]) a2 a3
      have habs := removeSearchPrio_absent hs1 b
      rw [hrel]
      exact habs

/-- Witness for claim C9: after both example bundles are added, the first one (registered, not
new, without items, in the queue of priority `NORMAL`) is removed. -/
theorem removeBundle_unregisters_witness :
    ((exampleAdded.heap 0).flagNew = false ∧
        assertsHold exampleUtil [Op.addBundle 0, Op.addBundle 1] (BundleQueue.empty exampleHeap)
          = true ∧
        runRelease exampleUtil [Op.addBundle 0, Op.addBundle 1] (BundleQueue.empty exampleHeap)
          = some exampleAdded ∧
        findBundle exampleAdded (exampleAdded.heap 0).token = some 0 ∧
        0 ∈ exampleAdded.prioSearchQueue NORMAL) ∧
      findBundle (removeBundleRelease exampleUtil exampleAdded 0) (exampleAdded.heap 0).token
        = none ∧
      removeBundle exampleUtil exampleAdded 0
        = some (removeBundleRelease exampleUtil exampleAdded 0) ∧
      (∀ p, 0 ∉ (removeBundleRelease exampleUtil exampleAdded 0).prioSearchQueue p) ∧
      0 ∉ (removeBundleRelease exampleUtil exampleAdded 0).recentSearchQueue :=
  ⟨⟨rfl, by decide, rfl, rfl, by decide⟩,
    ((removeBundle_unregisters exampleUtil exampleAdded 0).2 rfl).1,
    ((removeBundle_unregisters exampleUtil exampleAdded 0).2 rfl).2.1 rfl rfl,
    ((removeBundle_unregisters exampleUtil exampleAdded 0).2 rfl).2.2 exampleHeap
      [Op.addBundle 0, Op.addBundle 1] (by decide) rfl⟩

end dcpp
